import Mathlib

/-!
# Animated-layer editor: evaluator, canvas and export loop

A shallow embedding of `src/data/animations.js`, `src/components/Canvas.js`
and `src/utils/VideoExporter.js`.

Conventions of the embedding:

* JavaScript numbers are exact rationals (`ℚ`); the infinities are not
  represented. The values of layer records include `NaN` (`Prim.nan`). Rounding
  is represented where a result depends on it: the bound of the frame loop
  (`totalFrames`) is computed with the rounding of IEEE 754 doubles
  (`roundDouble`), and the seek times and `interpolate` have a double-precision
  counterpart (`seekTimeDouble`, `interpolateDouble`).
* An editor layer is a plain object (`Obj`), of which `Canvas` reads the
  fields of `Layer`.
* A JavaScript object with optional keys is a structure of `Option` fields
  (`none` is an absent key).
* A CSS filter string `blur(<r>px)` is the value `Filter.blur r`.
* Code that can throw returns `Except JsError _`; `undefined` as a returned
  value is `none` of an `Option`.
* The asynchronous export loop is sequential in program order, so it is a
  function that produces the list of calls it makes on its collaborators and
  the way it ends. What the collaborators do is a parameter: whether a capture
  succeeds, and whether the callbacks `seekTo` and `onProgress`, the flush of
  the encoder and the finalize of the muxer return or throw.
-/

namespace AdEditor

/-! ## Animation table (`src/data/animations.js`) -/

/-- The `transition` objects that occur in the table:
`{ type: "spring", stiffness, damping }` and
`{ repeat: Infinity, repeatType: "reverse", duration }`. -/
inductive Transition where
  | spring (stiffness damping : ℚ)
  | repeatReverse (duration : ℚ)
  deriving DecidableEq, Repr

/-- The CSS filter strings of the table, `blur(<px>px)`. -/
inductive Filter where
  | blur (px : ℚ)
  deriving DecidableEq, Repr

/-- A property set: the objects stored under `initial`, `animate` and `exit`,
and the `style` object built by `getAnimationStyles`. -/
structure Props where
  opacity : Option ℚ := none
  scale : Option ℚ := none
  x : Option ℚ := none
  y : Option ℚ := none
  rotate : Option ℚ := none
  rotateX : Option ℚ := none
  rotateY : Option ℚ := none
  filter : Option Filter := none
  transition : Option Transition := none
  deriving DecidableEq, Repr

/-- One entry of the table. -/
structure Animation where
  name : String
  initial : Props
  animate : Props
  exit : Props
  deriving DecidableEq, Repr

/-- The object literal `ANIMATIONS`, as its own keys in source order. -/
def ANIMATIONS : List (String × Animation) :=
  [ ("none",
      { name := "None"
        initial := {}
        animate := {}
        exit := {} }),
    ("fadeIn",
      { name := "Fade In"
        initial := { opacity := some 0 }
        animate := { opacity := some 1 }
        exit := { opacity := some 0 } }),
    ("slideInLeft",
      { name := "Slide In Left"
        initial := { x := some (-100), opacity := some 0 }
        animate := { x := some 0, opacity := some 1 }
        exit := { x := some (-100), opacity := some 0 } }),
    ("slideInRight",
      { name := "Slide In Right"
        initial := { x := some 100, opacity := some 0 }
        animate := { x := some 0, opacity := some 1 }
        exit := { x := some 100, opacity := some 0 } }),
    ("slideInTop",
      { name := "Slide In Top"
        initial := { y := some (-100), opacity := some 0 }
        animate := { y := some 0, opacity := some 1 }
        exit := { y := some (-100), opacity := some 0 } }),
    ("slideInBottom",
      { name := "Slide In Bottom"
        initial := { y := some 100, opacity := some 0 }
        animate := { y := some 0, opacity := some 1 }
        exit := { y := some 100, opacity := some 0 } }),
    ("zoomIn",
      { name := "Zoom In"
        initial := { scale := some (1/2), opacity := some 0 }
        animate := { scale := some 1, opacity := some 1 }
        exit := { scale := some (1/2), opacity := some 0 } }),
    ("zoomOut",
      { name := "Zoom Out"
        initial := { scale := some (3/2), opacity := some 0 }
        animate := { scale := some 1, opacity := some 1 }
        exit := { scale := some (3/2), opacity := some 0 } }),
    ("bounceIn",
      { name := "Bounce In"
        initial := { scale := some (3/10), opacity := some 0 }
        animate := { scale := some 1, opacity := some 1, transition := some (.spring 260 20) }
        exit := { scale := some (3/10), opacity := some 0 } }),
    ("rotateIn",
      { name := "Rotate In"
        initial := { rotate := some (-180), opacity := some 0, scale := some (1/2) }
        animate := { rotate := some 0, opacity := some 1, scale := some 1 }
        exit := { rotate := some (-180), opacity := some 0, scale := some (1/2) } }),
    ("blurIn",
      { name := "Blur In"
        initial := { filter := some (.blur 10), opacity := some 0 }
        animate := { filter := some (.blur 0), opacity := some 1 }
        exit := { filter := some (.blur 10), opacity := some 0 } }),
    ("elasticPop",
      { name := "Elastic Pop"
        initial := { scale := some 0, opacity := some 0 }
        animate := { scale := some 1, opacity := some 1, transition := some (.spring 400 10) }
        exit := { scale := some 0, opacity := some 0 } }),
    ("slideInDiagonal",
      { name := "Slide In Diagonal"
        initial := { x := some (-100), y := some (-100), opacity := some 0 }
        animate := { x := some 0, y := some 0, opacity := some 1 }
        exit := { x := some (-100), y := some (-100), opacity := some 0 } }),
    ("flipInX",
      { name := "Flip In X"
        initial := { rotateX := some 90, opacity := some 0 }
        animate := { rotateX := some 0, opacity := some 1 }
        exit := { rotateX := some 90, opacity := some 0 } }),
    ("flipInY",
      { name := "Flip In Y"
        initial := { rotateY := some 90, opacity := some 0 }
        animate := { rotateY := some 0, opacity := some 1 }
        exit := { rotateY := some 90, opacity := some 0 } }),
    ("swing",
      { name := "Swing"
        initial := { rotate := some 15, opacity := some 0 }
        animate := { rotate := some 0, opacity := some 1, transition := some (.spring 200 10) }
        exit := { rotate := some 15, opacity := some 0 } }),
    ("heartbeat",
      { name := "Heartbeat"
        initial := { scale := some (4/5), opacity := some 0 }
        animate :=
          { scale := some 1, opacity := some 1, transition := some (.repeatReverse (4/5)) }
        exit := { scale := some (4/5), opacity := some 0 } }),
    ("wobble",
      { name := "Wobble"
        initial := { x := some (-20), rotate := some (-5), opacity := some 0 }
        animate :=
          { x := some 0, rotate := some 0, opacity := some 1
            transition := some (.spring 300 10) }
        exit := { x := some (-20), rotate := some (-5), opacity := some 0 } }) ]

/-- The property names an object literal inherits from `Object.prototype`.
`ANIMATIONS[k]` for such a `k` is the inherited function or object: a truthy
value that has neither an `initial` nor an `animate` property. -/
def objectPrototypeKeys : List String :=
  [ "constructor", "__proto__", "__defineGetter__", "__defineSetter__",
    "__lookupGetter__", "__lookupSetter__", "hasOwnProperty", "isPrototypeOf",
    "propertyIsEnumerable", "toLocaleString", "toString", "valueOf" ]

/-- What `ANIMATIONS[animationName] || ANIMATIONS.none` evaluates to. -/
inductive AnimRef where
  | entry (anim : Animation)
  | inherited
  deriving DecidableEq, Repr

/-- The entry stored under the key `none`. -/
def ANIMATIONS_none : Animation :=
  { name := "None", initial := {}, animate := {}, exit := {} }

/-- Line 14 of `Canvas.js`: `ANIMATIONS[animationName] || ANIMATIONS.none`.
Own keys come first, then the prototype chain; only a key found on neither
gives `undefined`, for which `||` selects `ANIMATIONS.none`. -/
def lookupAnimation (animationName : String) : AnimRef :=
  match ANIMATIONS.lookup animationName with
  | some anim => .entry anim
  | none =>
    if animationName ∈ objectPrototypeKeys then .inherited
    else .entry ANIMATIONS_none

/-! ## Animation evaluator (`src/components/Canvas.js`, lines 8-59) -/

/-- Errors thrown by the modelled code. -/
inductive JsError where
  | typeError
  | error (message : String)
  deriving DecidableEq, Repr

/-- `interpolate(start, end, progress)` in exact arithmetic; `interpolateDouble`
is the same expression with every operation rounded to a double. -/
def interpolate (start stop progress : ℚ) : ℚ :=
  start + (stop - start) * progress

/-- `v || 0` on an optional number. -/
def orZero (v : Option ℚ) : ℚ :=
  match v with
  | some q => q
  | none => 0

/-- `parseFloat(f.replace('blur(', '').replace('px)', '')) || 0`. -/
def blurRadius (f : Filter) : ℚ :=
  match f with
  | .blur px => px

/-- Both-present test and interpolation of one optional property
(lines 25-27 and 30-32). -/
def interpolateBoth (a b : Option ℚ) (progress : ℚ) : Option ℚ :=
  match a, b with
  | some start, some stop => some (interpolate start stop progress)
  | _, _ => none

/-- `if (v !== 0) style.k = v` (lines 43-45). -/
def unlessZero (v : ℚ) : Option ℚ :=
  if v ≠ 0 then some v else none

/-- Lines 49-56: the blur filter of the interpolated style. -/
def interpolateFilter (a b : Option Filter) (progress : ℚ) : Option Filter :=
  match a, b with
  | some f0, some f1 =>
    let currentBlur := interpolate (blurRadius f0) (blurRadius f1) progress
    if currentBlur > 0 then some (.blur currentBlur) else none
  | _, _ => none

/-- Lines 22-58: the `style` object built for `0 < progress < 1`. -/
def interpolatedStyle (anim : Animation) (progress : ℚ) : Props :=
  { opacity := interpolateBoth anim.initial.opacity anim.animate.opacity progress
    scale := interpolateBoth anim.initial.scale anim.animate.scale progress
    x := some (interpolate (orZero anim.initial.x) (orZero anim.animate.x) progress)
    y := some (interpolate (orZero anim.initial.y) (orZero anim.animate.y) progress)
    rotate := unlessZero
      (interpolate (orZero anim.initial.rotate) (orZero anim.animate.rotate) progress)
    rotateX := unlessZero
      (interpolate (orZero anim.initial.rotateX) (orZero anim.animate.rotateX) progress)
    rotateY := unlessZero
      (interpolate (orZero anim.initial.rotateY) (orZero anim.animate.rotateY) progress)
    filter := interpolateFilter anim.initial.filter anim.animate.filter progress
    transition := none }

/-- The arguments `(start, end)` of the calls of `interpolate` made while the
style of a curve is built (lines 25-52), in program order: the opacity and the
scale when both sets carry them, the offsets and the rotations with `|| 0`,
and the blur radii when both sets carry a filter. -/
def interpolateCalls (anim : Animation) : List (ℚ × ℚ) :=
  (match anim.initial.opacity, anim.animate.opacity with
    | some start, some stop => [(start, stop)]
    | _, _ => [])
  ++ (match anim.initial.scale, anim.animate.scale with
    | some start, some stop => [(start, stop)]
    | _, _ => [])
  ++ [ (orZero anim.initial.x, orZero anim.animate.x),
       (orZero anim.initial.y, orZero anim.animate.y),
       (orZero anim.initial.rotate, orZero anim.animate.rotate),
       (orZero anim.initial.rotateX, orZero anim.animate.rotateX),
       (orZero anim.initial.rotateY, orZero anim.animate.rotateY) ]
  ++ (match anim.initial.filter, anim.animate.filter with
    | some f0, some f1 => [(blurRadius f0, blurRadius f1)]
    | _, _ => [])

/-- `getAnimationStyles(animationName, progress)`. The result `none` is
`undefined`; reading `anim.initial.opacity` when `anim.initial` is `undefined`
throws a `TypeError`. -/
def getAnimationStyles (animationName : String) (progress : ℚ) :
    Except JsError (Option Props) :=
  match lookupAnimation animationName with
  | .entry anim =>
    if progress ≥ 1 then .ok (some anim.animate)
    else if progress ≤ 0 then .ok (some anim.initial)
    else .ok (some (interpolatedStyle anim progress))
  | .inherited =>
    if progress ≥ 1 then .ok none
    else if progress ≤ 0 then .ok none
    else .error .typeError

/-! ## Canvas (`src/components/Canvas.js`, lines 160-281) -/

/-- The fields of `layer.style` the canvas reads for placement. -/
structure LayerStyle where
  x : ℚ
  y : ℚ
  width : Option ℚ := none
  height : Option ℚ := none
  zIndex : Option ℤ := none
  deriving DecidableEq, Repr

/-- A layer, with the fields the canvas reads. `stop` is the field `end`;
an absent `animation` key is `none`. -/
structure Layer where
  id : String
  start : ℚ
  stop : ℚ
  animation : Option String
  style : LayerStyle
  deriving DecidableEq, Repr

/-- Inline style the export branch writes on the layer element
(lines 185-193): `opacity`, `filter` (`none` is the string `'none'`) and the
arguments of `scale`, `translate`, `rotate`, `rotateX`, `rotateY`. -/
structure AppliedStyle where
  opacity : ℚ
  filter : Option Filter
  scale : ℚ
  x : ℚ
  y : ℚ
  rotate : ℚ
  rotateX : ℚ
  rotateY : ℚ
  deriving DecidableEq, Repr

/-- The element returned by the map callback for a visible layer: the plain
`div` of the export branch, or the `motion.div` with its `animate` prop. -/
inductive Element where
  | exportDiv (layer : Layer) (style : AppliedStyle)
  | motionDiv (layer : Layer) (animate : Props)
  deriving DecidableEq, Repr

/-- The layer an element was built from (its `key` is `layer.id`). -/
def Element.layer : Element → Layer
  | .exportDiv l _ => l
  | .motionDiv l _ => l

/-- Line 162: `currentTime >= layer.start && currentTime <= layer.end`. -/
def isVisible (layer : Layer) (currentTime : ℚ) : Bool :=
  decide (currentTime ≥ layer.start) && decide (currentTime ≤ layer.stop)

/-- Line 165. -/
def animationDuration : ℚ := 1/2

/-- Lines 166-167:
`Math.min(Math.max(timeSinceStart / animationDuration, 0), 1)`. -/
def layerProgress (layer : Layer) (currentTime : ℚ) : ℚ :=
  let timeSinceStart := currentTime - layer.start
  min (max (timeSinceStart / animationDuration) 0) 1

/-- The key used for `ANIMATIONS[layer.animation]`: an absent animation is
the property key `"undefined"`. -/
def animationKey (layer : Layer) : String :=
  match layer.animation with
  | some n => n
  | none => "undefined"

/-- Lines 185-193: the values the export branch reads off `animStyles`. -/
def appliedStyle (animStyles : Props) : AppliedStyle :=
  { opacity := match animStyles.opacity with
      | some o => o
      | none => 1
    filter := animStyles.filter
    scale := match animStyles.scale with
      | some v => v
      | none => 1
    x := orZero animStyles.x
    y := orZero animStyles.y
    rotate := orZero animStyles.rotate
    rotateX := orZero animStyles.rotateX
    rotateY := orZero animStyles.rotateY }

/-- Line 228: `const { x: _x, y: _y, ...animStylesWithoutXY } = animStyles`. -/
def withoutXY (animStyles : Props) : Props :=
  { animStyles with x := none, y := none }

/-- The callback of `layers.map` (lines 160-281). `none` is `null`. Reading a
property of, or destructuring, an `undefined` `animStyles` throws. -/
def renderLayer (isExporting : Bool) (currentTime : ℚ) (layer : Layer) :
    Except JsError (Option Element) :=
  if !isVisible layer currentTime then .ok none
  else
    match getAnimationStyles (animationKey layer) (layerProgress layer currentTime) with
    | .error e => .error e
    | .ok none => .error .typeError
    | .ok (some animStyles) =>
      if isExporting then .ok (some (.exportDiv layer (appliedStyle animStyles)))
      else .ok (some (.motionDiv layer (withoutXY animStyles)))

/-- The children `Canvas` renders for its layers: the results of the map
callback, with the `null` entries dropped. -/
def Canvas (isExporting : Bool) (layers : List Layer) (currentTime : ℚ) :
    Except JsError (List Element) :=
  (layers.mapM (renderLayer isExporting currentTime)).map List.reduceOption

/-! ## Double-precision arithmetic

JavaScript numbers are IEEE 754 doubles. Where a count or a comparison depends
on the rounding, the operation is evaluated with `roundDouble`. -/

/-- Rounding to the nearest integer, a tie going to the even one. -/
def roundHalfEven (m : ℚ) : ℤ :=
  let f := ⌊m⌋
  if m - f < 1/2 then f
  else if 1/2 < m - f then f + 1
  else if f % 2 = 0 then f
  else f + 1

/-- The IEEE 754 double nearest to `q`, ties to even, for `q` below the
overflow threshold: with `2 ^ e ≤ |q| < 2 ^ (e + 1)`, the nearest multiple of
`2 ^ (e - 52)`, and of `2 ^ (-1074)` in the subnormal range `e < -1022`. -/
def roundDouble (q : ℚ) : ℚ :=
  if q = 0 then 0
  else
    let ulp : ℚ := 2 ^ (max (Int.log 2 |q|) (-1022) - 52)
    (roundHalfEven (q / ulp) : ℚ) * ulp

/-- Line 20 of `VideoExporter.js` as the engine computes it on doubles:
`Math.ceil(duration * fps)` with the product rounded to a double. -/
def totalFramesDouble (duration fps : ℚ) : ℤ :=
  ⌈roundDouble (duration * fps)⌉

/-- Line 51 of `VideoExporter.js` as the engine computes it on doubles:
`i / fps` with the quotient rounded to a double. -/
def seekTimeDouble (i : ℕ) (fps : ℚ) : ℚ :=
  roundDouble ((i : ℚ) / fps)

/-- Lines 8-10 of `Canvas.js` as the engine computes them on doubles:
`start + (end - start) * progress`, each operation rounded. -/
def interpolateDouble (start stop progress : ℚ) : ℚ :=
  roundDouble (start + roundDouble (roundDouble (stop - start) * progress))

/-! ## Export loop (`src/utils/VideoExporter.js`) -/

/-- The arguments of `renderAndExport`. `onProgress` tells whether a progress
callback was passed. The two callbacks are called outside the `try` of the loop
(lines 54 and 94): `seekToThrows i` and `onProgressThrows i` give what the call
made in iteration `i` does, `none` when it returns and the message of the
exception when it throws. -/
structure ExportParams where
  width : ℚ
  height : ℚ
  duration : ℚ
  fps : ℚ := 30
  onProgress : Bool := true
  canvasId : String := "canvas-container"
  seekToThrows : ℕ → Option String := fun _ => none
  onProgressThrows : ℕ → Option String := fun _ => none

/-- The object passed to `new VideoFrame(canvas, ...)`; `canvas` is the
iteration whose capture it wraps. -/
structure VideoFrame where
  canvas : ℕ
  timestamp : ℚ
  duration : ℚ
  deriving DecidableEq, Repr

/-- The host the export runs on: whether `window` has `VideoEncoder`, which
element ids `document.getElementById` finds, for which loop iterations the
body of the `try` (capture, frame construction, encode) completes, and what
`videoEncoder.flush()` (line 98) and `muxer.finalize()` (line 99) do once the
encoder was handed the given frames: `none` when the call returns, the message
when the promise rejects or the call throws. -/
structure Host where
  hasVideoEncoder : Bool
  hasElement : String → Bool
  captureOk : ℕ → Bool
  flushRejects : List VideoFrame → Option String
  finalizeThrows : List VideoFrame → Option String

/-- The calls `renderAndExport` makes, in program order. -/
inductive Event where
  | alert (message : String)
  | createMuxer (width height : ℚ)
  | createEncoder
  | configure (width height bitrate framerate : ℚ)
  | seekTo (time : ℚ)
  | wait (ms : ℕ)
  | encode (frame : VideoFrame) (keyFrame : Bool)
  | closeFrame (canvas : ℕ)
  | consoleError (message : String)
  | onProgress (value : ℚ)
  | flush
  | finalize
  | download
  deriving DecidableEq, Repr

/-- How a call of `renderAndExport` ends. -/
inductive Outcome where
  | returned
  | threw (message : String)
  deriving DecidableEq, Repr

/-- A run: the calls made and how it ended. -/
structure Run where
  events : List Event
  outcome : Outcome
  deriving DecidableEq, Repr

/-- The frames handed to `videoEncoder.encode`, in call order. -/
def encodedFrames : List Event → List VideoFrame
  | [] => []
  | .encode f _ :: es => f :: encodedFrames es
  | _ :: es => encodedFrames es

/-- The values passed to `onProgress`, in call order. -/
def progressValues : List Event → List ℚ
  | [] => []
  | .onProgress v :: es => v :: progressValues es
  | _ :: es => progressValues es

/-- The times passed to `seekTo`, in call order. -/
def seekTimes : List Event → List ℚ
  | [] => []
  | .seekTo t :: es => t :: seekTimes es
  | _ :: es => seekTimes es

/-- Line 20: `Math.ceil(duration * fps)`, the bound of the frame loop. The
arguments are doubles (a duration or frame rate written as a decimal stands
for the double nearest to it) and so is their product. -/
def totalFrames (p : ExportParams) : ℤ :=
  totalFramesDouble (roundDouble p.duration) (roundDouble p.fps)

/-- Line 21: `1000000 / fps`. -/
def frameDurationMicroseconds (p : ExportParams) : ℚ :=
  1000000 / p.fps

/-- The calls of iteration `i` of the frame loop (lines 51-94) when both
callbacks return. -/
def frameStep (p : ExportParams) (h : Host) (i : ℕ) : List Event :=
  [.seekTo ((i : ℚ) / p.fps), .wait 150]
  ++ (if h.captureOk i then
        [ .encode
            { canvas := i
              timestamp := (i : ℚ) * frameDurationMicroseconds p
              duration := frameDurationMicroseconds p }
            (i % 30 == 0),
          .closeFrame i ]
      else [.consoleError "Frame capture failed:"])
  ++ (if p.onProgress then [.onProgress (((i : ℚ) + 1) / (totalFrames p : ℚ))] else [])

/-- Iteration `i` of the frame loop (lines 51-94): the calls it makes and the
exception that leaves it, if any. An exception of `seekTo` (line 54) ends the
iteration at that call; an exception of `onProgress` (line 94) ends it after
all its calls. What is thrown inside the `try` (lines 64-91) is caught. -/
def runFrameStep (p : ExportParams) (h : Host) (i : ℕ) : List Event × Option String :=
  match p.seekToThrows i with
  | some msg => ([.seekTo ((i : ℚ) / p.fps)], some msg)
  | none => (frameStep p h i, if p.onProgress then p.onProgressThrows i else none)

/-- The loop `for (let i = 0; i < totalFrames; i++)`, started at `i` with the
calls made so far: the calls made when it is left, and the exception that left
it, if any. -/
def frameLoop (p : ExportParams) (h : Host) (i : ℕ) (trace : List Event) :
    List Event × Option String :=
  if (i : ℤ) < totalFrames p then
    match (runFrameStep p h i).2 with
    | some msg => (trace ++ (runFrameStep p h i).1, some msg)
    | none => frameLoop p h (i + 1) (trace ++ (runFrameStep p h i).1)
  else (trace, none)
termination_by (totalFrames p - (i : ℤ)).toNat
decreasing_by omega

/-- The calls made before the loop when the encoder exists (lines 23-44). -/
def setupEvents (p : ExportParams) : List Event :=
  [.createMuxer p.width p.height, .createEncoder,
   .configure p.width p.height 8000000 p.fps]

/-- Lines 98-109, after the encoder was handed `frames`: flush the encoder,
finalize the muxer, trigger the download. A rejection of the flush or an
exception of the finalize ends the run there. -/
def finish (h : Host) (frames : List VideoFrame) : Run :=
  match h.flushRejects frames with
  | some msg => { events := [.flush], outcome := .threw msg }
  | none =>
    match h.finalizeThrows frames with
    | some msg => { events := [.flush, .finalize], outcome := .threw msg }
    | none => { events := [.flush, .finalize, .download], outcome := .returned }

/-- `renderAndExport(...)`. The constructors of the muxer and of the encoder
and `configure` are taken to return. -/
def renderAndExport (p : ExportParams) (h : Host) : Run :=
  if !h.hasVideoEncoder then
    { events := [.alert "WebCodecs API is not supported."], outcome := .returned }
  else if !h.hasElement p.canvasId then
    { events := setupEvents p, outcome := .threw "Canvas container not found" }
  else
    match frameLoop p h 0 (setupEvents p) with
    | (trace, some msg) => { events := trace, outcome := .threw msg }
    | (trace, none) =>
      { events := trace ++ (finish h (encodedFrames trace)).events
        outcome := (finish h (encodedFrames trace)).outcome }

/-! ## Encoder output (`src/utils/VideoExporter.js`, lines 33-36) -/

/-- An encoded chunk as the encoder delivers it: its presentation timestamp
in microseconds (the bytes and the metadata are not inspected). -/
structure EncodedChunk where
  timestamp : ℚ
  deriving DecidableEq, Repr

/-- Line 34, the `output` callback of the encoder:
`(chunk, meta) => muxer.addVideoChunk(chunk, meta)`. `muxed` lists the chunks
the muxer has been handed so far. -/
def output (muxed : List EncodedChunk) (chunk : EncodedChunk) : List EncodedChunk :=
  muxed ++ [chunk]

/-- The chunks handed to the muxer, in call order, after the encoder has
delivered `delivered` in that order: one call of `output` per delivery. -/
def muxerInput (delivered : List EncodedChunk) : List EncodedChunk :=
  delivered.foldl output []

/-! ## Layer management (`src/app/editor/page.js`, lines 85-94)

The editor state holds the layers as plain objects, which is what the object
spread of `handleUpdateLayer` works on; `Canvas` reads the same objects
through the fields of `Layer`. -/

/-- Primitive values of layer fields. -/
inductive Prim where
  | undefined
  | null
  | bool (b : Bool)
  | num (q : ℚ)
  | nan
  | str (s : String)
  deriving DecidableEq, Repr

/-- The value of a layer field: a primitive, or a flat object such as
`style`. -/
inductive FieldVal where
  | prim (p : Prim)
  | record (fields : List (String × Prim))
  deriving DecidableEq, Repr

/-- A plain object: its own keys with their values, in insertion order. -/
abbrev Obj := List (String × FieldVal)

/-- Property read `o[key]`; an absent key reads as `undefined`. -/
def getField (o : Obj) (key : String) : FieldVal :=
  match o.lookup key with
  | some v => v
  | none => .prim .undefined

/-- Property write on a copy: an existing key keeps its place and takes the
new value, a new key is added last. -/
def setField : Obj → String → FieldVal → Obj
  | [], key, v => [(key, v)]
  | (k, w) :: rest, key, v =>
    if k == key then (key, v) :: rest else (k, w) :: setField rest key v

/-- Object spread `{ ...layer, ...updates }`: a copy of `layer` on which every
property of `updates` is written, in the key order of `updates`. -/
def spread (layer updates : Obj) : Obj :=
  updates.foldl (fun acc kv => setField acc kv.1 kv.2) layer

/-- Strict equality `a === b` of a field value with a primitive: no object is
strictly equal to a primitive, and `NaN` is strictly equal to nothing. -/
def strictEq (a : FieldVal) (b : Prim) : Bool :=
  match a with
  | .prim p => p != .nan && p == b
  | .record _ => false

/-- The part of the state of `EditorPage` that layer management touches. -/
structure EditorState where
  layers : List Obj
  selectedLayerId : Prim
  deriving DecidableEq, Repr

/-- Lines 85-89: `handleUpdateLayer(id, updates)`. -/
def handleUpdateLayer (id : Prim) (updates : Obj) (s : EditorState) : EditorState :=
  { s with
    layers := s.layers.map (fun layer =>
      if strictEq (getField layer "id") id then spread layer updates else layer) }

/-- Lines 91-94: `handleDeleteLayer(id)`. -/
def handleDeleteLayer (id : Prim) (s : EditorState) : EditorState :=
  { layers := s.layers.filter (fun layer => !strictEq (getField layer "id") id)
    selectedLayerId :=
      if strictEq (.prim s.selectedLayerId) id then .null else s.selectedLayerId }

/-! ## Saving and copying scenes (`src/app/editor/page.js`, lines 38, 44 and
153; `src/components/PropertiesPanel.js`, lines 24-26 and 103-120) -/

/-- `JSON.parse(JSON.stringify(...))` on a primitive stored under a key:
`stringify` omits a key whose value is `undefined` (`none`) and writes `NaN` as
`null`; every other primitive is read back as it was. -/
def jsonPrim : Prim → Option Prim
  | .undefined => none
  | .nan => some .null
  | p => some p

/-- The same on a flat object such as `style`. -/
def jsonRecord (fields : List (String × Prim)) : List (String × Prim) :=
  fields.filterMap (fun kv => (jsonPrim kv.2).map (fun v => (kv.1, v)))

/-- The same on the value of a layer field. -/
def jsonField : FieldVal → Option FieldVal
  | .prim p => (jsonPrim p).map FieldVal.prim
  | .record fields => some (.record (jsonRecord fields))

/-- The same on a plain object. -/
def jsonObj (o : Obj) : Obj :=
  o.filterMap (fun kv => (jsonField kv.2).map (fun v => (kv.1, v)))

/-- Lines 38 and 44: `JSON.parse(JSON.stringify(template.layers))`. -/
def deepCopy (layers : List Obj) : List Obj :=
  layers.map jsonObj

/-- The object `{ ...activeTemplate, layers }` of line 153: the own fields of
the template other than `layers`, and the current layers. -/
structure Scene where
  template : Obj
  layers : List Obj
  deriving DecidableEq, Repr

/-- The scene read back by `JSON.parse` from the text that the 'Save JSON'
button writes with `JSON.stringify` (line 153). -/
def saveAndParse (scene : Scene) : Scene :=
  { template := jsonObj scene.template, layers := scene.layers.map jsonObj }

/-- `parseFloat(e.target.value)` for an `<input type="number">`: the value is
the empty string (`none`) when the field holds no number, and the text of a
number otherwise. -/
def parseFloatInput : Option ℚ → Prim
  | none => .nan
  | some q => .num q

/-- `handleChange(key, value)` of the properties panel, shown for the selected
layer: `onUpdateLayer(selectedLayer.id, { [key]: value })`. -/
def handleChange (key : String) (value : Prim) (s : EditorState) : EditorState :=
  handleUpdateLayer s.selectedLayerId [(key, .prim value)] s

/-- A field value that `JSON.stringify` writes and `JSON.parse` reads back
unchanged: no `undefined` and no `NaN` in it. -/
def jsonClean : FieldVal → Bool
  | .prim p => p != .undefined && p != .nan
  | .record fields => fields.all (fun kv => kv.2 != .undefined && kv.2 != .nan)

/-! ## Checks on the table used by the proofs -/

/-- A property that is present at both ends of a curve or at neither. -/
def sameKeys {α : Type} (a b : Option α) : Bool :=
  a.isSome == b.isSome

/-- The opacity of a curve, when animated, rises within `[0, 1]`. -/
def opacityRises (a b : Option ℚ) : Bool :=
  match a, b with
  | some v, some w => decide (0 ≤ v) && decide (v ≤ w) && decide (w ≤ 1)
  | none, none => true
  | _, _ => false

/-- A pair of optional numbers that, when both present, starts away from zero
and ends at zero. -/
def rotationEndsAtZero (a b : Option ℚ) : Bool :=
  match a, b with
  | some v, some w => decide (v ≠ 0) && decide (w = 0)
  | _, _ => true

/-! ## Evaluator: lookup facts -/

/-- Own keys of the table are pairwise distinct, so an entry is found under
its key. -/
theorem lookup_of_mem (name : String) (anim : Animation)
    (hmem : (name, anim) ∈ ANIMATIONS) : lookupAnimation name = .entry anim := by
  simp only [ANIMATIONS, List.mem_cons, Prod.mk.injEq, List.mem_singleton, List.not_mem_nil,
    or_false] at hmem
  rcases hmem with h | h | h | h | h | h | h | h | h | h | h | h | h | h | h | h | h | h <;>
    (obtain ⟨rfl, rfl⟩ := h; rfl)

/-- A name that is no property of the table object, own or inherited, falls
back to the `none` entry. -/
theorem lookup_fallback (name : String) (hown : ANIMATIONS.lookup name = none)
    (hproto : name ∉ objectPrototypeKeys) :
    lookupAnimation name = .entry ANIMATIONS_none := by
  simp [lookupAnimation, hown, hproto]

/-- On a resolved entry the evaluator returns the stored sets at the
boundaries and the interpolated style strictly inside. -/
theorem getAnimationStyles_entry (name : String) (anim : Animation) (p : ℚ)
    (h : lookupAnimation name = .entry anim) :
    getAnimationStyles name p =
      .ok (some (if p ≥ 1 then anim.animate else if p ≤ 0 then anim.initial
                 else interpolatedStyle anim p)) := by
  unfold getAnimationStyles
  rw [h]
  by_cases h1 : p ≥ 1
  · simp [h1]
  · by_cases h0 : p ≤ 0 <;> simp [h1, h0]

/-- Boundary behaviour for every name that is not inherited from
`Object.prototype`: the name resolves to a curve (its table entry, or `none`
for an unknown name), whose final set is returned verbatim for every
`progress ≥ 1` and whose initial set for every `progress ≤ 0`. -/
theorem getAnimationStyles_boundaries (name : String) (hproto : name ∉ objectPrototypeKeys) :
    ∃ anim, lookupAnimation name = .entry anim ∧
      (ANIMATIONS.lookup name = none → anim = ANIMATIONS_none) ∧
      (∀ p : ℚ, 1 ≤ p → getAnimationStyles name p = .ok (some anim.animate)) ∧
      (∀ p : ℚ, p ≤ 0 → getAnimationStyles name p = .ok (some anim.initial)) := by
  have hres : ∃ anim, lookupAnimation name = .entry anim ∧
      (ANIMATIONS.lookup name = none → anim = ANIMATIONS_none) := by
    unfold lookupAnimation
    cases hl : ANIMATIONS.lookup name with
    | some anim => exact ⟨anim, rfl, fun h => by cases h⟩
    | none => exact ⟨ANIMATIONS_none, by simp [hproto], fun _ => rfl⟩
  obtain ⟨anim, hl, hnone⟩ := hres
  refine ⟨anim, hl, hnone, ?_, ?_⟩
  · intro p hp
    rw [getAnimationStyles_entry name anim p hl, if_pos hp]
  · intro p hp
    rw [getAnimationStyles_entry name anim p hl]
    have h1 : ¬ p ≥ 1 := by
      intro h; linarith
    rw [if_neg h1, if_pos hp]

/-- C1 (evaluation at the failing input). The name `constructor` is not a
key of the table, yet it does not fall back to `none`: at progress 1 the
evaluator returns `undefined`, not the final set of the `none` entry, and
strictly inside the window it throws. -/
theorem getAnimationStyles_constructor :
    ANIMATIONS.lookup "constructor" = none ∧
    getAnimationStyles "constructor" 1 = .ok none ∧
    getAnimationStyles "constructor" 1 ≠ .ok (some ANIMATIONS_none.animate) ∧
    getAnimationStyles "constructor" 0 = .ok none ∧
    getAnimationStyles "constructor" (1/2) = .error .typeError := by
  have hl : lookupAnimation "constructor" = .inherited := by decide
  refine ⟨by decide, by rfl, ?_, by rfl, ?_⟩
  · have h : getAnimationStyles "constructor" 1 = .ok none := by rfl
    rw [h]
    simp
  · unfold getAnimationStyles
    rw [hl]
    norm_num

/-! ## Evaluator: interpolation -/

/-- Every rotation the table animates starts away from zero and ends at
zero. -/
theorem table_rotations :
    ∀ e ∈ ANIMATIONS,
      rotationEndsAtZero e.2.initial.rotate e.2.animate.rotate = true ∧
      rotationEndsAtZero e.2.initial.rotateX e.2.animate.rotateX = true ∧
      rotationEndsAtZero e.2.initial.rotateY e.2.animate.rotateY = true := by
  decide

theorem interpolate_to_zero_ne (a p : ℚ) (ha : a ≠ 0) (hp : p < 1) :
    interpolate a 0 p ≠ 0 := by
  unfold interpolate
  have h : a + (0 - a) * p = a * (1 - p) := by ring
  rw [h]
  exact mul_ne_zero ha (by linarith)

theorem unlessZero_of_rotation (a b : Option ℚ) (v w p : ℚ)
    (hr : rotationEndsAtZero a b = true) (ha : a = some v) (hb : b = some w) (hp : p < 1) :
    unlessZero (interpolate (orZero a) (orZero b) p) = some (v + (w - v) * p) := by
  subst ha hb
  simp only [rotationEndsAtZero, Bool.and_eq_true, decide_eq_true_eq] at hr
  obtain ⟨hv, hw⟩ := hr
  subst hw
  have hne := interpolate_to_zero_ne v p hv hp
  simp only [orZero, unlessZero]
  rw [if_pos hne]
  rfl

/-- C2. For every curve of the table and every progress strictly between 0
and 1, each of opacity, scale, x, y, rotate, rotateX and rotateY that is
present in both the initial and the final set is present in the result with
value `initial + (final - initial) * progress`; at progress 1/2 a curve with
opacity 0 to 1 gives opacity 1/2. -/
theorem getAnimationStyles_interpolates (name : String) (anim : Animation) (p : ℚ)
    (hmem : (name, anim) ∈ ANIMATIONS) (h0 : 0 < p) (h1 : p < 1) :
    ∃ style, getAnimationStyles name p = .ok (some style) ∧
      (∀ a b, anim.initial.opacity = some a → anim.animate.opacity = some b →
        style.opacity = some (a + (b - a) * p)) ∧
      (∀ a b, anim.initial.scale = some a → anim.animate.scale = some b →
        style.scale = some (a + (b - a) * p)) ∧
      (∀ a b, anim.initial.x = some a → anim.animate.x = some b →
        style.x = some (a + (b - a) * p)) ∧
      (∀ a b, anim.initial.y = some a → anim.animate.y = some b →
        style.y = some (a + (b - a) * p)) ∧
      (∀ a b, anim.initial.rotate = some a → anim.animate.rotate = some b →
        style.rotate = some (a + (b - a) * p)) ∧
      (∀ a b, anim.initial.rotateX = some a → anim.animate.rotateX = some b →
        style.rotateX = some (a + (b - a) * p)) ∧
      (∀ a b, anim.initial.rotateY = some a → anim.animate.rotateY = some b →
        style.rotateY = some (a + (b - a) * p)) ∧
      (anim.initial.opacity = some 0 → anim.animate.opacity = some 1 → p = 1/2 →
        style.opacity = some (1/2)) := by
  have hl := lookup_of_mem name anim hmem
  have hrot := table_rotations (name, anim) hmem
  obtain ⟨hr, hrx, hry⟩ := hrot
  refine ⟨interpolatedStyle anim p, ?_, ?_, ?_, ?_, ?_, ?_, ?_, ?_, ?_⟩
  · rw [getAnimationStyles_entry name anim p hl]
    rw [if_neg (not_le.mpr h1), if_neg (not_le.mpr h0)]
  · intro a b ha hb
    simp [interpolatedStyle, interpolateBoth, interpolate, ha, hb]
  · intro a b ha hb
    simp [interpolatedStyle, interpolateBoth, interpolate, ha, hb]
  · intro a b ha hb
    simp [interpolatedStyle, orZero, interpolate, ha, hb]
  · intro a b ha hb
    simp [interpolatedStyle, orZero, interpolate, ha, hb]
  · intro a b ha hb
    exact unlessZero_of_rotation _ _ a b p hr ha hb h1
  · intro a b ha hb
    exact unlessZero_of_rotation _ _ a b p hrx ha hb h1
  · intro a b ha hb
    exact unlessZero_of_rotation _ _ a b p hry ha hb h1
  · intro ha hb hp
    subst hp
    simp only [interpolatedStyle, interpolateBoth, interpolate, ha, hb]
    norm_num

/-- C2 at a concrete input: `rotateIn` at progress 1/4. -/
theorem getAnimationStyles_interpolates_witness :
    ∃ style, getAnimationStyles "rotateIn" (1/4) = .ok (some style) ∧
      style.opacity = some (0 + (1 - 0) * (1/4)) ∧
      style.scale = some (1/2 + (1 - 1/2) * (1/4)) ∧
      style.rotate = some (-180 + (0 - -180) * (1/4)) := by
  obtain ⟨style, hs, ho, hsc, _, _, hr, _, _, _⟩ :=
    getAnimationStyles_interpolates "rotateIn"
      { name := "Rotate In"
        initial := { rotate := some (-180), opacity := some 0, scale := some (1/2) }
        animate := { rotate := some 0, opacity := some 1, scale := some 1 }
        exit := { rotate := some (-180), opacity := some 0, scale := some (1/2) } }
      (1/4) (by simp [ANIMATIONS]) (by norm_num) (by norm_num)
  exact ⟨style, hs, ho 0 1 rfl rfl, hsc (1/2) 1 rfl rfl, hr (-180) 0 rfl rfl⟩

/-- C3 as stated fails: `fadeIn` has an x offset in neither set, yet the
result at progress 1/2 carries the entry `x = 0`. -/
theorem absent_property_omitted_fails :
    ¬ (∀ (name : String) (anim : Animation) (p : ℚ) (style : Props),
        (name, anim) ∈ ANIMATIONS → 0 < p → p < 1 →
        getAnimationStyles name p = .ok (some style) →
        (anim.initial.opacity = none → anim.animate.opacity = none → style.opacity = none) ∧
        (anim.initial.scale = none → anim.animate.scale = none → style.scale = none) ∧
        (anim.initial.x = none → anim.animate.x = none → style.x = none) ∧
        (anim.initial.y = none → anim.animate.y = none → style.y = none) ∧
        (anim.initial.rotate = none → anim.animate.rotate = none → style.rotate = none) ∧
        (anim.initial.rotateX = none → anim.animate.rotateX = none → style.rotateX = none) ∧
        (anim.initial.rotateY = none → anim.animate.rotateY = none → style.rotateY = none) ∧
        (anim.initial.filter = none → anim.animate.filter = none → style.filter = none)) := by
  intro h
  have hmem : (("fadeIn",
      { name := "Fade In"
        initial := { opacity := some 0 }
        animate := { opacity := some 1 }
        exit := { opacity := some 0 } }) : String × Animation) ∈ ANIMATIONS := by
    simp [ANIMATIONS]
  have hs := getAnimationStyles_entry "fadeIn" _ (1/2) (lookup_of_mem _ _ hmem)
  rw [if_neg (by norm_num), if_neg (by norm_num)] at hs
  have hx := (h "fadeIn" _ (1/2) _ hmem (by norm_num) (by norm_num) hs).2.2.1 rfl rfl
  simp [interpolatedStyle] at hx

/-- C3, amended. For every name that resolves to a curve and every progress
strictly between 0 and 1, each of opacity, scale, rotate, rotateX, rotateY
and blur that is present in neither set is absent from the result, while the
x and y offsets are always present, with value 0 when present in neither
set. -/
theorem absent_property_omitted_except_xy (name : String) (anim : Animation) (p : ℚ)
    (hl : lookupAnimation name = .entry anim) (h0 : 0 < p) (h1 : p < 1) :
    ∃ style, getAnimationStyles name p = .ok (some style) ∧
      (anim.initial.opacity = none → anim.animate.opacity = none → style.opacity = none) ∧
      (anim.initial.scale = none → anim.animate.scale = none → style.scale = none) ∧
      (anim.initial.rotate = none → anim.animate.rotate = none → style.rotate = none) ∧
      (anim.initial.rotateX = none → anim.animate.rotateX = none → style.rotateX = none) ∧
      (anim.initial.rotateY = none → anim.animate.rotateY = none → style.rotateY = none) ∧
      (anim.initial.filter = none → anim.animate.filter = none → style.filter = none) ∧
      style.x.isSome = true ∧ style.y.isSome = true ∧
      (anim.initial.x = none → anim.animate.x = none → style.x = some 0) ∧
      (anim.initial.y = none → anim.animate.y = none → style.y = some 0) := by
  refine ⟨interpolatedStyle anim p, ?_, ?_, ?_, ?_, ?_, ?_, ?_, rfl, rfl, ?_, ?_⟩
  · rw [getAnimationStyles_entry name anim p hl]
    rw [if_neg (not_le.mpr h1), if_neg (not_le.mpr h0)]
  all_goals
    intro ha hb
    simp [interpolatedStyle, interpolateBoth, interpolateFilter, interpolate, orZero,
      unlessZero, ha, hb]

/-- C3, amended, at `fadeIn` and progress 1/2: no scale and no rotation entry,
but the offsets `x = 0` and `y = 0`. -/
theorem absent_property_omitted_except_xy_witness :
    ∃ style, getAnimationStyles "fadeIn" (1/2) = .ok (some style) ∧
      style.scale = none ∧ style.rotate = none ∧ style.rotateX = none ∧
      style.rotateY = none ∧ style.filter = none ∧
      style.x = some 0 ∧ style.y = some 0 := by
  obtain ⟨style, hs, _, hsc, hr, hrx, hry, hf, _, _, hx, hy⟩ :=
    absent_property_omitted_except_xy "fadeIn"
      { name := "Fade In"
        initial := { opacity := some 0 }
        animate := { opacity := some 1 }
        exit := { opacity := some 0 } }
      (1/2) (by decide) (by norm_num) (by norm_num)
  exact ⟨style, hs, hsc rfl rfl, hr rfl rfl, hrx rfl rfl, hry rfl rfl, hf rfl rfl,
    hx rfl rfl, hy rfl rfl⟩

/-! ## Canvas -/

theorem isVisible_iff (layer : Layer) (t : ℚ) :
    isVisible layer t = true ↔ layer.start ≤ t ∧ t ≤ layer.stop := by
  simp [isVisible]

/-- The element built for a visible layer whose style lookup returned `s`. -/
theorem renderLayer_of_style (isExporting : Bool) (layer : Layer) (t : ℚ) (s : Props)
    (hvis : isVisible layer t = true)
    (hs : getAnimationStyles (animationKey layer) (layerProgress layer t) = .ok (some s)) :
    renderLayer isExporting t layer =
      .ok (some (if isExporting then .exportDiv layer (appliedStyle s)
                 else .motionDiv layer (withoutXY s))) := by
  unfold renderLayer
  rw [hvis, hs]
  cases isExporting <;> simp

theorem renderLayer_hidden (isExporting : Bool) (layer : Layer) (t : ℚ)
    (hvis : isVisible layer t = false) :
    renderLayer isExporting t layer = .ok none := by
  unfold renderLayer
  rw [hvis]
  simp

/-- A name outside the prototype keys resolves to a curve. -/
theorem lookupAnimation_resolves (name : String) (h : name ∉ objectPrototypeKeys) :
    ∃ anim, lookupAnimation name = .entry anim := by
  unfold lookupAnimation
  cases hl : ANIMATIONS.lookup name with
  | some anim => exact ⟨anim, rfl⟩
  | none => exact ⟨ANIMATIONS_none, by simp [h]⟩

/-- C4 as stated fails: for a layer animated with `slideInLeft`, a quarter of a
second after its start the export element is translated by -50 while the
animation style handed to the interactive element has no x entry. -/
theorem export_equals_interactive_fails :
    ¬ (∀ (layer l₁ l₂ : Layer) (t : ℚ) (a : AppliedStyle) (b : Props),
        renderLayer true t layer = .ok (some (.exportDiv l₁ a)) →
        renderLayer false t layer = .ok (some (.motionDiv l₂ b)) →
        a = appliedStyle b) := by
  intro h
  let layer : Layer :=
    { id := "title", start := 0, stop := 5, animation := some "slideInLeft"
      style := { x := 10, y := 10 } }
  have hvis : isVisible layer (1/4) = true := by
    rw [isVisible_iff]; norm_num [layer]
  have hp : layerProgress layer (1/4) = 1/2 := by
    norm_num [layerProgress, animationDuration, layer]
  have hl : lookupAnimation (animationKey layer) = .entry
      { name := "Slide In Left"
        initial := { x := some (-100), opacity := some 0 }
        animate := { x := some 0, opacity := some 1 }
        exit := { x := some (-100), opacity := some 0 } } := by decide
  have hs := getAnimationStyles_entry _ _ (layerProgress layer (1/4)) hl
  rw [hp, if_neg (by norm_num), if_neg (by norm_num)] at hs
  rw [← hp] at hs
  have he := renderLayer_of_style true layer (1/4) _ hvis hs
  have hi := renderLayer_of_style false layer (1/4) _ hvis hs
  have := h layer layer layer (1/4) _ _ he hi
  have hx := congrArg AppliedStyle.x this
  norm_num [appliedStyle, withoutXY, interpolatedStyle, interpolate, orZero, hp] at hx

/-- C4, amended. For a visible layer for which the evaluator returns the
style `s`, both branches build their element from `s`: opacity, scale, the
three rotations and the blur handed to the interactive element are the ones
the export element applies, while the x and y offsets are applied by the
export element only, the interactive branch removing them from the style. -/
theorem export_and_interactive_styles (layer : Layer) (t : ℚ) (s : Props)
    (hvis : isVisible layer t = true)
    (hs : getAnimationStyles (animationKey layer) (layerProgress layer t) = .ok (some s)) :
    ∃ a b, renderLayer true t layer = .ok (some (.exportDiv layer a)) ∧
      renderLayer false t layer = .ok (some (.motionDiv layer b)) ∧
      b.opacity = s.opacity ∧ b.scale = s.scale ∧ b.rotate = s.rotate ∧
      b.rotateX = s.rotateX ∧ b.rotateY = s.rotateY ∧ b.filter = s.filter ∧
      a.opacity = (appliedStyle b).opacity ∧ a.scale = (appliedStyle b).scale ∧
      a.rotate = (appliedStyle b).rotate ∧ a.rotateX = (appliedStyle b).rotateX ∧
      a.rotateY = (appliedStyle b).rotateY ∧ a.filter = (appliedStyle b).filter ∧
      b.x = none ∧ b.y = none ∧ a.x = orZero s.x ∧ a.y = orZero s.y := by
  refine ⟨appliedStyle s, withoutXY s, ?_, ?_, rfl, rfl, rfl, rfl, rfl, rfl, rfl, rfl, rfl,
    rfl, rfl, rfl, rfl, rfl, rfl, rfl⟩
  · simpa using renderLayer_of_style true layer t s hvis hs
  · simpa using renderLayer_of_style false layer t s hvis hs

/-- C4, amended, at a layer animated with `zoomIn`, a quarter of a second
after its start. -/
theorem export_and_interactive_styles_witness :
    ∃ a b,
      renderLayer true (1/4)
          { id := "logo", start := 0, stop := 5, animation := some "zoomIn"
            style := { x := 10, y := 10 } } =
        .ok (some (.exportDiv
          { id := "logo", start := 0, stop := 5, animation := some "zoomIn"
            style := { x := 10, y := 10 } } a)) ∧
      renderLayer false (1/4)
          { id := "logo", start := 0, stop := 5, animation := some "zoomIn"
            style := { x := 10, y := 10 } } =
        .ok (some (.motionDiv
          { id := "logo", start := 0, stop := 5, animation := some "zoomIn"
            style := { x := 10, y := 10 } } b)) ∧
      a.opacity = (appliedStyle b).opacity ∧ a.scale = (appliedStyle b).scale ∧
      b.x = none ∧ b.y = none := by
  have hvis : isVisible
      { id := "logo", start := 0, stop := 5, animation := some "zoomIn"
        style := { x := 10, y := 10 } } (1/4) = true := by
    rw [isVisible_iff]; norm_num
  have hl : lookupAnimation (animationKey
      { id := "logo", start := 0, stop := 5, animation := some "zoomIn"
        style := { x := 10, y := 10 } }) = .entry
      { name := "Zoom In"
        initial := { scale := some (1/2), opacity := some 0 }
        animate := { scale := some 1, opacity := some 1 }
        exit := { scale := some (1/2), opacity := some 0 } } := by
    simp [animationKey, lookupAnimation, ANIMATIONS, List.lookup]
  obtain ⟨a, b, he, hi, _, _, _, _, _, _, ho, hsc, _, _, _, _, hx, hy, _, _⟩ :=
    export_and_interactive_styles _ (1/4) _ hvis (getAnimationStyles_entry _ _ _ hl)
  exact ⟨a, b, he, hi, ho, hsc, hx, hy⟩

theorem Canvas_nil (isExporting : Bool) (t : ℚ) : Canvas isExporting [] t = .ok [] := rfl

theorem Canvas_cons (isExporting : Bool) (l : Layer) (ls : List Layer) (t : ℚ) :
    Canvas isExporting (l :: ls) t =
      match renderLayer isExporting t l with
      | .error e => .error e
      | .ok r =>
        match Canvas isExporting ls t with
        | .error e => .error e
        | .ok els => .ok (match r with
            | some el => el :: els
            | none => els) := by
  unfold Canvas
  rw [List.mapM_cons]
  cases h1 : renderLayer isExporting t l with
  | error e => rfl
  | ok r =>
    cases h2 : List.mapM (renderLayer isExporting t) ls with
    | error e => simp [h2, bind, Except.bind, Functor.map, Except.map]
    | ok rs =>
      cases r <;> simp [h2, bind, Except.bind, Functor.map, Except.map, pure, Except.pure,
        List.reduceOption_cons_of_some, List.reduceOption_cons_of_none]

/-- The element of a rendered layer is built from that layer. -/
theorem renderLayer_layer (isExporting : Bool) (layer : Layer) (t : ℚ) (el : Element)
    (h : renderLayer isExporting t layer = .ok (some el)) :
    el.layer = layer ∧ isVisible layer t = true := by
  unfold renderLayer at h
  cases hv : isVisible layer t with
  | false => simp [hv] at h
  | true =>
    simp only [hv, Bool.not_true, Bool.false_eq_true, if_false] at h
    cases hs : getAnimationStyles (animationKey layer) (layerProgress layer t) with
    | error e => simp [hs] at h
    | ok r =>
      cases r with
      | none => simp [hs] at h
      | some s =>
        cases isExporting <;> simp [hs] at h <;> subst h <;> exact ⟨rfl, rfl⟩

theorem renderLayer_none (isExporting : Bool) (layer : Layer) (t : ℚ)
    (h : renderLayer isExporting t layer = .ok none) : isVisible layer t = false := by
  unfold renderLayer at h
  cases hv : isVisible layer t with
  | false => rfl
  | true =>
    simp only [hv, Bool.not_true, Bool.false_eq_true, if_false] at h
    cases hs : getAnimationStyles (animationKey layer) (layerProgress layer t) with
    | error e => simp [hs] at h
    | ok r =>
      cases r with
      | none => simp [hs] at h
      | some s => cases isExporting <;> simp [hs] at h

/-- Whenever the canvas returns, its elements are built from exactly the
visible layers, in the order of the list. -/
theorem Canvas_layers (isExporting : Bool) (t : ℚ) :
    ∀ (layers : List Layer) (els : List Element),
      Canvas isExporting layers t = .ok els →
      els.map Element.layer = layers.filter (fun l => decide (l.start ≤ t ∧ t ≤ l.stop)) := by
  intro layers
  induction layers with
  | nil =>
    intro els h
    rw [Canvas_nil] at h
    cases h
    rfl
  | cons l ls ih =>
    intro els h
    rw [Canvas_cons] at h
    cases h1 : renderLayer isExporting t l with
    | error e => simp [h1] at h
    | ok r =>
      cases h2 : Canvas isExporting ls t with
      | error e => simp [h1, h2] at h
      | ok rest =>
        have ihr := ih rest h2
        cases r with
        | none =>
          have hv := renderLayer_none isExporting l t h1
          have hnot : ¬ (l.start ≤ t ∧ t ≤ l.stop) := by
            rw [← isVisible_iff, hv]; simp
          simp only [h1, h2, Except.ok.injEq] at h
          subst h
          rw [List.filter_cons_of_neg (by simpa using hnot)]
          exact ihr
        | some el =>
          obtain ⟨hl, hv⟩ := renderLayer_layer isExporting l t el h1
          have hyes : l.start ≤ t ∧ t ≤ l.stop := (isVisible_iff l t).mp hv
          simp only [h1, h2, Except.ok.injEq] at h
          subst h
          rw [List.filter_cons_of_pos (by simpa using hyes)]
          simp [hl, ihr]

/-- The canvas returns when every animation name resolves to a curve. -/
theorem Canvas_returns (isExporting : Bool) (t : ℚ) :
    ∀ (layers : List Layer), (∀ l ∈ layers, animationKey l ∉ objectPrototypeKeys) →
      ∃ els, Canvas isExporting layers t = .ok els := by
  intro layers
  induction layers with
  | nil => intro _; exact ⟨[], rfl⟩
  | cons l ls ih =>
    intro h
    obtain ⟨rest, hrest⟩ := ih (fun l' hl' => h l' (List.mem_cons_of_mem _ hl'))
    obtain ⟨anim, hanim⟩ := lookupAnimation_resolves _ (h l (List.mem_cons_self _ _))
    rw [Canvas_cons, hrest]
    cases hv : isVisible l t with
    | false =>
      rw [renderLayer_hidden isExporting l t hv]
      exact ⟨_, rfl⟩
    | true =>
      rw [renderLayer_of_style isExporting l t _ hv (getAnimationStyles_entry _ _ _ hanim)]
      exact ⟨_, rfl⟩

/-- C5. The elements the canvas renders are built from exactly the layers
with `start ≤ t ≤ end`, both bounds inclusive, in the order of the layer list:
this holds of every call that returns, and the call returns for every layer
list whose animation names resolve to a curve. -/
theorem Canvas_renders_visible_layers (isExporting : Bool) (layers : List Layer) (t : ℚ) :
    (∀ els, Canvas isExporting layers t = .ok els →
      els.map Element.layer = layers.filter (fun l => decide (l.start ≤ t ∧ t ≤ l.stop))) ∧
    ((∀ l ∈ layers, animationKey l ∉ objectPrototypeKeys) →
      ∃ els, Canvas isExporting layers t = .ok els ∧
        els.map Element.layer =
          layers.filter (fun l => decide (l.start ≤ t ∧ t ≤ l.stop))) := by
  refine ⟨Canvas_layers isExporting t layers, fun h => ?_⟩
  obtain ⟨els, hels⟩ := Canvas_returns isExporting t layers h
  exact ⟨els, hels, Canvas_layers isExporting t layers els hels⟩

/-- C5 at a concrete scene: a background shown on `[0, 10]` below a caption
shown on `[2, 5]`. The caption is absent at 1.999 and 5.001 and present at 2
and 5, above the background. -/
theorem Canvas_renders_visible_layers_witness :
    (∃ els, Canvas true
        [ { id := "bg", start := 0, stop := 10, animation := none, style := { x := 0, y := 0 } },
          { id := "caption", start := 2, stop := 5, animation := some "fadeIn",
            style := { x := 10, y := 80 } } ] (1999/1000) = .ok els ∧
      els.map Element.layer =
        [ { id := "bg", start := 0, stop := 10, animation := none,
            style := { x := 0, y := 0 } } ]) ∧
    (∃ els, Canvas true
        [ { id := "bg", start := 0, stop := 10, animation := none, style := { x := 0, y := 0 } },
          { id := "caption", start := 2, stop := 5, animation := some "fadeIn",
            style := { x := 10, y := 80 } } ] 2 = .ok els ∧
      els.map Element.layer =
        [ { id := "bg", start := 0, stop := 10, animation := none, style := { x := 0, y := 0 } },
          { id := "caption", start := 2, stop := 5, animation := some "fadeIn",
            style := { x := 10, y := 80 } } ]) ∧
    (∃ els, Canvas false
        [ { id := "bg", start := 0, stop := 10, animation := none, style := { x := 0, y := 0 } },
          { id := "caption", start := 2, stop := 5, animation := some "fadeIn",
            style := { x := 10, y := 80 } } ] 5 = .ok els ∧
      els.map Element.layer =
        [ { id := "bg", start := 0, stop := 10, animation := none, style := { x := 0, y := 0 } },
          { id := "caption", start := 2, stop := 5, animation := some "fadeIn",
            style := { x := 10, y := 80 } } ]) ∧
    (∃ els, Canvas false
        [ { id := "bg", start := 0, stop := 10, animation := none, style := { x := 0, y := 0 } },
          { id := "caption", start := 2, stop := 5, animation := some "fadeIn",
            style := { x := 10, y := 80 } } ] (5001/1000) = .ok els ∧
      els.map Element.layer =
        [ { id := "bg", start := 0, stop := 10, animation := none,
            style := { x := 0, y := 0 } } ]) := by
  have hres : ∀ l ∈ ([ { id := "bg", start := 0, stop := 10, animation := none,
                         style := { x := 0, y := 0 } },
                       { id := "caption", start := 2, stop := 5, animation := some "fadeIn",
                         style := { x := 10, y := 80 } } ] : List Layer),
      animationKey l ∉ objectPrototypeKeys := by
    intro l hl
    simp only [List.mem_cons, List.mem_singleton, List.not_mem_nil, or_false] at hl
    rcases hl with rfl | rfl <;> decide
  refine ⟨?_, ?_, ?_, ?_⟩
  · obtain ⟨els, h1, h2⟩ := (Canvas_renders_visible_layers true _ (1999/1000)).2 hres
    refine ⟨els, h1, ?_⟩
    rw [h2]
    norm_num [List.filter]
  · obtain ⟨els, h1, h2⟩ := (Canvas_renders_visible_layers true _ 2).2 hres
    refine ⟨els, h1, ?_⟩
    rw [h2]
    norm_num [List.filter]
  · obtain ⟨els, h1, h2⟩ := (Canvas_renders_visible_layers false _ 5).2 hres
    refine ⟨els, h1, ?_⟩
    rw [h2]
    norm_num [List.filter]
  · obtain ⟨els, h1, h2⟩ := (Canvas_renders_visible_layers false _ (5001/1000)).2 hres
    refine ⟨els, h1, ?_⟩
    rw [h2]
    norm_num [List.filter]

/-! ## Progress of a layer -/

/-- The clamp of `layerProgress`, written with the bounds first. -/
theorem layerProgress_eq (layer : Layer) (t : ℚ) :
    layerProgress layer t = max 0 (min 1 ((t - layer.start) / (1/2))) := by
  simp only [layerProgress, animationDuration]
  rcases le_total ((t - layer.start) / (1/2)) 0 with h | h
  · rw [max_eq_right h, min_eq_left (by linarith), min_eq_right (by linarith),
      max_eq_left h]
  · rw [max_eq_left h]
    rcases le_total ((t - layer.start) / (1/2)) 1 with h' | h'
    · rw [min_eq_left h', min_eq_right h', max_eq_right h]
    · rw [min_eq_right h', min_eq_left h', max_eq_right (by norm_num)]

/-- C6. The progress passed to the evaluator for a layer starting at `s` is
`clamp((t - s) / 0.5, 0, 1)`: the element of a visible layer is built from the
style the evaluator returns at that value; the value lies in `[0, 1]`, is 0 up
to and at `t = s`, is `(t - s) / 0.5` on `[s, s + 0.5]`, is 1 from `s + 0.5`
on, and never decreases with `t`. -/
theorem layerProgress_clamp (layer : Layer) (t : ℚ) :
    layerProgress layer t = max 0 (min 1 ((t - layer.start) / (1/2))) ∧
    (∀ (isExporting : Bool) (s : Props), isVisible layer t = true →
      getAnimationStyles (animationKey layer)
        (max 0 (min 1 ((t - layer.start) / (1/2)))) = .ok (some s) →
      renderLayer isExporting t layer =
        .ok (some (if isExporting then .exportDiv layer (appliedStyle s)
                   else .motionDiv layer (withoutXY s)))) ∧
    0 ≤ layerProgress layer t ∧ layerProgress layer t ≤ 1 ∧
    (t ≤ layer.start → layerProgress layer t = 0) ∧
    (layer.start ≤ t → t ≤ layer.start + 1/2 →
      layerProgress layer t = (t - layer.start) / (1/2)) ∧
    (layer.start + 1/2 ≤ t → layerProgress layer t = 1) ∧
    (∀ t', t ≤ t' → layerProgress layer t ≤ layerProgress layer t') := by
  have hdiv : ∀ u : ℚ, (u - layer.start) / (1/2) = 2 * (u - layer.start) := by
    intro u; ring
  refine ⟨layerProgress_eq layer t, ?_, ?_⟩
  · intro isExporting s hvis hs
    rw [← layerProgress_eq] at hs
    exact renderLayer_of_style isExporting layer t s hvis hs
  simp only [layerProgress, animationDuration, hdiv]
  refine ⟨?_, ?_, ?_, ?_, ?_, ?_⟩
  · exact le_min (le_max_right _ _) (by norm_num)
  · exact min_le_right _ _
  · intro h
    rw [max_eq_right (by linarith), min_eq_left (by norm_num)]
  · intro h1 h2
    rw [max_eq_left (by linarith), min_eq_left (by linarith)]
  · intro h
    rw [max_eq_left (by linarith), min_eq_right (by linarith)]
  · intro t' h
    exact min_le_min (max_le_max (by linarith) le_rfl) le_rfl

/-- C6 at a layer starting at 2: progress 0 at `t = 2`, 1/2 at `t = 2.25`,
1 at `t = 2.5` and at `t = 4`. -/
theorem layerProgress_clamp_witness :
    layerProgress { id := "caption", start := 2, stop := 5, animation := some "fadeIn",
                    style := { x := 10, y := 80 } } 2 = 0 ∧
    layerProgress { id := "caption", start := 2, stop := 5, animation := some "fadeIn",
                    style := { x := 10, y := 80 } } (9/4) = 1/2 ∧
    layerProgress { id := "caption", start := 2, stop := 5, animation := some "fadeIn",
                    style := { x := 10, y := 80 } } (5/2) = 1 ∧
    layerProgress { id := "caption", start := 2, stop := 5, animation := some "fadeIn",
                    style := { x := 10, y := 80 } } 4 = 1 := by
  refine ⟨?_, ?_, ?_, ?_⟩
  · exact (layerProgress_clamp _ 2).2.2.2.2.1 (by norm_num)
  · have h := (layerProgress_clamp
      { id := "caption", start := 2, stop := 5, animation := some "fadeIn",
        style := { x := 10, y := 80 } } (9/4)).2.2.2.2.2.1 (by norm_num) (by norm_num)
    rw [h]; norm_num
  · exact (layerProgress_clamp _ (5/2)).2.2.2.2.2.2.1 (by norm_num)
  · exact (layerProgress_clamp _ 4).2.2.2.2.2.2.1 (by norm_num)

/-! ## Double-precision arithmetic -/

theorem roundHalfEven_of_near (m : ℚ) (n : ℤ) (hn : |m - n| < 1/2) :
    roundHalfEven m = n := by
  rw [abs_lt] at hn
  obtain ⟨hlo, hhi⟩ := hn
  unfold roundHalfEven
  rcases le_or_lt (n : ℚ) m with hle | hlt
  · have hf : ⌊m⌋ = n := by
      rw [Int.floor_eq_iff]
      exact ⟨hle, by linarith⟩
    simp only [hf]
    rw [if_pos (by linarith)]
  · have hf : ⌊m⌋ = n - 1 := by
      rw [Int.floor_eq_iff]
      push_cast
      exact ⟨by linarith, by linarith⟩
    simp only [hf]
    push_cast
    rw [if_neg (by linarith), if_pos (by linarith)]
    ring

/-- An integer is its own rounding. -/
theorem roundHalfEven_intCast (n : ℤ) : roundHalfEven (n : ℚ) = n :=
  roundHalfEven_of_near _ n (by simp)

/-- A tie goes to the even neighbour. -/
theorem roundHalfEven_tie (n : ℤ) :
    roundHalfEven ((n : ℚ) + 1/2) = if n % 2 = 0 then n else n + 1 := by
  have hf : ⌊(n : ℚ) + 1/2⌋ = n := by
    rw [Int.floor_eq_iff]
    constructor <;> linarith
  unfold roundHalfEven
  simp only [hf]
  rw [if_neg (by linarith), if_neg (by linarith)]

/-- The rounding is within one half of its argument, and it is one of the two
neighbouring integers. -/
theorem roundHalfEven_cases (m : ℚ) :
    roundHalfEven m = ⌊m⌋ ∨ roundHalfEven m = ⌊m⌋ + 1 := by
  unfold roundHalfEven
  simp only
  split_ifs <;> simp

theorem roundHalfEven_mono (m m' : ℚ) (h : m ≤ m') : roundHalfEven m ≤ roundHalfEven m' := by
  have hfl : ⌊m⌋ ≤ ⌊m'⌋ := Int.floor_mono h
  rcases lt_or_eq_of_le hfl with hlt | heq
  · have h1 : roundHalfEven m ≤ ⌊m⌋ + 1 := by
      rcases roundHalfEven_cases m with h | h <;> omega
    have h2 : ⌊m'⌋ ≤ roundHalfEven m' := by
      rcases roundHalfEven_cases m' with h | h <;> omega
    omega
  · unfold roundHalfEven
    simp only [← heq]
    split_ifs <;> first | omega | (exfalso; linarith)

theorem roundHalfEven_neg (m : ℚ) : roundHalfEven (-m) = - roundHalfEven m := by
  rcases eq_or_lt_of_le (Int.floor_le m) with hint | hlt
  · -- `m` is an integer
    have hm : m = ((⌊m⌋ : ℤ) : ℚ) := hint.symm
    rw [hm, ← Int.cast_neg, roundHalfEven_intCast, roundHalfEven_intCast]
  · have hlt2 : m < ⌊m⌋ + 1 := Int.lt_floor_add_one m
    have hf : ⌊-m⌋ = -⌊m⌋ - 1 := by
      rw [Int.floor_eq_iff]
      push_cast
      constructor <;> linarith
    unfold roundHalfEven
    simp only [hf]
    push_cast
    split_ifs <;> first | omega | (exfalso; linarith)

theorem zpow_log_le (q : ℚ) (hq : 0 < q) : (2 : ℚ) ^ Int.log 2 q ≤ q := by
  have h := Int.zpow_log_le_self (b := 2) (by norm_num) hq
  exact_mod_cast h

theorem lt_zpow_log_succ (q : ℚ) : q < (2 : ℚ) ^ (Int.log 2 q + 1) := by
  have h := Int.lt_zpow_succ_log_self (b := 2) (by norm_num) q
  exact_mod_cast h

theorem log_eq_of_bounds (q : ℚ) (e : ℤ) (hq : 0 < q)
    (he1 : (2 : ℚ) ^ e ≤ q) (he2 : q < (2 : ℚ) ^ (e + 1)) : Int.log 2 q = e := by
  have h1 : e ≤ Int.log 2 q :=
    (Int.zpow_le_iff_le_log (by norm_num) hq).mp (by exact_mod_cast he1)
  have h2 : Int.log 2 q < e + 1 :=
    (Int.lt_zpow_iff_log_lt (by norm_num) hq).mp (by exact_mod_cast he2)
  omega

/-- The double nearest to a positive rational, computed from its binade and
the integer nearest to its scaled value. -/
theorem roundDouble_of_near (q : ℚ) (e n : ℤ) (hq : 0 < q) (he : -1022 ≤ e)
    (he1 : (2 : ℚ) ^ e ≤ q) (he2 : q < (2 : ℚ) ^ (e + 1))
    (hn : |q / (2 : ℚ) ^ (e - 52) - n| < 1/2) :
    roundDouble q = (n : ℚ) * (2 : ℚ) ^ (e - 52) := by
  have hlog : Int.log 2 |q| = e := by
    rw [abs_of_pos hq]
    exact log_eq_of_bounds q e hq he1 he2
  unfold roundDouble
  rw [if_neg (ne_of_gt hq)]
  simp only [hlog, max_eq_left he]
  rw [roundHalfEven_of_near _ n hn]

/-- A positive rational with at most 53 significant bits is a double. -/
theorem roundDouble_of_exact (q : ℚ) (e n : ℤ) (hq : 0 < q) (he : -1022 ≤ e)
    (he1 : (2 : ℚ) ^ e ≤ q) (he2 : q < (2 : ℚ) ^ (e + 1))
    (hn : q = (n : ℚ) * (2 : ℚ) ^ (e - 52)) :
    roundDouble q = q := by
  have hpos : (0 : ℚ) < (2 : ℚ) ^ (e - 52) := by positivity
  rw [roundDouble_of_near q e n hq he he1 he2, ← hn]
  rw [hn, mul_div_assoc, div_self (ne_of_gt hpos)]
  simp

/-- A positive rational half-way between two doubles rounds to the one with the
even significand. -/
theorem roundDouble_of_tie (q : ℚ) (e n : ℤ) (hq : 0 < q) (he : -1022 ≤ e)
    (he1 : (2 : ℚ) ^ e ≤ q) (he2 : q < (2 : ℚ) ^ (e + 1))
    (hn : q / (2 : ℚ) ^ (e - 52) = (n : ℚ) + 1/2) :
    roundDouble q = ((if n % 2 = 0 then n else n + 1 : ℤ) : ℚ) * (2 : ℚ) ^ (e - 52) := by
  have hlog : Int.log 2 |q| = e := by
    rw [abs_of_pos hq]
    exact log_eq_of_bounds q e hq he1 he2
  unfold roundDouble
  rw [if_neg (ne_of_gt hq)]
  simp only [hlog, max_eq_left he]
  rw [hn, roundHalfEven_tie]

theorem roundDouble_zero : roundDouble 0 = 0 := by
  simp [roundDouble]

theorem roundDouble_neg (q : ℚ) : roundDouble (-q) = - roundDouble q := by
  unfold roundDouble
  by_cases hq : q = 0
  · simp [hq]
  · rw [if_neg (by simpa using hq), if_neg hq]
    simp only [abs_neg, neg_div, roundHalfEven_neg]
    push_cast
    ring

theorem roundDouble_nonneg (q : ℚ) (hq : 0 ≤ q) : 0 ≤ roundDouble q := by
  unfold roundDouble
  split_ifs with h0
  · exact le_refl _
  · simp only
    have hpos : (0 : ℚ) < (2 : ℚ) ^ (max (Int.log 2 |q|) (-1022) - 52) := by positivity
    have h1 : roundHalfEven 0 ≤ roundHalfEven (q / (2 : ℚ) ^ (max (Int.log 2 |q|) (-1022) - 52)) :=
      roundHalfEven_mono _ _ (div_nonneg hq (le_of_lt hpos))
    have h2 : roundHalfEven 0 = 0 := by
      have := roundHalfEven_intCast 0
      simpa using this
    rw [h2] at h1
    have h3 : (0 : ℚ) ≤ (roundHalfEven (q / (2 : ℚ) ^ (max (Int.log 2 |q|) (-1022) - 52)) : ℚ) := by
      exact_mod_cast h1
    exact mul_nonneg h3 (le_of_lt hpos)

theorem scale_two_pow_53 (e : ℤ) :
    (((2 : ℤ) ^ 53 : ℤ) : ℚ) * (2 : ℚ) ^ (e - 52) = (2 : ℚ) ^ (e + 1) := by
  rw [zpow_sub₀ (by norm_num), zpow_add₀ (by norm_num)]
  norm_num
  ring

theorem scale_two_pow_52 (e : ℤ) :
    (((2 : ℤ) ^ 52 : ℤ) : ℚ) * (2 : ℚ) ^ (e - 52) = (2 : ℚ) ^ e := by
  rw [zpow_sub₀ (by norm_num)]
  norm_num
  ring

/-- The rounding of a positive rational stays within its binade: it is at least
the lower power of two when that is a normal one, and at most the upper. -/
theorem roundDouble_binade (q : ℚ) (hq : 0 < q) :
    roundDouble q ≤ (2 : ℚ) ^ (max (Int.log 2 q) (-1022) + 1) ∧
    (-1022 ≤ Int.log 2 q → (2 : ℚ) ^ Int.log 2 q ≤ roundDouble q) := by
  have hlo := zpow_log_le q hq
  have hhi := lt_zpow_log_succ q
  unfold roundDouble
  rw [if_neg (ne_of_gt hq), abs_of_pos hq]
  simp only
  set e := max (Int.log 2 q) (-1022) with he
  have hpos : (0 : ℚ) < (2 : ℚ) ^ (e - 52) := by positivity
  constructor
  · have hq2 : q ≤ (2 : ℚ) ^ (e + 1) := by
      refine le_trans (le_of_lt hhi) ?_
      exact zpow_le_zpow_right₀ (by norm_num) (by omega)
    have hm : q / (2 : ℚ) ^ (e - 52) ≤ (((2 : ℤ) ^ 53 : ℤ) : ℚ) := by
      rw [div_le_iff₀ hpos]
      rw [scale_two_pow_53]
      exact hq2
    have hr := roundHalfEven_mono _ _ hm
    rw [roundHalfEven_intCast] at hr
    have hr' : (roundHalfEven (q / (2 : ℚ) ^ (e - 52)) : ℚ) ≤ (((2 : ℤ) ^ 53 : ℤ) : ℚ) := by
      exact_mod_cast hr
    calc (roundHalfEven (q / (2 : ℚ) ^ (e - 52)) : ℚ) * (2 : ℚ) ^ (e - 52)
        ≤ (((2 : ℤ) ^ 53 : ℤ) : ℚ) * (2 : ℚ) ^ (e - 52) :=
          mul_le_mul_of_nonneg_right hr' (le_of_lt hpos)
      _ = (2 : ℚ) ^ (e + 1) := scale_two_pow_53 e
  · intro hnorm
    have hee : e = Int.log 2 q := by rw [he]; exact max_eq_left hnorm
    rw [hee]
    have hm : (((2 : ℤ) ^ 52 : ℤ) : ℚ) ≤ q / (2 : ℚ) ^ (Int.log 2 q - 52) := by
      rw [le_div_iff₀ (by positivity)]
      rw [scale_two_pow_52]
      exact hlo
    have hr := roundHalfEven_mono _ _ hm
    rw [roundHalfEven_intCast] at hr
    have hr' : (((2 : ℤ) ^ 52 : ℤ) : ℚ) ≤ (roundHalfEven (q / (2 : ℚ) ^ (Int.log 2 q - 52)) : ℚ) := by
      exact_mod_cast hr
    calc (2 : ℚ) ^ Int.log 2 q
        = (((2 : ℤ) ^ 52 : ℤ) : ℚ) * (2 : ℚ) ^ (Int.log 2 q - 52) :=
          (scale_two_pow_52 _).symm
      _ ≤ (roundHalfEven (q / (2 : ℚ) ^ (Int.log 2 q - 52)) : ℚ) * (2 : ℚ) ^ (Int.log 2 q - 52) :=
          mul_le_mul_of_nonneg_right hr' (by positivity)

theorem roundDouble_mono_pos (x y : ℚ) (hx : 0 < x) (hxy : x ≤ y) :
    roundDouble x ≤ roundDouble y := by
  have hy : 0 < y := lt_of_lt_of_le hx hxy
  have hlog : Int.log 2 x ≤ Int.log 2 y := Int.log_mono_right hx hxy
  rcases eq_or_lt_of_le (max_le_max hlog (le_refl (-1022 : ℤ))) with heq | hlt
  · unfold roundDouble
    rw [if_neg (ne_of_gt hx), if_neg (ne_of_gt hy), abs_of_pos hx, abs_of_pos hy]
    simp only
    rw [heq]
    have hpos : (0 : ℚ) < (2 : ℚ) ^ (max (Int.log 2 y) (-1022) - 52) := by positivity
    have hm := roundHalfEven_mono _ _ (div_le_div_of_nonneg_right hxy (le_of_lt hpos))
    have hm' : (roundHalfEven (x / (2 : ℚ) ^ (max (Int.log 2 y) (-1022) - 52)) : ℚ) ≤
        (roundHalfEven (y / (2 : ℚ) ^ (max (Int.log 2 y) (-1022) - 52)) : ℚ) := by
      exact_mod_cast hm
    exact mul_le_mul_of_nonneg_right hm' (le_of_lt hpos)
  · have hynorm : -1022 ≤ Int.log 2 y := by
      by_contra hc
      rw [max_eq_right (by omega : Int.log 2 y ≤ -1022)] at hlt
      have := le_max_right (Int.log 2 x) (-1022)
      omega
    have hye : max (Int.log 2 y) (-1022) = Int.log 2 y := max_eq_left hynorm
    rw [hye] at hlt
    calc roundDouble x ≤ (2 : ℚ) ^ (max (Int.log 2 x) (-1022) + 1) := (roundDouble_binade x hx).1
      _ ≤ (2 : ℚ) ^ Int.log 2 y := zpow_le_zpow_right₀ (by norm_num) (by omega)
      _ ≤ roundDouble y := (roundDouble_binade y hy).2 hynorm

/-- Rounding to a double is monotone. -/
theorem roundDouble_mono (x y : ℚ) (hxy : x ≤ y) : roundDouble x ≤ roundDouble y := by
  rcases lt_trichotomy x 0 with hx | hx | hx
  · rcases lt_or_le y 0 with hy | hy
    · have h := roundDouble_mono_pos (-y) (-x) (by linarith) (by linarith)
      rw [roundDouble_neg, roundDouble_neg] at h
      linarith
    · have h1 := roundDouble_nonneg (-x) (by linarith)
      rw [roundDouble_neg] at h1
      have h2 := roundDouble_nonneg y hy
      linarith
  · rw [hx, roundDouble_zero]
    exact roundDouble_nonneg y (by linarith)
  · exact roundDouble_mono_pos x y hx hxy

theorem roundDouble_two : roundDouble 2 = 2 :=
  roundDouble_of_exact 2 1 4503599627370496 (by norm_num) (by norm_num) (by norm_num)
    (by norm_num) (by norm_num)

theorem roundDouble_thirty : roundDouble 30 = 30 :=
  roundDouble_of_exact 30 4 8444249301319680 (by norm_num) (by norm_num) (by norm_num)
    (by norm_num) (by norm_num)

theorem roundDouble_sixty : roundDouble 60 = 60 :=
  roundDouble_of_exact 60 5 8444249301319680 (by norm_num) (by norm_num) (by norm_num)
    (by norm_num) (by norm_num)

theorem roundDouble_one : roundDouble 1 = 1 :=
  roundDouble_of_exact 1 0 4503599627370496 (by norm_num) (by norm_num) (by norm_num)
    (by norm_num) (by norm_num)

theorem roundDouble_three : roundDouble 3 = 3 :=
  roundDouble_of_exact 3 1 6755399441055744 (by norm_num) (by norm_num) (by norm_num)
    (by norm_num) (by norm_num)

/-- A 2-second job at 30 fps has 60 frames. -/
theorem totalFrames_2s_30fps (p : ExportParams) (hd : p.duration = 2) (hf : p.fps = 30) :
    totalFrames p = 60 := by
  unfold totalFrames totalFramesDouble
  rw [hd, hf, roundDouble_two, roundDouble_thirty]
  norm_num [roundDouble_sixty]

/-- A 1-second job at 3 fps has 3 frames. -/
theorem totalFrames_1s_3fps (p : ExportParams) (hd : p.duration = 1) (hf : p.fps = 3) :
    totalFrames p = 3 := by
  unfold totalFrames totalFramesDouble
  rw [hd, hf, roundDouble_one, roundDouble_three]
  norm_num [roundDouble_three]

/-! ## Export loop -/

theorem encodedFrames_append (xs ys : List Event) :
    encodedFrames (xs ++ ys) = encodedFrames xs ++ encodedFrames ys := by
  induction xs with
  | nil => rfl
  | cons e es ih => cases e <;> simp [encodedFrames, ih]

theorem progressValues_append (xs ys : List Event) :
    progressValues (xs ++ ys) = progressValues xs ++ progressValues ys := by
  induction xs with
  | nil => rfl
  | cons e es ih => cases e <;> simp [progressValues, ih]

theorem seekTimes_append (xs ys : List Event) :
    seekTimes (xs ++ ys) = seekTimes xs ++ seekTimes ys := by
  induction xs with
  | nil => rfl
  | cons e es ih => cases e <;> simp [seekTimes, ih]

theorem encodedFrames_flatten (xss : List (List Event)) :
    encodedFrames xss.flatten = (xss.map encodedFrames).flatten := by
  induction xss with
  | nil => rfl
  | cons xs xss ih => simp [encodedFrames_append, ih]

theorem progressValues_flatten (xss : List (List Event)) :
    progressValues xss.flatten = (xss.map progressValues).flatten := by
  induction xss with
  | nil => rfl
  | cons xs xss ih => simp [progressValues_append, ih]

theorem encodedFrames_frameStep (p : ExportParams) (h : Host) (i : ℕ) :
    encodedFrames (frameStep p h i) =
      if h.captureOk i then
        [{ canvas := i, timestamp := (i : ℚ) * (1000000 / p.fps), duration := 1000000 / p.fps }]
      else [] := by
  unfold frameStep
  cases hc : h.captureOk i <;> cases hp : p.onProgress <;>
    simp [encodedFrames, frameDurationMicroseconds]

theorem progressValues_frameStep (p : ExportParams) (h : Host) (i : ℕ) :
    progressValues (frameStep p h i) =
      if p.onProgress then [((i : ℚ) + 1) / (totalFrames p : ℚ)] else [] := by
  unfold frameStep
  cases hc : h.captureOk i <;> cases hp : p.onProgress <;> simp [progressValues]

theorem seekTimes_frameStep (p : ExportParams) (h : Host) (i : ℕ) :
    seekTimes (frameStep p h i) = [(i : ℚ) / p.fps] := by
  unfold frameStep
  cases hc : h.captureOk i <;> cases hp : p.onProgress <;> simp [seekTimes]

theorem encodedFrames_steps (p : ExportParams) (h : Host) (is : List ℕ) :
    encodedFrames (is.map (frameStep p h)).flatten =
      (is.filter h.captureOk).map (fun i =>
        { canvas := i, timestamp := (i : ℚ) * (1000000 / p.fps),
          duration := 1000000 / p.fps }) := by
  induction is with
  | nil => rfl
  | cons i is ih =>
    simp only [List.map_cons, List.flatten_cons, encodedFrames_append, ih,
      encodedFrames_frameStep]
    cases hc : h.captureOk i <;> simp [List.filter_cons, hc]

theorem progressValues_steps (p : ExportParams) (h : Host) (is : List ℕ)
    (hprog : p.onProgress = true) :
    progressValues (is.map (frameStep p h)).flatten =
      is.map (fun i : ℕ => ((i : ℚ) + 1) / (totalFrames p : ℚ)) := by
  induction is with
  | nil => rfl
  | cons i is ih =>
    simp only [List.map_cons, List.flatten_cons, progressValues_append, ih,
      progressValues_frameStep, hprog, if_true]
    rfl

theorem seekTimes_steps (p : ExportParams) (h : Host) (is : List ℕ) :
    seekTimes (is.map (frameStep p h)).flatten = is.map (fun i : ℕ => (i : ℚ) / p.fps) := by
  induction is with
  | nil => rfl
  | cons i is ih =>
    simp only [List.map_cons, List.flatten_cons, seekTimes_append, seekTimes_frameStep, ih]
    rfl

/-- An iteration whose two callbacks return makes the calls of `frameStep` and
throws nothing. -/
theorem runFrameStep_of_returns (p : ExportParams) (h : Host) (i : ℕ)
    (hseek : p.seekToThrows i = none) (hcall : p.onProgressThrows i = none) :
    runFrameStep p h i = (frameStep p h i, none) := by
  unfold runFrameStep
  rw [hseek, hcall]
  simp

/-- An iteration either makes the calls of `frameStep`, and then throws only
what its `onProgress` call throws, or stops at a `seekTo` call that throws. -/
theorem runFrameStep_cases (p : ExportParams) (h : Host) (i : ℕ) :
    ((runFrameStep p h i).1 = frameStep p h i ∧ p.seekToThrows i = none ∧
      ((runFrameStep p h i).2 = none ∨
        (p.onProgress = true ∧ (runFrameStep p h i).2 = p.onProgressThrows i))) ∨
    ((runFrameStep p h i).1 = [.seekTo ((i : ℚ) / p.fps)] ∧
      (runFrameStep p h i).2 = p.seekToThrows i ∧ p.seekToThrows i ≠ none) := by
  unfold runFrameStep
  cases hs : p.seekToThrows i with
  | some msg => exact Or.inr ⟨rfl, rfl, by simp⟩
  | none =>
    refine Or.inl ⟨rfl, rfl, ?_⟩
    cases hp : p.onProgress with
    | false => exact Or.inl (by simp)
    | true => exact Or.inr ⟨rfl, by simp⟩

theorem runFrameStep_fst_of_none (p : ExportParams) (h : Host) (i : ℕ)
    (hnone : (runFrameStep p h i).2 = none) :
    (runFrameStep p h i).1 = frameStep p h i := by
  rcases runFrameStep_cases p h i with ⟨h1, _, _⟩ | ⟨_, h2, h3⟩
  · exact h1
  · rw [hnone] at h2
    exact absurd h2.symm h3

/-- The frame loop started at `i` runs whole iterations, none of which throws,
up to the first one that throws, which it ends with, or up to the bound. -/
theorem frameLoop_spec (p : ExportParams) (h : Host) :
    ∀ (n i : ℕ) (trace : List Event), (totalFrames p - (i : ℤ)).toNat = n →
      ∃ k : ℕ, k ≤ n ∧ (∀ j : ℕ, i ≤ j → j < i + k → (runFrameStep p h j).2 = none) ∧
        ((k = n ∧ frameLoop p h i trace =
            (trace ++ ((List.range' i k).map (frameStep p h)).flatten, none)) ∨
         (k < n ∧ ∃ msg, (runFrameStep p h (i + k)).2 = some msg ∧
            frameLoop p h i trace =
              (trace ++ ((List.range' i k).map (frameStep p h)).flatten
                ++ (runFrameStep p h (i + k)).1, some msg))) := by
  intro n
  induction n with
  | zero =>
    intro i trace hn
    refine ⟨0, le_refl _, fun j h1 h2 => by omega, Or.inl ⟨rfl, ?_⟩⟩
    rw [frameLoop, if_neg (by omega)]
    simp
  | succ n ih =>
    intro i trace hn
    cases hstep : (runFrameStep p h i).2 with
    | some msg =>
      refine ⟨0, Nat.zero_le _, fun j h1 h2 => by omega,
        Or.inr ⟨Nat.succ_pos _, msg, by simpa using hstep, ?_⟩⟩
      rw [frameLoop, if_pos (by omega)]
      simp [hstep]
    | none =>
      have hfst := runFrameStep_fst_of_none p h i hstep
      obtain ⟨k, hk, hnone, hcase⟩ :=
        ih (i + 1) (trace ++ frameStep p h i) (by push_cast; omega)
      have hloop : frameLoop p h i trace = frameLoop p h (i + 1) (trace ++ frameStep p h i) := by
        rw [frameLoop, if_pos (by omega)]
        simp [hstep, hfst]
      have hnone' : ∀ j : ℕ, i ≤ j → j < i + (k + 1) → (runFrameStep p h j).2 = none := by
        intro j h1 h2
        rcases Nat.eq_or_lt_of_le h1 with rfl | hlt
        · exact hstep
        · exact hnone j (by omega) (by omega)
      refine ⟨k + 1, by omega, hnone', ?_⟩
      rcases hcase with ⟨hkn, heq⟩ | ⟨hkn, msg, hmsg, heq⟩
      · refine Or.inl ⟨by omega, ?_⟩
        rw [hloop, heq]
        simp [List.range'_succ, List.append_assoc]
      · refine Or.inr ⟨by omega, msg, ?_, ?_⟩
        · have : i + (k + 1) = i + 1 + k := by omega
          rw [this]
          exact hmsg
        · have : i + (k + 1) = i + 1 + k := by omega
          rw [hloop, heq, this]
          simp [List.range'_succ, List.append_assoc]

theorem finish_cases (h : Host) (frames : List VideoFrame) :
    (∃ msg, h.flushRejects frames = some msg ∧
      finish h frames = { events := [.flush], outcome := .threw msg }) ∨
    (h.flushRejects frames = none ∧ ∃ msg, h.finalizeThrows frames = some msg ∧
      finish h frames = { events := [.flush, .finalize], outcome := .threw msg }) ∨
    (h.flushRejects frames = none ∧ h.finalizeThrows frames = none ∧
      finish h frames = { events := [.flush, .finalize, .download], outcome := .returned }) := by
  unfold finish
  cases hf : h.flushRejects frames with
  | some msg => exact Or.inl ⟨msg, rfl, rfl⟩
  | none =>
    cases hz : h.finalizeThrows frames with
    | some msg => exact Or.inr (Or.inl ⟨rfl, msg, rfl, rfl⟩)
    | none => exact Or.inr (Or.inr ⟨rfl, rfl, rfl⟩)

/-- The run on a host with an encoder and the canvas container: the set-up,
whole iterations, none of which throws, for the indices below some `k`, and
then either, with `k` the loop bound, the calls of `finish`, or the calls of an
iteration `k` that throws. -/
theorem renderAndExport_events (p : ExportParams) (h : Host)
    (henc : h.hasVideoEncoder = true) (hel : h.hasElement p.canvasId = true) :
    ∃ k : ℕ, k ≤ (totalFrames p).toNat ∧
      (∀ j : ℕ, j < k → (runFrameStep p h j).2 = none) ∧
      ((k = (totalFrames p).toNat ∧
        renderAndExport p h =
          { events := setupEvents p ++ ((List.range k).map (frameStep p h)).flatten
              ++ (finish h (encodedFrames
                  (setupEvents p ++ ((List.range k).map (frameStep p h)).flatten))).events
            outcome := (finish h (encodedFrames
                  (setupEvents p ++ ((List.range k).map (frameStep p h)).flatten))).outcome }) ∨
       (k < (totalFrames p).toNat ∧ ∃ msg, (runFrameStep p h k).2 = some msg ∧
        renderAndExport p h =
          { events := setupEvents p ++ ((List.range k).map (frameStep p h)).flatten
              ++ (runFrameStep p h k).1
            outcome := .threw msg })) := by
  obtain ⟨k, hk, hnone, hcase⟩ :=
    frameLoop_spec p h (totalFrames p).toNat 0 (setupEvents p) (by simp)
  refine ⟨k, hk, fun j hj => hnone j (Nat.zero_le _) (by omega), ?_⟩
  rw [← List.range_eq_range'] at hcase
  rcases hcase with ⟨hkn, heq⟩ | ⟨hkn, msg, hmsg, heq⟩
  · refine Or.inl ⟨hkn, ?_⟩
    simp only [renderAndExport, henc, hel, Bool.not_true, Bool.false_eq_true, if_false, heq]
  · refine Or.inr ⟨hkn, msg, by simpa using hmsg, ?_⟩
    simp only [renderAndExport, henc, hel, Bool.not_true, Bool.false_eq_true, if_false, heq,
      Nat.zero_add]

/-- The run when the callbacks return for every frame index: the set-up, every
iteration of the loop, and the calls of `finish`. -/
theorem renderAndExport_of_returns (p : ExportParams) (h : Host)
    (henc : h.hasVideoEncoder = true) (hel : h.hasElement p.canvasId = true)
    (hseek : ∀ i : ℕ, (i : ℤ) < totalFrames p → p.seekToThrows i = none)
    (hcall : ∀ i : ℕ, (i : ℤ) < totalFrames p → p.onProgressThrows i = none) :
    renderAndExport p h =
      { events := setupEvents p
          ++ ((List.range (totalFrames p).toNat).map (frameStep p h)).flatten
          ++ (finish h (encodedFrames (setupEvents p
              ++ ((List.range (totalFrames p).toNat).map (frameStep p h)).flatten))).events
        outcome := (finish h (encodedFrames (setupEvents p
              ++ ((List.range (totalFrames p).toNat).map (frameStep p h)).flatten))).outcome } := by
  obtain ⟨k, _, _, ⟨hkn, heq⟩ | ⟨hkn, msg, hmsg, _⟩⟩ := renderAndExport_events p h henc hel
  · rw [heq, hkn]
  · have hlt : (k : ℤ) < totalFrames p := by omega
    rw [runFrameStep_of_returns p h k (hseek k hlt) (hcall k hlt)] at hmsg
    cases hmsg

theorem finish_events_subset (h : Host) (frames : List VideoFrame) (e : Event)
    (he : e ∈ (finish h frames).events) : e ∈ [Event.flush, Event.finalize, Event.download] := by
  rcases finish_cases h frames with ⟨msg, _, hf⟩ | ⟨_, msg, _, hf⟩ | ⟨_, _, hf⟩ <;>
    rw [hf] at he <;> simp at he ⊢ <;> tauto

theorem encodedFrames_finish (h : Host) (frames : List VideoFrame) :
    encodedFrames (finish h frames).events = [] := by
  rcases finish_cases h frames with ⟨msg, _, hf⟩ | ⟨_, msg, _, hf⟩ | ⟨_, _, hf⟩ <;>
    rw [hf] <;> rfl

theorem progressValues_finish (h : Host) (frames : List VideoFrame) :
    progressValues (finish h frames).events = [] := by
  rcases finish_cases h frames with ⟨msg, _, hf⟩ | ⟨_, msg, _, hf⟩ | ⟨_, _, hf⟩ <;>
    rw [hf] <;> rfl

theorem seekTimes_finish (h : Host) (frames : List VideoFrame) :
    seekTimes (finish h frames).events = [] := by
  rcases finish_cases h frames with ⟨msg, _, hf⟩ | ⟨_, msg, _, hf⟩ | ⟨_, _, hf⟩ <;>
    rw [hf] <;> rfl

theorem flush_mem_finish (h : Host) (frames : List VideoFrame) :
    Event.flush ∈ (finish h frames).events := by
  rcases finish_cases h frames with ⟨msg, _, hf⟩ | ⟨_, msg, _, hf⟩ | ⟨_, _, hf⟩ <;>
    rw [hf] <;> simp

/-- The frames the encoder was handed when the loop has run the iterations of
the indices `is`. -/
theorem encodedFrames_loop (p : ExportParams) (h : Host) (is : List ℕ) :
    encodedFrames (setupEvents p ++ (is.map (frameStep p h)).flatten) =
      (is.filter h.captureOk).map (fun i =>
        { canvas := i, timestamp := (i : ℚ) * (1000000 / p.fps),
          duration := 1000000 / p.fps }) := by
  rw [encodedFrames_append, encodedFrames_steps]
  rfl

theorem encodedFrames_run (p : ExportParams) (h : Host)
    (henc : h.hasVideoEncoder = true) (hel : h.hasElement p.canvasId = true)
    (hseek : ∀ i : ℕ, (i : ℤ) < totalFrames p → p.seekToThrows i = none)
    (hcall : ∀ i : ℕ, (i : ℤ) < totalFrames p → p.onProgressThrows i = none) :
    encodedFrames (renderAndExport p h).events =
      ((List.range (totalFrames p).toNat).filter h.captureOk).map (fun i =>
        { canvas := i, timestamp := (i : ℚ) * (1000000 / p.fps),
          duration := 1000000 / p.fps }) := by
  rw [renderAndExport_of_returns p h henc hel hseek hcall]
  simp only
  rw [encodedFrames_append, encodedFrames_finish, List.append_nil, encodedFrames_loop]

theorem progressValues_run (p : ExportParams) (h : Host)
    (henc : h.hasVideoEncoder = true) (hel : h.hasElement p.canvasId = true)
    (hprog : p.onProgress = true)
    (hseek : ∀ i : ℕ, (i : ℤ) < totalFrames p → p.seekToThrows i = none)
    (hcall : ∀ i : ℕ, (i : ℤ) < totalFrames p → p.onProgressThrows i = none) :
    progressValues (renderAndExport p h).events =
      (List.range (totalFrames p).toNat).map (fun i : ℕ =>
        ((i : ℚ) + 1) / (totalFrames p : ℚ)) := by
  rw [renderAndExport_of_returns p h henc hel hseek hcall]
  simp only
  rw [progressValues_append, progressValues_finish, List.append_nil, progressValues_append,
    progressValues_steps p h _ hprog]
  rfl

theorem seekTimes_run (p : ExportParams) (h : Host)
    (henc : h.hasVideoEncoder = true) (hel : h.hasElement p.canvasId = true)
    (hseek : ∀ i : ℕ, (i : ℤ) < totalFrames p → p.seekToThrows i = none)
    (hcall : ∀ i : ℕ, (i : ℤ) < totalFrames p → p.onProgressThrows i = none) :
    seekTimes (renderAndExport p h).events =
      (List.range (totalFrames p).toNat).map (fun i : ℕ => (i : ℚ) / p.fps) := by
  rw [renderAndExport_of_returns p h henc hel hseek hcall]
  simp only
  rw [seekTimes_append, seekTimes_finish, List.append_nil, seekTimes_append, seekTimes_steps]
  rfl

theorem seekTo_mem_frameStep (p : ExportParams) (h : Host) (i : ℕ) :
    Event.seekTo ((i : ℚ) / p.fps) ∈ frameStep p h i := by
  unfold frameStep
  simp

/-- Every call of a run that has passed the container check is a call of the
set-up, of an iteration of a frame index below the bound, or one of flush,
finalize and download. -/
theorem mem_events (p : ExportParams) (h : Host)
    (henc : h.hasVideoEncoder = true) (hel : h.hasElement p.canvasId = true)
    (e : Event) (hmem : e ∈ (renderAndExport p h).events) :
    e ∈ setupEvents p ∨ (∃ i : ℕ, (i : ℤ) < totalFrames p ∧ e ∈ frameStep p h i) ∨
    e ∈ [Event.flush, Event.finalize, Event.download] := by
  obtain ⟨k, hk, _, ⟨_, heq⟩ | ⟨hkn, msg, _, heq⟩⟩ := renderAndExport_events p h henc hel
  · rw [heq] at hmem
    simp only [List.mem_append, List.mem_flatten, List.mem_map, List.mem_range] at hmem
    rcases hmem with (hset | ⟨step, ⟨i, hi, rfl⟩, hstep⟩) | hfin
    · exact Or.inl hset
    · exact Or.inr (Or.inl ⟨i, by omega, hstep⟩)
    · exact Or.inr (Or.inr (finish_events_subset h _ e hfin))
  · rw [heq] at hmem
    simp only [List.mem_append, List.mem_flatten, List.mem_map, List.mem_range] at hmem
    rcases hmem with (hset | ⟨step, ⟨i, hi, rfl⟩, hstep⟩) | hrest
    · exact Or.inl hset
    · exact Or.inr (Or.inl ⟨i, by omega, hstep⟩)
    · refine Or.inr (Or.inl ⟨k, by omega, ?_⟩)
      rcases runFrameStep_cases p h k with ⟨h1, _, _⟩ | ⟨h1, _, _⟩
      · rw [h1] at hrest
        exact hrest
      · rw [h1, List.mem_singleton] at hrest
        rw [hrest]
        exact seekTo_mem_frameStep p h k

theorem mem_encodedFrames_iff (f : VideoFrame) (es : List Event) :
    f ∈ encodedFrames es ↔ ∃ k, Event.encode f k ∈ es := by
  induction es with
  | nil => simp [encodedFrames]
  | cons e es ih =>
    constructor
    · intro hf
      by_cases he : ∃ k, e = Event.encode f k
      · obtain ⟨k, rfl⟩ := he
        exact ⟨k, List.mem_cons_self _ _⟩
      · have hes : f ∈ encodedFrames es := by
          cases e <;> simp only [encodedFrames] at hf <;> try exact hf
          case encode g k =>
            rcases List.mem_cons.mp hf with rfl | hf'
            · exact absurd ⟨k, rfl⟩ he
            · exact hf'
        obtain ⟨k, hk⟩ := ih.mp hes
        exact ⟨k, List.mem_cons_of_mem _ hk⟩
    · rintro ⟨k, hk⟩
      rcases List.mem_cons.mp hk with rfl | hk'
      · simp [encodedFrames]
      · have hes := ih.mpr ⟨k, hk'⟩
        cases e <;> simp only [encodedFrames] <;> try exact hes
        exact List.mem_cons_of_mem _ hes

/-- An `encode` call of a run is made in an iteration of the loop whose
capture succeeded, with the frame built from that iteration's index and the
key-frame flag `i % 30 === 0`. -/
theorem mem_encode_events (p : ExportParams) (h : Host) (f : VideoFrame) (k : Bool)
    (hmem : Event.encode f k ∈ (renderAndExport p h).events) :
    (f.canvas : ℤ) < totalFrames p ∧ h.captureOk f.canvas = true ∧
    k = (f.canvas % 30 == 0) ∧
    f.timestamp = (f.canvas : ℚ) * (1000000 / p.fps) ∧ f.duration = 1000000 / p.fps := by
  cases henc : h.hasVideoEncoder with
  | false => simp [renderAndExport, henc] at hmem
  | true =>
    cases hel : h.hasElement p.canvasId with
    | false => simp [renderAndExport, henc, hel, setupEvents] at hmem
    | true =>
      rcases mem_events p h henc hel _ hmem with hset | ⟨i, hi, hstep⟩ | hfin
      · simp [setupEvents] at hset
      · unfold frameStep at hstep
        cases hc : h.captureOk i <;> cases hp : p.onProgress <;>
          simp [hc, hp] at hstep
        all_goals
          obtain ⟨rfl, rfl⟩ := hstep
          exact ⟨hi, hc, rfl, rfl, rfl⟩
      · simp at hfin

/-- Every frame handed to the encoder was captured in an iteration of the
loop and carries the times computed from that iteration's index. -/
theorem mem_encodedFrames (p : ExportParams) (h : Host) (f : VideoFrame)
    (hf : f ∈ encodedFrames (renderAndExport p h).events) :
    (f.canvas : ℤ) < totalFrames p ∧ h.captureOk f.canvas = true ∧
    f.timestamp = (f.canvas : ℚ) * (1000000 / p.fps) ∧ f.duration = 1000000 / p.fps := by
  obtain ⟨k, hk⟩ := (mem_encodedFrames_iff f _).mp hf
  obtain ⟨h1, h2, _, h3, h4⟩ := mem_encode_events p h f k hk
  exact ⟨h1, h2, h3, h4⟩

/-- An iteration whose capture succeeds makes its `encode` call, when the
callbacks return. -/
theorem encode_mem_events (p : ExportParams) (h : Host) (i : ℕ)
    (henc : h.hasVideoEncoder = true) (hel : h.hasElement p.canvasId = true)
    (hseek : ∀ i : ℕ, (i : ℤ) < totalFrames p → p.seekToThrows i = none)
    (hcall : ∀ i : ℕ, (i : ℤ) < totalFrames p → p.onProgressThrows i = none)
    (hi : (i : ℤ) < totalFrames p) (hc : h.captureOk i = true) :
    Event.encode
        { canvas := i
          timestamp := (i : ℚ) * frameDurationMicroseconds p
          duration := frameDurationMicroseconds p }
        (i % 30 == 0) ∈ (renderAndExport p h).events := by
  rw [renderAndExport_of_returns p h henc hel hseek hcall]
  simp only [List.mem_append, List.mem_flatten, List.mem_map, List.mem_range]
  refine Or.inl (Or.inr ⟨frameStep p h i, ⟨i, by omega, rfl⟩, ?_⟩)
  unfold frameStep
  simp [hc]

theorem range_filter_all (n : ℕ) (f : ℕ → Bool) (hf : ∀ i, i < n → f i = true) :
    (List.range n).filter f = List.range n := by
  rw [List.filter_eq_self]
  intro i hi
  exact hf i (List.mem_range.mp hi)

theorem range_filter_pairwise (n : ℕ) (f : ℕ → Bool) :
    ((List.range n).filter f).Pairwise (· < ·) :=
  (List.pairwise_lt_range n).sublist (List.filter_sublist _)

theorem filter_length_add (l : List ℕ) (f : ℕ → Bool) :
    (l.filter f).length + (l.filter (fun i => !f i)).length = l.length := by
  induction l with
  | nil => rfl
  | cons a l ih =>
    cases hf : f a <;> simp [List.filter_cons, hf] <;> omega

theorem roundDouble_tenth : roundDouble (1/10) = 3602879701896397 / 2 ^ 55 := by
  rw [roundDouble_of_near (1/10) (-4) 7205759403792794 (by norm_num) (by norm_num)
    (by norm_num) (by norm_num) (by rw [abs_lt]; constructor <;> norm_num)]
  norm_num

theorem roundDouble_tenth_times_thirty :
    roundDouble (3602879701896397 / 2 ^ 55 * 30) = 3 := by
  rw [roundDouble_of_near _ 1 6755399441055744 (by norm_num) (by norm_num)
    (by norm_num) (by norm_num) (by rw [abs_lt]; constructor <;> norm_num)]
  norm_num

/-- A job of a tenth of a second at 30 fps has 3 frames: the double nearest to
0.1 is above 0.1, but its product with 30 rounds to the double 3. -/
theorem totalFrames_tenth_30fps (p : ExportParams) (hd : p.duration = 1/10) (hf : p.fps = 30) :
    totalFrames p = 3 := by
  unfold totalFrames totalFramesDouble
  rw [hd, hf, roundDouble_tenth, roundDouble_thirty, roundDouble_tenth_times_thirty]
  norm_num

/-- C7. On a host with an encoder and the canvas container, when no capture
fails and the callbacks return, the encoder is handed one frame per index
`0 .. totalFrames - 1`, in increasing index order, where `totalFrames` is
`Math.ceil(duration * fps)` as line 20 computes it, the product being the
product of doubles. -/
theorem renderAndExport_encodes_every_frame (p : ExportParams) (h : Host)
    (henc : h.hasVideoEncoder = true) (hel : h.hasElement p.canvasId = true)
    (hseek : ∀ i : ℕ, (i : ℤ) < totalFrames p → p.seekToThrows i = none)
    (hcall : ∀ i : ℕ, (i : ℤ) < totalFrames p → p.onProgressThrows i = none)
    (hcap : ∀ i : ℕ, (i : ℤ) < totalFrames p → h.captureOk i = true) :
    (encodedFrames (renderAndExport p h).events).map VideoFrame.canvas =
      List.range ⌈roundDouble (roundDouble p.duration * roundDouble p.fps)⌉.toNat ∧
    (encodedFrames (renderAndExport p h).events).length =
      ⌈roundDouble (roundDouble p.duration * roundDouble p.fps)⌉.toNat ∧
    (0 ≤ ⌈roundDouble (roundDouble p.duration * roundDouble p.fps)⌉ →
      ((encodedFrames (renderAndExport p h).events).length : ℤ) =
        ⌈roundDouble (roundDouble p.duration * roundDouble p.fps)⌉) := by
  have hT : ⌈roundDouble (roundDouble p.duration * roundDouble p.fps)⌉ = totalFrames p := rfl
  rw [hT]
  have hall : (List.range (totalFrames p).toNat).filter h.captureOk =
      List.range (totalFrames p).toNat :=
    range_filter_all _ _ (fun i hi => hcap i (by omega))
  have hev := encodedFrames_run p h henc hel hseek hcall
  rw [hall] at hev
  refine ⟨?_, ?_, ?_⟩
  · rw [hev, List.map_map]
    exact List.map_id _
  · rw [hev]; simp
  · intro hT
    rw [hev]
    simp [Int.toNat_of_nonneg hT]

/-- C7 at a 2-second job at 30 fps: exactly 60 frames, for the indices
0 to 59 in order; and at a job of 0.1 seconds at 30 fps: exactly 3 frames. -/
theorem renderAndExport_encodes_every_frame_witness :
    (encodedFrames (renderAndExport
        { width := 1920, height := 1080, duration := 2, fps := 30 }
        { hasVideoEncoder := true, hasElement := fun _ => true, captureOk := fun _ => true,
          flushRejects := fun _ => none, finalizeThrows := fun _ => none }).events).map
      VideoFrame.canvas = List.range 60 ∧
    (encodedFrames (renderAndExport
        { width := 1920, height := 1080, duration := 2, fps := 30 }
        { hasVideoEncoder := true, hasElement := fun _ => true, captureOk := fun _ => true,
          flushRejects := fun _ => none, finalizeThrows := fun _ => none }).events).length = 60 ∧
    (encodedFrames (renderAndExport
        { width := 1920, height := 1080, duration := 1/10, fps := 30 }
        { hasVideoEncoder := true, hasElement := fun _ => true, captureOk := fun _ => true,
          flushRejects := fun _ => none, finalizeThrows := fun _ => none }).events).length = 3 := by
  have hT : totalFrames { width := 1920, height := 1080, duration := 2, fps := 30 } = 60 :=
    totalFrames_2s_30fps _ rfl rfl
  have hT' : totalFrames { width := 1920, height := 1080, duration := 1/10, fps := 30 } = 3 :=
    totalFrames_tenth_30fps _ rfl rfl
  have h := renderAndExport_encodes_every_frame
    { width := 1920, height := 1080, duration := 2, fps := 30 }
    { hasVideoEncoder := true, hasElement := fun _ => true, captureOk := fun _ => true,
      flushRejects := fun _ => none, finalizeThrows := fun _ => none }
    rfl rfl (fun _ _ => rfl) (fun _ _ => rfl) (fun _ _ => rfl)
  have h' := renderAndExport_encodes_every_frame
    { width := 1920, height := 1080, duration := 1/10, fps := 30 }
    { hasVideoEncoder := true, hasElement := fun _ => true, captureOk := fun _ => true,
      flushRejects := fun _ => none, finalizeThrows := fun _ => none }
    rfl rfl (fun _ _ => rfl) (fun _ _ => rfl) (fun _ _ => rfl)
  have e : ⌈roundDouble (roundDouble (2 : ℚ) * roundDouble (30 : ℚ))⌉ = 60 := hT
  have e' : ⌈roundDouble (roundDouble (1/10 : ℚ) * roundDouble (30 : ℚ))⌉ = 3 := hT'
  simp only [e, e'] at h h'
  exact ⟨h.1, h.2.1, h'.2.1⟩

/-- C8 as stated fails: in a 2-second job at 30 fps the timestamps handed to
the encoder for the frames 0, 1, 2 are 0, 100000/3 and 200000/3 microseconds,
not the integers 0, 33333, 66667. -/
theorem timestamps_at_30fps :
    ((encodedFrames (renderAndExport
        { width := 1920, height := 1080, duration := 2, fps := 30 }
        { hasVideoEncoder := true, hasElement := fun _ => true, captureOk := fun _ => true,
          flushRejects := fun _ => none, finalizeThrows := fun _ => none }).events).map
      VideoFrame.timestamp).take 3 = [0, 100000/3, 200000/3] ∧
    ((encodedFrames (renderAndExport
        { width := 1920, height := 1080, duration := 2, fps := 30 }
        { hasVideoEncoder := true, hasElement := fun _ => true, captureOk := fun _ => true,
          flushRejects := fun _ => none, finalizeThrows := fun _ => none }).events).map
      VideoFrame.timestamp).take 3 ≠ [0, 33333, 66667] ∧
    ¬ ∃ n : ℤ, (n : ℚ) = 100000/3 := by
  have hT : totalFrames { width := 1920, height := 1080, duration := 2, fps := 30 } = 60 :=
    totalFrames_2s_30fps _ rfl rfl
  have hr : List.range (60 : ℤ).toNat = 0 :: 1 :: 2 :: (List.range' 3 57) := by decide
  have hts : ((encodedFrames (renderAndExport
        { width := 1920, height := 1080, duration := 2, fps := 30 }
        { hasVideoEncoder := true, hasElement := fun _ => true, captureOk := fun _ => true,
          flushRejects := fun _ => none, finalizeThrows := fun _ => none }).events).map
      VideoFrame.timestamp).take 3 = [0, 100000/3, 200000/3] := by
    rw [encodedFrames_run _ _ rfl rfl (fun _ _ => rfl) (fun _ _ => rfl), hT, hr]
    norm_num [List.filter]
  refine ⟨hts, ?_, ?_⟩
  · rw [hts]
    norm_num
  · rintro ⟨n, hn⟩
    have h3 : ((3 * n : ℤ) : ℚ) = ((100000 : ℤ) : ℚ) := by
      push_cast; rw [hn]; norm_num
    have h3' : 3 * n = 100000 := by exact_mod_cast h3
    omega

/-- C8, amended. Every frame handed to the encoder carries the timestamp
`i * (1000000 / fps)` and the duration `1000000 / fps` of its own frame index
`i`, with the quotient taken as an ordinary, not an integer, division. -/
theorem encoded_frame_times (p : ExportParams) (h : Host) (f : VideoFrame)
    (hf : f ∈ encodedFrames (renderAndExport p h).events) :
    f.timestamp = (f.canvas : ℚ) * (1000000 / p.fps) ∧
    f.duration = 1000000 / p.fps ∧
    frameDurationMicroseconds p = 1000000 / p.fps := by
  obtain ⟨_, _, ht, hd⟩ := mem_encodedFrames p h f hf
  exact ⟨ht, hd, rfl⟩

/-- C8, amended, in a 2-second job at 30 fps: the frame of index 2 is handed
over with timestamp 200000/3 and duration 100000/3 microseconds. -/
theorem encoded_frame_times_witness :
    ({ canvas := 2, timestamp := 200000/3, duration := 100000/3 } : VideoFrame) ∈
      encodedFrames (renderAndExport
        { width := 1920, height := 1080, duration := 2, fps := 30 }
        { hasVideoEncoder := true, hasElement := fun _ => true, captureOk := fun _ => true,
          flushRejects := fun _ => none, finalizeThrows := fun _ => none }).events ∧
    (200000/3 : ℚ) = ((2 : ℕ) : ℚ) * (1000000 / 30) ∧ (100000/3 : ℚ) = 1000000 / 30 := by
  have hT : totalFrames { width := 1920, height := 1080, duration := 2, fps := 30 } = 60 :=
    totalFrames_2s_30fps _ rfl rfl
  have hr : List.range (60 : ℤ).toNat = 0 :: 1 :: 2 :: (List.range' 3 57) := by decide
  have hmem : ({ canvas := 2, timestamp := 200000/3, duration := 100000/3 } : VideoFrame) ∈
      encodedFrames (renderAndExport
        { width := 1920, height := 1080, duration := 2, fps := 30 }
        { hasVideoEncoder := true, hasElement := fun _ => true, captureOk := fun _ => true,
          flushRejects := fun _ => none, finalizeThrows := fun _ => none }).events := by
    rw [encodedFrames_run _ _ rfl rfl (fun _ _ => rfl) (fun _ _ => rfl), hT, hr]
    norm_num [List.filter]
  have h := encoded_frame_times _ _ _ hmem
  exact ⟨hmem, h.1, h.2.1⟩

theorem finish_returned_iff (h : Host) (frames : List VideoFrame) :
    (finish h frames).outcome = .returned ↔
      h.flushRejects frames = none ∧ h.finalizeThrows frames = none := by
  rcases finish_cases h frames with ⟨msg, h1, hf⟩ | ⟨h1, msg, h2, hf⟩ | ⟨h1, h2, hf⟩
  · rw [hf]; simp [h1]
  · rw [hf]; simp [h1, h2]
  · rw [hf]; simp [h1, h2]

theorem finish_returned_events (h : Host) (frames : List VideoFrame)
    (hret : (finish h frames).outcome = .returned) :
    (finish h frames).events = [.flush, .finalize, .download] := by
  rcases finish_cases h frames with ⟨msg, h1, hf⟩ | ⟨h1, msg, h2, hf⟩ | ⟨h1, h2, hf⟩ <;>
    rw [hf] at hret ⊢ <;> simp at hret ⊢

theorem download_mem_finish_iff (h : Host) (frames : List VideoFrame) :
    Event.download ∈ (finish h frames).events ↔ (finish h frames).outcome = .returned := by
  rcases finish_cases h frames with ⟨msg, h1, hf⟩ | ⟨h1, msg, h2, hf⟩ | ⟨h1, h2, hf⟩ <;>
    rw [hf] <;> simp

/-- How a run ends when the callbacks return for every frame index: the flush
is called; the run returns exactly when the flush resolves and the finalize
returns for the frames the encoder was handed, and then its last calls are
flush, finalize, download; otherwise it ends with the exception of the flush
or of the finalize and triggers no download. -/
theorem renderAndExport_completion (p : ExportParams) (h : Host)
    (henc : h.hasVideoEncoder = true) (hel : h.hasElement p.canvasId = true)
    (hseek : ∀ i : ℕ, (i : ℤ) < totalFrames p → p.seekToThrows i = none)
    (hcall : ∀ i : ℕ, (i : ℤ) < totalFrames p → p.onProgressThrows i = none) :
    Event.flush ∈ (renderAndExport p h).events ∧
    ((renderAndExport p h).outcome = .returned ↔
      h.flushRejects (encodedFrames (renderAndExport p h).events) = none ∧
      h.finalizeThrows (encodedFrames (renderAndExport p h).events) = none) ∧
    ((renderAndExport p h).outcome = .returned →
      ∃ pre, (renderAndExport p h).events = pre ++ [.flush, .finalize, .download]) ∧
    ((renderAndExport p h).outcome ≠ .returned →
      Event.download ∉ (renderAndExport p h).events) := by
  have hframes : encodedFrames (renderAndExport p h).events =
      encodedFrames (setupEvents p
        ++ ((List.range (totalFrames p).toNat).map (frameStep p h)).flatten) := by
    rw [encodedFrames_run p h henc hel hseek hcall, encodedFrames_loop]
  rw [hframes]
  rw [renderAndExport_of_returns p h henc hel hseek hcall]
  simp only
  refine ⟨?_, finish_returned_iff h _, ?_, ?_⟩
  · exact List.mem_append_right _ (flush_mem_finish h _)
  · intro hret
    rw [finish_returned_events h _ hret]
    exact ⟨_, rfl⟩
  · intro hne hmem
    rcases List.mem_append.mp hmem with hpre | hfin
    · rcases List.mem_append.mp hpre with hset | hsteps
      · simp [setupEvents] at hset
      · simp only [List.mem_flatten, List.mem_map] at hsteps
        obtain ⟨step, ⟨i, _, rfl⟩, hstep⟩ := hsteps
        unfold frameStep at hstep
        cases hc : h.captureOk i <;> cases hp : p.onProgress <;> simp [hc, hp] at hstep
    · exact hne ((download_mem_finish_iff h _).mp hfin)

/-- C9 as stated fails: the run does not complete for every set of failed
captures. In a 2-second job at 30 fps in which every capture fails, on a host
whose muxer throws in `finalize` when it received no chunk, the run ends with
that exception after flush and finalize, no download is triggered, and the
encoder was handed no frame. -/
theorem all_captures_fail_no_file :
    (renderAndExport
        { width := 1920, height := 1080, duration := 2, fps := 30 }
        { hasVideoEncoder := true, hasElement := fun _ => true, captureOk := fun _ => false,
          flushRejects := fun _ => none,
          finalizeThrows := fun frames =>
            if frames.isEmpty then some "finalize: no video chunk was added"
            else none }).outcome = .threw "finalize: no video chunk was added" ∧
    Event.download ∉ (renderAndExport
        { width := 1920, height := 1080, duration := 2, fps := 30 }
        { hasVideoEncoder := true, hasElement := fun _ => true, captureOk := fun _ => false,
          flushRejects := fun _ => none,
          finalizeThrows := fun frames =>
            if frames.isEmpty then some "finalize: no video chunk was added"
            else none }).events ∧
    encodedFrames (renderAndExport
        { width := 1920, height := 1080, duration := 2, fps := 30 }
        { hasVideoEncoder := true, hasElement := fun _ => true, captureOk := fun _ => false,
          flushRejects := fun _ => none,
          finalizeThrows := fun frames =>
            if frames.isEmpty then some "finalize: no video chunk was added"
            else none }).events = [] ∧
    (seekTimes (renderAndExport
        { width := 1920, height := 1080, duration := 2, fps := 30 }
        { hasVideoEncoder := true, hasElement := fun _ => true, captureOk := fun _ => false,
          flushRejects := fun _ => none,
          finalizeThrows := fun frames =>
            if frames.isEmpty then some "finalize: no video chunk was added"
            else none }).events).length = 60 := by
  have hT : totalFrames { width := 1920, height := 1080, duration := 2, fps := 30 } = 60 :=
    totalFrames_2s_30fps _ rfl rfl
  have hframes := encodedFrames_run
    { width := 1920, height := 1080, duration := 2, fps := 30 }
    { hasVideoEncoder := true, hasElement := fun _ => true, captureOk := fun _ => false,
      flushRejects := fun _ => none,
      finalizeThrows := fun frames =>
        if frames.isEmpty then some "finalize: no video chunk was added" else none }
    rfl rfl (fun _ _ => rfl) (fun _ _ => rfl)
  have hseeks := seekTimes_run
    { width := 1920, height := 1080, duration := 2, fps := 30 }
    { hasVideoEncoder := true, hasElement := fun _ => true, captureOk := fun _ => false,
      flushRejects := fun _ => none,
      finalizeThrows := fun frames =>
        if frames.isEmpty then some "finalize: no video chunk was added" else none }
    rfl rfl (fun _ _ => rfl) (fun _ _ => rfl)
  have hnone : encodedFrames (renderAndExport
        { width := 1920, height := 1080, duration := 2, fps := 30 }
        { hasVideoEncoder := true, hasElement := fun _ => true, captureOk := fun _ => false,
          flushRejects := fun _ => none,
          finalizeThrows := fun frames =>
            if frames.isEmpty then some "finalize: no video chunk was added"
            else none }).events = [] := by
    rw [hframes]
    simp
  have hrun := renderAndExport_of_returns
    { width := 1920, height := 1080, duration := 2, fps := 30 }
    { hasVideoEncoder := true, hasElement := fun _ => true, captureOk := fun _ => false,
      flushRejects := fun _ => none,
      finalizeThrows := fun frames =>
        if frames.isEmpty then some "finalize: no video chunk was added" else none }
    rfl rfl (fun _ _ => rfl) (fun _ _ => rfl)
  have hcomp := renderAndExport_completion
    { width := 1920, height := 1080, duration := 2, fps := 30 }
    { hasVideoEncoder := true, hasElement := fun _ => true, captureOk := fun _ => false,
      flushRejects := fun _ => none,
      finalizeThrows := fun frames =>
        if frames.isEmpty then some "finalize: no video chunk was added" else none }
    rfl rfl (fun _ _ => rfl) (fun _ _ => rfl)
  have hout : (renderAndExport
        { width := 1920, height := 1080, duration := 2, fps := 30 }
        { hasVideoEncoder := true, hasElement := fun _ => true, captureOk := fun _ => false,
          flushRejects := fun _ => none,
          finalizeThrows := fun frames =>
            if frames.isEmpty then some "finalize: no video chunk was added"
            else none }).outcome = .threw "finalize: no video chunk was added" := by
    rw [hrun]
    simp only
    rw [encodedFrames_loop]
    simp [finish]
  refine ⟨hout, ?_, hnone, ?_⟩
  · apply hcomp.2.2.2
    rw [hout]
    simp
  · rw [hseeks, hT]
    simp

/-- C9, amended. On a host with an encoder and the canvas container, for a
positive frame rate and callbacks that return, whatever captures fail the loop
runs through every frame index and the flush is called; the encoder is handed
exactly the frames of the indices whose capture succeeded, once each and in
increasing index order, so their number is `totalFrames` minus the number of
failed indices; each frame keeps the timestamp of its own index, and the
timestamps are strictly increasing. The run completes with flush, finalize and
download exactly when the flush resolves and the finalize returns for the
frames handed over; otherwise it ends with an exception and no download. -/
theorem renderAndExport_skips_failed_frames (p : ExportParams) (h : Host)
    (henc : h.hasVideoEncoder = true) (hel : h.hasElement p.canvasId = true)
    (hfps : 0 < p.fps)
    (hseek : ∀ i : ℕ, (i : ℤ) < totalFrames p → p.seekToThrows i = none)
    (hcall : ∀ i : ℕ, (i : ℤ) < totalFrames p → p.onProgressThrows i = none) :
    seekTimes (renderAndExport p h).events =
      (List.range (totalFrames p).toNat).map (fun i : ℕ => (i : ℚ) / p.fps) ∧
    Event.flush ∈ (renderAndExport p h).events ∧
    (encodedFrames (renderAndExport p h).events).map VideoFrame.canvas =
      (List.range (totalFrames p).toNat).filter h.captureOk ∧
    (encodedFrames (renderAndExport p h).events).length +
      ((List.range (totalFrames p).toNat).filter (fun i => !h.captureOk i)).length =
        (totalFrames p).toNat ∧
    (∀ f ∈ encodedFrames (renderAndExport p h).events,
      f.timestamp = (f.canvas : ℚ) * (1000000 / p.fps)) ∧
    ((encodedFrames (renderAndExport p h).events).map VideoFrame.canvas).Pairwise (· < ·) ∧
    ((encodedFrames (renderAndExport p h).events).map VideoFrame.timestamp).Pairwise
      (· < ·) ∧
    ((renderAndExport p h).outcome = .returned ↔
      h.flushRejects (encodedFrames (renderAndExport p h).events) = none ∧
      h.finalizeThrows (encodedFrames (renderAndExport p h).events) = none) ∧
    ((renderAndExport p h).outcome = .returned →
      ∃ pre, (renderAndExport p h).events = pre ++ [.flush, .finalize, .download]) ∧
    ((renderAndExport p h).outcome ≠ .returned →
      Event.download ∉ (renderAndExport p h).events) := by
  have hev := encodedFrames_run p h henc hel hseek hcall
  obtain ⟨hflush, hiff, hret, hthrow⟩ := renderAndExport_completion p h henc hel hseek hcall
  have hidx : (encodedFrames (renderAndExport p h).events).map VideoFrame.canvas =
      (List.range (totalFrames p).toNat).filter h.captureOk := by
    rw [hev, List.map_map]
    exact List.map_id _
  have hc : (0 : ℚ) < 1000000 / p.fps := by positivity
  refine ⟨seekTimes_run p h henc hel hseek hcall, hflush, hidx, ?_, ?_, ?_, ?_, hiff, hret,
    hthrow⟩
  · have hlen := congrArg List.length hidx
    rw [List.length_map] at hlen
    rw [hlen, filter_length_add, List.length_range]
  · intro f hf
    exact (mem_encodedFrames p h f hf).2.2.1
  · rw [hidx]
    exact range_filter_pairwise _ _
  · rw [hev, List.map_map, List.pairwise_map]
    refine (range_filter_pairwise _ h.captureOk).imp ?_
    intro a b hab
    have hab' : (a : ℚ) < (b : ℚ) := by exact_mod_cast hab
    simpa using mul_lt_mul_of_pos_right hab' hc

/-- C9, amended, at a 60-frame export at 30 fps in which only the capture of
index 10 fails, on a host whose muxer throws in `finalize` only when it
received no chunk: 59 frames are encoded, index 10 is not among them, the
timestamps are strictly increasing, and the run returns. -/
theorem renderAndExport_skips_failed_frames_witness :
    (encodedFrames (renderAndExport
        { width := 1920, height := 1080, duration := 2, fps := 30 }
        { hasVideoEncoder := true, hasElement := fun _ => true, captureOk := fun i => i != 10,
          flushRejects := fun _ => none,
          finalizeThrows := fun frames =>
            if frames.isEmpty then some "finalize: no video chunk was added"
            else none }).events).length = 59 ∧
    10 ∉ (encodedFrames (renderAndExport
        { width := 1920, height := 1080, duration := 2, fps := 30 }
        { hasVideoEncoder := true, hasElement := fun _ => true, captureOk := fun i => i != 10,
          flushRejects := fun _ => none,
          finalizeThrows := fun frames =>
            if frames.isEmpty then some "finalize: no video chunk was added"
            else none }).events).map VideoFrame.canvas ∧
    ((encodedFrames (renderAndExport
        { width := 1920, height := 1080, duration := 2, fps := 30 }
        { hasVideoEncoder := true, hasElement := fun _ => true, captureOk := fun i => i != 10,
          flushRejects := fun _ => none,
          finalizeThrows := fun frames =>
            if frames.isEmpty then some "finalize: no video chunk was added"
            else none }).events).map VideoFrame.timestamp).Pairwise (· < ·) ∧
    (renderAndExport
        { width := 1920, height := 1080, duration := 2, fps := 30 }
        { hasVideoEncoder := true, hasElement := fun _ => true, captureOk := fun i => i != 10,
          flushRejects := fun _ => none,
          finalizeThrows := fun frames =>
            if frames.isEmpty then some "finalize: no video chunk was added"
            else none }).outcome = .returned := by
  have hT : totalFrames { width := 1920, height := 1080, duration := 2, fps := 30 } = 60 :=
    totalFrames_2s_30fps _ rfl rfl
  obtain ⟨_, _, hidx, hlen, _, _, hts, hiff, _, _⟩ := renderAndExport_skips_failed_frames
    { width := 1920, height := 1080, duration := 2, fps := 30 }
    { hasVideoEncoder := true, hasElement := fun _ => true, captureOk := fun i => i != 10,
      flushRejects := fun _ => none,
      finalizeThrows := fun frames =>
        if frames.isEmpty then some "finalize: no video chunk was added" else none }
    rfl rfl (by norm_num) (fun _ _ => rfl) (fun _ _ => rfl)
  rw [hT] at hidx hlen
  have hfail : ((List.range (60 : ℤ).toNat).filter (fun i => !(i != 10))).length = 1 := by
    decide
  simp only [hfail] at hlen
  have h60 : (60 : ℤ).toNat = 60 := rfl
  have hlen59 : (encodedFrames (renderAndExport
        { width := 1920, height := 1080, duration := 2, fps := 30 }
        { hasVideoEncoder := true, hasElement := fun _ => true, captureOk := fun i => i != 10,
          flushRejects := fun _ => none,
          finalizeThrows := fun frames =>
            if frames.isEmpty then some "finalize: no video chunk was added"
            else none }).events).length = 59 := by
    omega
  refine ⟨hlen59, ?_, hts, ?_⟩
  · rw [hidx]
    simp
  · rw [hiff]
    refine ⟨rfl, ?_⟩
    have hne : encodedFrames (renderAndExport
        { width := 1920, height := 1080, duration := 2, fps := 30 }
        { hasVideoEncoder := true, hasElement := fun _ => true, captureOk := fun i => i != 10,
          flushRejects := fun _ => none,
          finalizeThrows := fun frames =>
            if frames.isEmpty then some "finalize: no video chunk was added"
            else none }).events ≠ [] := by
      intro hnil
      rw [hnil] at hlen59
      simp at hlen59
    show (if (encodedFrames _).isEmpty then some "finalize: no video chunk was added"
      else none) = none
    rw [if_neg]
    rw [List.isEmpty_iff]
    exact hne

/-- The values reported to the progress callback are those of the first
indices: of all of them when the loop is not left by an exception. -/
theorem progressValues_initial (p : ExportParams) (h : Host)
    (henc : h.hasVideoEncoder = true) (hel : h.hasElement p.canvasId = true)
    (hprog : p.onProgress = true) :
    ∃ k : ℕ, k ≤ (totalFrames p).toNat ∧
      progressValues (renderAndExport p h).events =
        (List.range k).map (fun i : ℕ => ((i : ℚ) + 1) / (totalFrames p : ℚ)) := by
  have hset : progressValues (setupEvents p) = [] := rfl
  obtain ⟨k, hk, _, ⟨_, heq⟩ | ⟨hkn, msg, _, heq⟩⟩ := renderAndExport_events p h henc hel
  · refine ⟨k, hk, ?_⟩
    rw [heq]
    simp only
    rw [progressValues_append, progressValues_finish, List.append_nil, progressValues_append,
      progressValues_steps p h _ hprog, hset, List.nil_append]
  · rcases runFrameStep_cases p h k with ⟨h1, _, _⟩ | ⟨h1, _, _⟩
    · refine ⟨k + 1, by omega, ?_⟩
      rw [heq]
      simp only
      rw [h1, progressValues_append, progressValues_append, progressValues_steps p h _ hprog,
        hset, List.nil_append, progressValues_frameStep, hprog, if_pos rfl, List.range_succ,
        List.map_append]
      rfl
    · refine ⟨k, hk, ?_⟩
      rw [heq]
      simp only
      rw [h1, progressValues_append, progressValues_append, progressValues_steps p h _ hprog,
        hset, List.nil_append]
      simp [progressValues]

/-- C10. With a progress callback, on a host with an encoder and the canvas
container, every iteration ends with exactly one call of the callback, with
`(i + 1) / totalFrames`, whether or not the capture succeeded; the reported
values are those of the first frame indices, strictly increasing and in
`(0, 1]`; when the callbacks return they are the values of all frame indices
and the last one is 1. -/
theorem renderAndExport_progress (p : ExportParams) (h : Host)
    (henc : h.hasVideoEncoder = true) (hel : h.hasElement p.canvasId = true)
    (hprog : p.onProgress = true) :
    (∀ i : ℕ, ∃ pre, frameStep p h i =
        pre ++ [.onProgress (((i : ℚ) + 1) / (totalFrames p : ℚ))] ∧
      progressValues pre = []) ∧
    (∃ k : ℕ, k ≤ (totalFrames p).toNat ∧
      progressValues (renderAndExport p h).events =
        (List.range k).map (fun i : ℕ => ((i : ℚ) + 1) / (totalFrames p : ℚ))) ∧
    ((∀ i : ℕ, (i : ℤ) < totalFrames p → p.seekToThrows i = none) →
     (∀ i : ℕ, (i : ℤ) < totalFrames p → p.onProgressThrows i = none) →
      progressValues (renderAndExport p h).events =
        (List.range (totalFrames p).toNat).map (fun i : ℕ =>
          ((i : ℚ) + 1) / (totalFrames p : ℚ))) ∧
    (progressValues (renderAndExport p h).events).Pairwise (· < ·) ∧
    (∀ v ∈ progressValues (renderAndExport p h).events, 0 < v ∧ v ≤ 1) ∧
    ((∀ i : ℕ, (i : ℤ) < totalFrames p → p.seekToThrows i = none) →
     (∀ i : ℕ, (i : ℤ) < totalFrames p → p.onProgressThrows i = none) →
     0 < totalFrames p →
      (progressValues (renderAndExport p h).events).getLast? = some 1) := by
  obtain ⟨k, hk, hpre⟩ := progressValues_initial p h henc hel hprog
  refine ⟨?_, ⟨k, hk, hpre⟩, fun hseek hcall => progressValues_run p h henc hel hprog hseek hcall,
    ?_, ?_, ?_⟩
  · intro i
    unfold frameStep
    rw [hprog]
    cases hc : h.captureOk i
    · exact ⟨[.seekTo ((i : ℚ) / p.fps), .wait 150, .consoleError "Frame capture failed:"],
        by simp, rfl⟩
    · exact ⟨[.seekTo ((i : ℚ) / p.fps), .wait 150, .encode
            { canvas := i
              timestamp := (i : ℚ) * frameDurationMicroseconds p
              duration := frameDurationMicroseconds p }
            (i % 30 == 0), .closeFrame i ], by simp, rfl⟩
  · rw [hpre, List.pairwise_map]
    rcases le_or_lt (totalFrames p) 0 with hT | hT
    · have hk0 : k = 0 := by
        rw [Int.toNat_of_nonpos hT] at hk
        omega
      rw [hk0]
      exact List.Pairwise.nil
    · refine (List.pairwise_lt_range _).imp ?_
      intro a b hab
      have hT' : (0 : ℚ) < (totalFrames p : ℚ) := by exact_mod_cast hT
      have hab' : (a : ℚ) + 1 < (b : ℚ) + 1 := by
        have : (a : ℚ) < (b : ℚ) := by exact_mod_cast hab
        linarith
      exact div_lt_div_of_pos_right hab' hT'
  · intro v hv
    rw [hpre, List.mem_map] at hv
    obtain ⟨i, hi, rfl⟩ := hv
    rw [List.mem_range] at hi
    have hT : (i : ℤ) + 1 ≤ totalFrames p := by omega
    have hT' : (i : ℚ) + 1 ≤ (totalFrames p : ℚ) := by exact_mod_cast hT
    have hpos : (0 : ℚ) < (i : ℚ) + 1 := by positivity
    exact ⟨div_pos hpos (by linarith), (div_le_one (by linarith)).mpr hT'⟩
  · intro hseek hcall hT
    rw [progressValues_run p h henc hel hprog hseek hcall]
    obtain ⟨n, hn⟩ : ∃ n, (totalFrames p).toNat = n + 1 := ⟨(totalFrames p).toNat - 1, by omega⟩
    rw [hn, List.range_succ, List.map_append, List.map_singleton, List.getLast?_append]
    have hq : ((n : ℚ) + 1) = (totalFrames p : ℚ) := by
      have : ((n + 1 : ℕ) : ℤ) = totalFrames p := by omega
      exact_mod_cast this
    simp [hq]
    exact div_self (by
      have hT' : (0 : ℚ) < (totalFrames p : ℚ) := by exact_mod_cast hT
      linarith)

/-- C10 at a 1-second export at 3 fps in which the capture of index 1 fails:
the callback receives 1/3, 2/3 and 1. -/
theorem renderAndExport_progress_witness :
    progressValues (renderAndExport
        { width := 1920, height := 1080, duration := 1, fps := 3, onProgress := true }
        { hasVideoEncoder := true, hasElement := fun _ => true, captureOk := fun i => i != 1,
          flushRejects := fun _ => none, finalizeThrows := fun _ => none }).events =
      [1/3, 2/3, 1] := by
  have hT : totalFrames
      { width := 1920, height := 1080, duration := 1, fps := 3, onProgress := true } = 3 :=
    totalFrames_1s_3fps _ rfl rfl
  have h := (renderAndExport_progress
    { width := 1920, height := 1080, duration := 1, fps := 3, onProgress := true }
    { hasVideoEncoder := true, hasElement := fun _ => true, captureOk := fun i => i != 1,
      flushRejects := fun _ => none, finalizeThrows := fun _ => none }
    rfl rfl rfl).2.2.1 (fun _ _ => rfl) (fun _ _ => rfl)
  rw [h, hT]
  norm_num [List.range, List.range.loop]

/-! ## Export loop: keyframes, capability, completion -/

/-- C11 as stated fails: the key-frame cadence does not follow an interval
chosen for the job. In a 2-second job at 30 fps the frame of index 15 is
encoded without the key-frame flag, so an interval of 15 is not honoured. -/
theorem keyframe_interval_fails :
    ¬ (∀ (N : ℕ), 0 < N → ∀ (p : ExportParams) (h : Host) (f : VideoFrame) (k : Bool),
        Event.encode f k ∈ (renderAndExport p h).events →
        (k = true ↔ N ∣ f.canvas)) := by
  intro hall
  have hT : totalFrames { width := 1920, height := 1080, duration := 2, fps := 30 } = 60 :=
    totalFrames_2s_30fps _ rfl rfl
  have hmem := encode_mem_events
    { width := 1920, height := 1080, duration := 2, fps := 30 }
    { hasVideoEncoder := true, hasElement := fun _ => true, captureOk := fun _ => true,
      flushRejects := fun _ => none, finalizeThrows := fun _ => none }
    15 rfl rfl (fun _ _ => rfl) (fun _ _ => rfl) (by rw [hT]; norm_num) rfl
  have h15 := (hall 15 (by norm_num) _ _ _ _ hmem).mpr (dvd_refl 15)
  simp at h15

/-- C11, amended. Every frame handed to the encoder is marked as a mandatory
key frame exactly when its index is a multiple of 30, whatever the job; in
particular the frame of index 0 is a mandatory key frame, and every frame
whose index is not a multiple of 30 is passed with `keyFrame: false`. -/
theorem keyframe_every_30 (p : ExportParams) (h : Host) (f : VideoFrame) (k : Bool)
    (hmem : Event.encode f k ∈ (renderAndExport p h).events) :
    (k = true ↔ 30 ∣ f.canvas) ∧ (f.canvas = 0 → k = true) ∧
    (¬ 30 ∣ f.canvas → k = false) := by
  obtain ⟨_, _, hk, _, _⟩ := mem_encode_events p h f k hmem
  have hiff : (k = true ↔ 30 ∣ f.canvas) := by
    rw [hk, Nat.dvd_iff_mod_eq_zero]
    simp
  refine ⟨hiff, ?_, ?_⟩
  · intro h0
    exact hiff.mpr (by rw [h0]; exact dvd_zero 30)
  · intro hn
    cases k with
    | false => rfl
    | true => exact absurd (hiff.mp rfl) hn

/-- C11, amended, in a 2-second job at 30 fps: the frame of index 30 is encoded
as a mandatory key frame. -/
theorem keyframe_every_30_witness :
    Event.encode { canvas := 30, timestamp := 1000000, duration := 100000/3 } true ∈
      (renderAndExport
        { width := 1920, height := 1080, duration := 2, fps := 30 }
        { hasVideoEncoder := true, hasElement := fun _ => true, captureOk := fun _ => true,
          flushRejects := fun _ => none, finalizeThrows := fun _ => none }).events ∧
    (true = true ↔ 30 ∣ 30) := by
  have hT : totalFrames { width := 1920, height := 1080, duration := 2, fps := 30 } = 60 :=
    totalFrames_2s_30fps _ rfl rfl
  have hmem := encode_mem_events
    { width := 1920, height := 1080, duration := 2, fps := 30 }
    { hasVideoEncoder := true, hasElement := fun _ => true, captureOk := fun _ => true,
      flushRejects := fun _ => none, finalizeThrows := fun _ => none }
    30 rfl rfl (fun _ _ => rfl) (fun _ _ => rfl) (by rw [hT]; norm_num) rfl
  have hmem' : Event.encode { canvas := 30, timestamp := 1000000, duration := 100000/3 } true ∈
      (renderAndExport
        { width := 1920, height := 1080, duration := 2, fps := 30 }
        { hasVideoEncoder := true, hasElement := fun _ => true, captureOk := fun _ => true,
          flushRejects := fun _ => none, finalizeThrows := fun _ => none }).events := by
    have e : (Event.encode { canvas := 30, timestamp := 1000000, duration := 100000/3 } true) =
        Event.encode
          { canvas := 30
            timestamp := ((30 : ℕ) : ℚ) * frameDurationMicroseconds
              { width := 1920, height := 1080, duration := 2, fps := 30 }
            duration := frameDurationMicroseconds
              { width := 1920, height := 1080, duration := 2, fps := 30 } }
          (30 % 30 == 0) := by
      norm_num [frameDurationMicroseconds]
    rw [e]
    exact hmem
  exact ⟨hmem', (keyframe_every_30 _ _ _ _ hmem').1⟩

/-- C12 as stated fails: without `VideoEncoder` the call does not end in
failure, it returns normally. -/
theorem no_encoder_is_failure_fails :
    ¬ (∀ (p : ExportParams) (h : Host), h.hasVideoEncoder = false →
        ∃ msg, (renderAndExport p h).outcome = .threw msg) := by
  intro hall
  obtain ⟨msg, hmsg⟩ := hall
    { width := 1920, height := 1080, duration := 2, fps := 30 }
    { hasVideoEncoder := false, hasElement := fun _ => true, captureOk := fun _ => true,
      flushRejects := fun _ => none, finalizeThrows := fun _ => none }
    rfl
  simp [renderAndExport] at hmsg

/-- C12, amended. Without `VideoEncoder` the call shows the alert
"WebCodecs API is not supported." and returns normally, and that alert is the
only thing it does: no seek, no muxer or encoder created, configured or fed,
no progress report, no flush, finalize or download. -/
theorem no_encoder_alert_only (p : ExportParams) (h : Host)
    (henc : h.hasVideoEncoder = false) :
    renderAndExport p h =
      { events := [.alert "WebCodecs API is not supported."], outcome := .returned } ∧
    seekTimes (renderAndExport p h).events = [] ∧
    encodedFrames (renderAndExport p h).events = [] ∧
    progressValues (renderAndExport p h).events = [] ∧
    Event.createEncoder ∉ (renderAndExport p h).events ∧
    (∀ w ht, Event.createMuxer w ht ∉ (renderAndExport p h).events) ∧
    Event.flush ∉ (renderAndExport p h).events ∧
    Event.finalize ∉ (renderAndExport p h).events ∧
    Event.download ∉ (renderAndExport p h).events := by
  have hrun : renderAndExport p h =
      { events := [.alert "WebCodecs API is not supported."], outcome := .returned } := by
    simp [renderAndExport, henc]
  rw [hrun]
  refine ⟨rfl, rfl, rfl, rfl, ?_, ?_, ?_, ?_, ?_⟩ <;> simp

/-- C12, amended, at a 2-second job on a host without `VideoEncoder`. -/
theorem no_encoder_alert_only_witness :
    renderAndExport
        { width := 1920, height := 1080, duration := 2, fps := 30 }
        { hasVideoEncoder := false, hasElement := fun _ => true, captureOk := fun _ => true,
          flushRejects := fun _ => none, finalizeThrows := fun _ => none } =
      { events := [.alert "WebCodecs API is not supported."], outcome := .returned } :=
  (no_encoder_alert_only
    { width := 1920, height := 1080, duration := 2, fps := 30 }
    { hasVideoEncoder := false, hasElement := fun _ => true, captureOk := fun _ => true,
      flushRejects := fun _ => none, finalizeThrows := fun _ => none }
    rfl).1

theorem download_not_mem_frameStep (p : ExportParams) (h : Host) (i : ℕ) :
    Event.download ∉ frameStep p h i := by
  unfold frameStep
  cases hc : h.captureOk i <;> cases hp : p.onProgress <;> simp

theorem flush_not_mem_frameStep (p : ExportParams) (h : Host) (i : ℕ) :
    Event.flush ∉ frameStep p h i := by
  unfold frameStep
  cases hc : h.captureOk i <;> cases hp : p.onProgress <;> simp

theorem download_not_mem_steps (p : ExportParams) (h : Host) (is : List ℕ) :
    Event.download ∉ (is.map (frameStep p h)).flatten := by
  simp only [List.mem_flatten, List.mem_map, not_exists, not_and]
  rintro step ⟨i, _, rfl⟩
  exact download_not_mem_frameStep p h i

theorem flush_not_mem_steps (p : ExportParams) (h : Host) (is : List ℕ) :
    Event.flush ∉ (is.map (frameStep p h)).flatten := by
  simp only [List.mem_flatten, List.mem_map, not_exists, not_and]
  rintro step ⟨i, _, rfl⟩
  exact flush_not_mem_frameStep p h i

/-- The calls of an iteration, thrown or not, are calls of `frameStep`. -/
theorem runFrameStep_subset (p : ExportParams) (h : Host) (i : ℕ) (e : Event)
    (he : e ∈ (runFrameStep p h i).1) : e ∈ frameStep p h i := by
  rcases runFrameStep_cases p h i with ⟨h1, _, _⟩ | ⟨h1, _, _⟩
  · rw [h1] at he
    exact he
  · rw [h1, List.mem_singleton] at he
    rw [he]
    exact seekTo_mem_frameStep p h i

/-- A list that ends with its only occurrence of `x` splits at `x` in one
way. -/
theorem split_at_last {α : Type} (x : α) :
    ∀ (A pre post : List α), x ∉ A → A ++ [x] = pre ++ x :: post → pre = A ∧ post = [] := by
  intro A
  induction A with
  | nil =>
    intro pre post _ h
    cases pre with
    | nil =>
      simp only [List.nil_append, List.cons.injEq, true_and] at h
      exact ⟨rfl, h.symm⟩
    | cons y pre =>
      simp only [List.nil_append, List.cons_append, List.cons.injEq] at h
      have := h.2
      simp at this
  | cons a A ih =>
    intro pre post hA h
    cases pre with
    | nil =>
      simp only [List.cons_append, List.nil_append, List.cons.injEq] at h
      exact absurd h.1.symm (fun hx => hA (by rw [hx]; simp))
    | cons y pre =>
      simp only [List.cons_append, List.cons.injEq] at h
      obtain ⟨h1, h2⟩ := ih pre post (fun hx => hA (List.mem_cons_of_mem _ hx)) h.2
      exact ⟨by rw [h1, h.1], h2⟩

/-- A run that triggers the download has run every iteration, flushed and
finalized, and has returned. -/
theorem download_mem_run (p : ExportParams) (h : Host)
    (hmem : Event.download ∈ (renderAndExport p h).events) :
    renderAndExport p h =
      { events := setupEvents p
          ++ ((List.range (totalFrames p).toNat).map (frameStep p h)).flatten
          ++ [.flush, .finalize, .download]
        outcome := .returned } := by
  cases henc : h.hasVideoEncoder with
  | false => simp [renderAndExport, henc] at hmem
  | true =>
    cases hel : h.hasElement p.canvasId with
    | false => simp [renderAndExport, henc, hel, setupEvents] at hmem
    | true =>
      obtain ⟨k, hk, _, ⟨hkn, heq⟩ | ⟨hkn, msg, _, heq⟩⟩ := renderAndExport_events p h henc hel
      · rw [heq] at hmem ⊢
        simp only at hmem
        rcases List.mem_append.mp hmem with hpre | hfin
        · rcases List.mem_append.mp hpre with hset | hsteps
          · simp [setupEvents] at hset
          · exact absurd hsteps (download_not_mem_steps p h _)
        · have hret := (download_mem_finish_iff h _).mp hfin
          rw [finish_returned_events h _ hret, hret, hkn]
      · rw [heq] at hmem
        simp only at hmem
        rcases List.mem_append.mp hmem with hpre | hrest
        · rcases List.mem_append.mp hpre with hset | hsteps
          · simp [setupEvents] at hset
          · exact absurd hsteps (download_not_mem_steps p h _)
        · exact absurd (runFrameStep_subset p h k _ hrest) (download_not_mem_frameStep p h k)

/-- C13. The download is triggered only in a run that returns normally, and
then as the very last call: before it come, in this order, the set-up, the
iterations of every frame index `0 .. totalFrames - 1`, the flush of the
encoder and the finalize of the muxer. A run that ends with an exception,
whichever call raised it, triggers no download. When the callbacks return, the
flush resolves and the finalize returns, the run does end with flush,
finalize, download. -/
theorem download_only_after_finalize (p : ExportParams) (h : Host) :
    (∀ pre post, (renderAndExport p h).events = pre ++ Event.download :: post →
      post = [] ∧
      pre = setupEvents p
          ++ ((List.range (totalFrames p).toNat).map (frameStep p h)).flatten
          ++ [.flush, .finalize] ∧
      seekTimes pre = (List.range (totalFrames p).toNat).map (fun i : ℕ => (i : ℚ) / p.fps) ∧
      (renderAndExport p h).outcome = .returned) ∧
    (∀ msg, (renderAndExport p h).outcome = .threw msg →
      Event.download ∉ (renderAndExport p h).events) ∧
    (h.hasVideoEncoder = true → h.hasElement p.canvasId = true →
      (∀ i : ℕ, (i : ℤ) < totalFrames p → p.seekToThrows i = none) →
      (∀ i : ℕ, (i : ℤ) < totalFrames p → p.onProgressThrows i = none) →
      h.flushRejects (encodedFrames (renderAndExport p h).events) = none →
      h.finalizeThrows (encodedFrames (renderAndExport p h).events) = none →
      ∃ pre, (renderAndExport p h).events = pre ++ [.flush, .finalize, .download]) ∧
    (h.hasVideoEncoder = true → h.hasElement p.canvasId = false →
      (renderAndExport p h).outcome = .threw "Canvas container not found") := by
  refine ⟨?_, ?_, ?_, ?_⟩
  · intro pre post hev
    have hmem : Event.download ∈ (renderAndExport p h).events := by
      rw [hev]; simp
    have hrun := download_mem_run p h hmem
    rw [hrun] at hev
    have hnot : Event.download ∉ setupEvents p
        ++ ((List.range (totalFrames p).toNat).map (frameStep p h)).flatten
        ++ [.flush, .finalize] := by
      simp only [List.mem_append, not_or]
      exact ⟨⟨by simp [setupEvents], download_not_mem_steps p h _⟩, by simp⟩
    have hsplit : setupEvents p
          ++ ((List.range (totalFrames p).toNat).map (frameStep p h)).flatten
          ++ [.flush, .finalize, .download] =
        (setupEvents p
          ++ ((List.range (totalFrames p).toNat).map (frameStep p h)).flatten
          ++ [.flush, .finalize]) ++ Event.download :: [] := by
      simp
    simp only at hev
    rw [hsplit] at hev
    obtain ⟨h1, h2⟩ := split_at_last Event.download _ pre post hnot hev
    refine ⟨h2, h1, ?_, by rw [hrun]⟩
    rw [h1]
    simp only [seekTimes_append, seekTimes_steps]
    have hset : seekTimes (setupEvents p) = [] := rfl
    have hfin : seekTimes [Event.flush, Event.finalize] = [] := rfl
    rw [hset, hfin, List.nil_append, List.append_nil]
  · intro msg hmsg hmem
    rw [download_mem_run p h hmem] at hmsg
    simp at hmsg
  · intro henc hel hseek hcall hflush hfin
    obtain ⟨_, hiff, hret, _⟩ := renderAndExport_completion p h henc hel hseek hcall
    exact hret (hiff.mpr ⟨hflush, hfin⟩)
  · intro henc hel
    simp [renderAndExport, henc, hel]

/-- C13 at a 2-second job at 30 fps: with the canvas container the run ends
with flush, finalize, download; without it the run throws and triggers no
download. -/
theorem download_only_after_finalize_witness :
    (∃ pre, (renderAndExport
        { width := 1920, height := 1080, duration := 2, fps := 30 }
        { hasVideoEncoder := true, hasElement := fun _ => true, captureOk := fun _ => true,
          flushRejects := fun _ => none, finalizeThrows := fun _ => none }).events =
      pre ++ [.flush, .finalize, .download]) ∧
    Event.download ∉ (renderAndExport
        { width := 1920, height := 1080, duration := 2, fps := 30 }
        { hasVideoEncoder := true, hasElement := fun _ => false, captureOk := fun _ => true,
          flushRejects := fun _ => none, finalizeThrows := fun _ => none }).events := by
  refine ⟨?_, ?_⟩
  · exact (download_only_after_finalize
      { width := 1920, height := 1080, duration := 2, fps := 30 }
      { hasVideoEncoder := true, hasElement := fun _ => true, captureOk := fun _ => true,
        flushRejects := fun _ => none, finalizeThrows := fun _ => none }).2.2.1
      rfl rfl (fun _ _ => rfl) (fun _ _ => rfl) rfl rfl
  · have hd := download_only_after_finalize
      { width := 1920, height := 1080, duration := 2, fps := 30 }
      { hasVideoEncoder := true, hasElement := fun _ => false, captureOk := fun _ => true,
        flushRejects := fun _ => none, finalizeThrows := fun _ => none }
    exact hd.2.1 "Canvas container not found" (hd.2.2.2 rfl rfl)

theorem seekTimes_runFrameStep (p : ExportParams) (h : Host) (i : ℕ) :
    seekTimes (runFrameStep p h i).1 = [(i : ℚ) / p.fps] := by
  rcases runFrameStep_cases p h i with ⟨h1, _, _⟩ | ⟨h1, _, _⟩
  · rw [h1, seekTimes_frameStep]
  · rw [h1]
    rfl

theorem encode_mem_frameStep (p : ExportParams) (h : Host) (i : ℕ) (f : VideoFrame) (k : Bool)
    (hmem : Event.encode f k ∈ frameStep p h i) : f.canvas = i := by
  unfold frameStep at hmem
  cases hc : h.captureOk i <;> cases hp : p.onProgress <;> simp [hc, hp] at hmem
  all_goals
    obtain ⟨rfl, _⟩ := hmem
    rfl

/-- The run whose loop is left by an exception in iteration `k`: the seeks are
those of the indices up to `k`, the exception is the one of the `seekTo` call
or of the `onProgress` call of iteration `k` and ends the run, no frame of a
later index was encoded, and neither flush nor download is called. -/
theorem renderAndExport_thrown_in_loop (p : ExportParams) (h : Host) (k : ℕ) (msg : String)
    (hmsg : (runFrameStep p h k).2 = some msg)
    (heq : renderAndExport p h =
      { events := setupEvents p ++ ((List.range k).map (frameStep p h)).flatten
          ++ (runFrameStep p h k).1
        outcome := .threw msg }) :
    seekTimes (renderAndExport p h).events =
      (List.range (k + 1)).map (fun i : ℕ => (i : ℚ) / p.fps) ∧
    (p.seekToThrows k = some msg ∨
      (p.seekToThrows k = none ∧ p.onProgress = true ∧ p.onProgressThrows k = some msg)) ∧
    (renderAndExport p h).outcome = .threw msg ∧
    (∀ f ∈ encodedFrames (renderAndExport p h).events, f.canvas ≤ k) ∧
    Event.flush ∉ (renderAndExport p h).events ∧
    Event.download ∉ (renderAndExport p h).events := by
  have hset : seekTimes (setupEvents p) = [] := rfl
  refine ⟨?_, ?_, by rw [heq], ?_, ?_, ?_⟩
  · rw [heq]
    simp only
    rw [seekTimes_append, seekTimes_append, seekTimes_steps, seekTimes_runFrameStep, hset,
      List.nil_append, List.range_succ, List.map_append]
    rfl
  · rcases runFrameStep_cases p h k with ⟨_, h2, h3 | ⟨h3, h4⟩⟩ | ⟨_, h2, _⟩
    · rw [h3] at hmsg
      cases hmsg
    · exact Or.inr ⟨h2, h3, by rw [← h4, hmsg]⟩
    · exact Or.inl (by rw [← h2, hmsg])
  · intro f hf
    obtain ⟨b, hb⟩ := (mem_encodedFrames_iff f _).mp hf
    rw [heq] at hb
    simp only [List.mem_append, List.mem_flatten, List.mem_map, List.mem_range] at hb
    rcases hb with (hset' | ⟨step, ⟨i, hi, rfl⟩, hstep⟩) | hrest
    · simp [setupEvents] at hset'
    · rw [encode_mem_frameStep p h i f b hstep]
      omega
    · rw [encode_mem_frameStep p h k f b (runFrameStep_subset p h k _ hrest)]
  · rw [heq]
    simp only [List.mem_append, not_or]
    exact ⟨⟨by simp [setupEvents], flush_not_mem_steps p h _⟩,
      fun hr => flush_not_mem_frameStep p h k (runFrameStep_subset p h k _ hr)⟩
  · rw [heq]
    simp only [List.mem_append, not_or]
    exact ⟨⟨by simp [setupEvents], download_not_mem_steps p h _⟩,
      fun hr => download_not_mem_frameStep p h k (runFrameStep_subset p h k _ hr)⟩

/-- The run in which the `seekTo` call of iteration `k` is the first call of a
callback to throw. -/
theorem renderAndExport_of_seekTo_throws (p : ExportParams) (h : Host) (k : ℕ) (msg : String)
    (henc : h.hasVideoEncoder = true) (hel : h.hasElement p.canvasId = true)
    (hk : (k : ℤ) < totalFrames p) (hthrow : p.seekToThrows k = some msg)
    (hseek : ∀ i : ℕ, i < k → p.seekToThrows i = none)
    (hcall : ∀ i : ℕ, i < k → p.onProgressThrows i = none) :
    renderAndExport p h =
      { events := setupEvents p ++ ((List.range k).map (frameStep p h)).flatten
          ++ [.seekTo ((k : ℚ) / p.fps)]
        outcome := .threw msg } := by
  have hrun : runFrameStep p h k = ([.seekTo ((k : ℚ) / p.fps)], some msg) := by
    unfold runFrameStep
    rw [hthrow]
  obtain ⟨k', hk', hnone, ⟨hkn, _⟩ | ⟨hkn, msg', hmsg', heq⟩⟩ :=
    renderAndExport_events p h henc hel
  · have := hnone k (by omega)
    rw [hrun] at this
    cases this
  · have hkk : k' = k := by
      rcases lt_trichotomy k' k with hlt | heq' | hgt
      · rw [runFrameStep_of_returns p h k' (hseek k' hlt) (hcall k' hlt)] at hmsg'
        cases hmsg'
      · exact heq'
      · have := hnone k hgt
        rw [hrun] at this
        cases this
    rw [hkk] at heq hmsg'
    rw [hrun] at heq hmsg'
    simp only [Option.some.injEq] at hmsg'
    rw [heq, hmsg']

/-- C14 as stated fails: the arguments of `renderAndExport` carry no
cancellation request, so a request made after 10 of 60 frames changes nothing
of the run. The 2-second job at 30 fps whose callbacks return, on a host where
flush and finalize return, seeks all 60 frames, hands 60 frames to the
encoder, triggers the download and returns normally. -/
theorem export_of_60_frames_runs_through :
    (seekTimes (renderAndExport
        { width := 1920, height := 1080, duration := 2, fps := 30 }
        { hasVideoEncoder := true, hasElement := fun _ => true, captureOk := fun _ => true,
          flushRejects := fun _ => none, finalizeThrows := fun _ => none }).events).length =
      60 ∧
    (encodedFrames (renderAndExport
        { width := 1920, height := 1080, duration := 2, fps := 30 }
        { hasVideoEncoder := true, hasElement := fun _ => true, captureOk := fun _ => true,
          flushRejects := fun _ => none, finalizeThrows := fun _ => none }).events).length =
      60 ∧
    Event.download ∈ (renderAndExport
        { width := 1920, height := 1080, duration := 2, fps := 30 }
        { hasVideoEncoder := true, hasElement := fun _ => true, captureOk := fun _ => true,
          flushRejects := fun _ => none, finalizeThrows := fun _ => none }).events ∧
    (renderAndExport
        { width := 1920, height := 1080, duration := 2, fps := 30 }
        { hasVideoEncoder := true, hasElement := fun _ => true, captureOk := fun _ => true,
          flushRejects := fun _ => none, finalizeThrows := fun _ => none }).outcome =
      .returned ∧
    ¬ ∃ msg, (renderAndExport
        { width := 1920, height := 1080, duration := 2, fps := 30 }
        { hasVideoEncoder := true, hasElement := fun _ => true, captureOk := fun _ => true,
          flushRejects := fun _ => none, finalizeThrows := fun _ => none }).outcome =
      .threw msg := by
  have hT : totalFrames { width := 1920, height := 1080, duration := 2, fps := 30 } = 60 :=
    totalFrames_2s_30fps _ rfl rfl
  have hs := seekTimes_run
    { width := 1920, height := 1080, duration := 2, fps := 30 }
    { hasVideoEncoder := true, hasElement := fun _ => true, captureOk := fun _ => true,
      flushRejects := fun _ => none, finalizeThrows := fun _ => none }
    rfl rfl (fun _ _ => rfl) (fun _ _ => rfl)
  have hf := encodedFrames_run
    { width := 1920, height := 1080, duration := 2, fps := 30 }
    { hasVideoEncoder := true, hasElement := fun _ => true, captureOk := fun _ => true,
      flushRejects := fun _ => none, finalizeThrows := fun _ => none }
    rfl rfl (fun _ _ => rfl) (fun _ _ => rfl)
  obtain ⟨_, hiff, hret, _⟩ := renderAndExport_completion
    { width := 1920, height := 1080, duration := 2, fps := 30 }
    { hasVideoEncoder := true, hasElement := fun _ => true, captureOk := fun _ => true,
      flushRejects := fun _ => none, finalizeThrows := fun _ => none }
    rfl rfl (fun _ _ => rfl) (fun _ _ => rfl)
  have hout := hiff.mpr ⟨rfl, rfl⟩
  refine ⟨?_, ?_, ?_, hout, ?_⟩
  · rw [hs, hT]
    simp
  · rw [hf, hT]
    simp
  · obtain ⟨pre, hpre⟩ := hret hout
    rw [hpre]
    simp
  · rintro ⟨msg, hmsg⟩
    rw [hout] at hmsg
    cases hmsg

/-- C14, amended. On a host with an encoder and the canvas container the run
has no cancellation: when the callbacks return, every frame index
`0 .. totalFrames - 1` is sought, in order. The loop stops before its last
index only when the `seekTo` or the `onProgress` call of some iteration `i`
throws: the export then ends with that exception, no later index is sought, no
frame of a later index is encoded, and neither flush nor download is called.
In every run the loop either goes through every frame index and reaches the
flush, or is left by such an exception. -/
theorem export_stops_only_on_callback_error (p : ExportParams) (h : Host)
    (henc : h.hasVideoEncoder = true) (hel : h.hasElement p.canvasId = true) :
    ((∀ i : ℕ, (i : ℤ) < totalFrames p → p.seekToThrows i = none) →
     (∀ i : ℕ, (i : ℤ) < totalFrames p → p.onProgressThrows i = none) →
      seekTimes (renderAndExport p h).events =
        (List.range (totalFrames p).toNat).map (fun i : ℕ => (i : ℚ) / p.fps)) ∧
    ((seekTimes (renderAndExport p h).events).length < (totalFrames p).toNat →
      ∃ (i : ℕ) (msg : String),
        seekTimes (renderAndExport p h).events =
          (List.range (i + 1)).map (fun j : ℕ => (j : ℚ) / p.fps) ∧
        (p.seekToThrows i = some msg ∨
          (p.seekToThrows i = none ∧ p.onProgress = true ∧
            p.onProgressThrows i = some msg)) ∧
        (renderAndExport p h).outcome = .threw msg ∧
        (∀ f ∈ encodedFrames (renderAndExport p h).events, f.canvas ≤ i) ∧
        Event.flush ∉ (renderAndExport p h).events ∧
        Event.download ∉ (renderAndExport p h).events) ∧
    ((seekTimes (renderAndExport p h).events =
        (List.range (totalFrames p).toNat).map (fun i : ℕ => (i : ℚ) / p.fps) ∧
      Event.flush ∈ (renderAndExport p h).events) ∨
     (∃ (i : ℕ) (msg : String), (i : ℤ) < totalFrames p ∧
        seekTimes (renderAndExport p h).events =
          (List.range (i + 1)).map (fun j : ℕ => (j : ℚ) / p.fps) ∧
        (p.seekToThrows i = some msg ∨
          (p.seekToThrows i = none ∧ p.onProgress = true ∧
            p.onProgressThrows i = some msg)) ∧
        (renderAndExport p h).outcome = .threw msg ∧
        Event.flush ∉ (renderAndExport p h).events ∧
        Event.download ∉ (renderAndExport p h).events)) := by
  have hset : seekTimes (setupEvents p) = [] := rfl
  have hfull : ∀ k : ℕ, k = (totalFrames p).toNat →
      renderAndExport p h =
        { events := setupEvents p ++ ((List.range k).map (frameStep p h)).flatten
            ++ (finish h (encodedFrames
                (setupEvents p ++ ((List.range k).map (frameStep p h)).flatten))).events
          outcome := (finish h (encodedFrames
                (setupEvents p ++ ((List.range k).map (frameStep p h)).flatten))).outcome } →
      seekTimes (renderAndExport p h).events =
        (List.range (totalFrames p).toNat).map (fun i : ℕ => (i : ℚ) / p.fps) ∧
      Event.flush ∈ (renderAndExport p h).events := by
    intro k hkn heq
    rw [heq]
    simp only
    rw [seekTimes_append, seekTimes_finish, List.append_nil, seekTimes_append, seekTimes_steps,
      hset, List.nil_append, hkn]
    exact ⟨rfl, List.mem_append_right _ (flush_mem_finish h _)⟩
  refine ⟨fun hseek hcall => seekTimes_run p h henc hel hseek hcall, ?_, ?_⟩
  · intro hlen
    obtain ⟨k, hk, _, ⟨hkn, heq⟩ | ⟨hkn, msg, hmsg, heq⟩⟩ := renderAndExport_events p h henc hel
    · exfalso
      rw [(hfull k hkn heq).1, List.length_map, List.length_range] at hlen
      omega
    · exact ⟨k, msg, renderAndExport_thrown_in_loop p h k msg hmsg heq⟩
  · obtain ⟨k, hk, _, ⟨hkn, heq⟩ | ⟨hkn, msg, hmsg, heq⟩⟩ := renderAndExport_events p h henc hel
    · exact Or.inl (hfull k hkn heq)
    · obtain ⟨h1, h2, h3, _, h5, h6⟩ := renderAndExport_thrown_in_loop p h k msg hmsg heq
      exact Or.inr ⟨k, msg, by omega, h1, h2, h3, h5, h6⟩

/-- C14, amended, at a 2-second job at 30 fps. With callbacks that return all
60 frame indices are sought. With a `seekTo` that throws "cancelled" in the
iteration of index 10 the run makes 11 `seekTo` calls, ends with that
exception, and calls neither flush nor download. -/
theorem export_stops_only_on_callback_error_witness :
    (seekTimes (renderAndExport
        { width := 1920, height := 1080, duration := 2, fps := 30 }
        { hasVideoEncoder := true, hasElement := fun _ => true, captureOk := fun _ => true,
          flushRejects := fun _ => none, finalizeThrows := fun _ => none }).events).length =
      60 ∧
    (seekTimes (renderAndExport
        { width := 1920, height := 1080, duration := 2, fps := 30,
          seekToThrows := fun i => if i = 10 then some "cancelled" else none }
        { hasVideoEncoder := true, hasElement := fun _ => true, captureOk := fun _ => true,
          flushRejects := fun _ => none, finalizeThrows := fun _ => none }).events).length =
      11 ∧
    (renderAndExport
        { width := 1920, height := 1080, duration := 2, fps := 30,
          seekToThrows := fun i => if i = 10 then some "cancelled" else none }
        { hasVideoEncoder := true, hasElement := fun _ => true, captureOk := fun _ => true,
          flushRejects := fun _ => none, finalizeThrows := fun _ => none }).outcome =
      .threw "cancelled" ∧
    Event.download ∉ (renderAndExport
        { width := 1920, height := 1080, duration := 2, fps := 30,
          seekToThrows := fun i => if i = 10 then some "cancelled" else none }
        { hasVideoEncoder := true, hasElement := fun _ => true, captureOk := fun _ => true,
          flushRejects := fun _ => none, finalizeThrows := fun _ => none }).events := by
  have hT : totalFrames { width := 1920, height := 1080, duration := 2, fps := 30 } = 60 :=
    totalFrames_2s_30fps _ rfl rfl
  have hT' : totalFrames
      { width := 1920, height := 1080, duration := 2, fps := 30,
        seekToThrows := fun i => if i = 10 then some "cancelled" else none } = 60 :=
    totalFrames_2s_30fps _ rfl rfl
  have hgood := (export_stops_only_on_callback_error
    { width := 1920, height := 1080, duration := 2, fps := 30 }
    { hasVideoEncoder := true, hasElement := fun _ => true, captureOk := fun _ => true,
      flushRejects := fun _ => none, finalizeThrows := fun _ => none }
    rfl rfl).1 (fun _ _ => rfl) (fun _ _ => rfl)
  have hrun := renderAndExport_of_seekTo_throws
    { width := 1920, height := 1080, duration := 2, fps := 30,
      seekToThrows := fun i => if i = 10 then some "cancelled" else none }
    { hasVideoEncoder := true, hasElement := fun _ => true, captureOk := fun _ => true,
      flushRejects := fun _ => none, finalizeThrows := fun _ => none }
    10 "cancelled" rfl rfl (by rw [hT']; norm_num) rfl
    (fun i hi => by
      show (if i = 10 then some "cancelled" else none) = none
      rw [if_neg (by omega)])
    (fun _ _ => rfl)
  have hseeks : (seekTimes (renderAndExport
        { width := 1920, height := 1080, duration := 2, fps := 30,
          seekToThrows := fun i => if i = 10 then some "cancelled" else none }
        { hasVideoEncoder := true, hasElement := fun _ => true, captureOk := fun _ => true,
          flushRejects := fun _ => none, finalizeThrows := fun _ => none }).events).length =
      11 := by
    have hset : seekTimes (setupEvents
        { width := 1920, height := 1080, duration := 2, fps := 30,
          seekToThrows := fun i => if i = 10 then some "cancelled" else none }) = [] := rfl
    rw [hrun]
    simp only
    rw [seekTimes_append, seekTimes_append, seekTimes_steps, hset]
    simp [seekTimes]
  obtain ⟨i, msg, hi, _, hout, _, _, hdl⟩ := (export_stops_only_on_callback_error
    { width := 1920, height := 1080, duration := 2, fps := 30,
      seekToThrows := fun i => if i = 10 then some "cancelled" else none }
    { hasVideoEncoder := true, hasElement := fun _ => true, captureOk := fun _ => true,
      flushRejects := fun _ => none, finalizeThrows := fun _ => none }
    rfl rfl).2.1 (by rw [hseeks, hT']; decide)
  refine ⟨?_, hseeks, ?_, hdl⟩
  · rw [hgood, hT]
    simp
  · rw [hrun]

/-! ## Encoder output -/

theorem foldl_output (acc delivered : List EncodedChunk) :
    delivered.foldl output acc = acc ++ delivered := by
  induction delivered generalizing acc with
  | nil => simp
  | cons c cs ih => simp [List.foldl_cons, ih, output]

/-- C15 as stated fails: when the encoder delivers the chunk of timestamp
100000/3 before the chunk of timestamp 0, the muxer is handed them in that
order. -/
theorem muxer_input_sorted_fails :
    ¬ (∀ delivered : List EncodedChunk,
        ((muxerInput delivered).map EncodedChunk.timestamp).Pairwise (· < ·)) := by
  intro hall
  have h := hall [⟨100000/3⟩, ⟨0⟩]
  rw [muxerInput, foldl_output] at h
  norm_num at h

/-- C15, amended. The chunks are handed to the muxer one by one as the encoder
delivers them, in the delivery order, with no buffering and no reordering: the
muxer's input is in strictly increasing timestamp order exactly when the
deliveries are. -/
theorem muxer_input_is_delivery_order (delivered : List EncodedChunk) :
    muxerInput delivered = delivered ∧
    (∀ (muxed : List EncodedChunk) (chunk : EncodedChunk),
      output muxed chunk = muxed ++ [chunk]) ∧
    (((muxerInput delivered).map EncodedChunk.timestamp).Pairwise (· < ·) ↔
      (delivered.map EncodedChunk.timestamp).Pairwise (· < ·)) := by
  have h : muxerInput delivered = delivered := by
    rw [muxerInput, foldl_output, List.nil_append]
  exact ⟨h, fun _ _ => rfl, by rw [h]⟩

/-! ## The `none` curve and the blur -/

/-- For a name that resolves to the `none` entry, the export element of a
visible layer carries the identity style at every time. -/
theorem none_curve_is_identity (layer : Layer) (t : ℚ)
    (hnone : lookupAnimation (animationKey layer) = .entry ANIMATIONS_none)
    (hvis : isVisible layer t = true) :
    renderLayer true t layer =
      .ok (some (.exportDiv layer
        { opacity := 1, filter := none, scale := 1, x := 0, y := 0
          rotate := 0, rotateX := 0, rotateY := 0 })) := by
  have hs := getAnimationStyles_entry _ _ (layerProgress layer t) hnone
  rw [renderLayer_of_style true layer t _ hvis hs]
  by_cases h1 : layerProgress layer t ≥ 1
  · simp [h1, appliedStyle, ANIMATIONS_none, orZero]
  · by_cases h0 : layerProgress layer t ≤ 0
    · simp [h1, h0, appliedStyle, ANIMATIONS_none, orZero]
    · simp [h1, h0, appliedStyle, ANIMATIONS_none, orZero, interpolatedStyle,
        interpolateBoth, interpolateFilter, interpolate, unlessZero]

/-- The name `none` and a name found neither on the table nor on its
prototype resolve to the `none` entry. -/
theorem lookup_none_entry :
    lookupAnimation "none" = .entry ANIMATIONS_none ∧
    lookupAnimation "undefined" = .entry ANIMATIONS_none ∧
    lookupAnimation "sparkle" = .entry ANIMATIONS_none := by
  refine ⟨by decide, by decide, by decide⟩

/-- Inside the window the `none` curve does not return its stored final set,
the empty set, as the comment of line 16 announces for "no animation": only the
progress is tested, and the style built in lines 22-58 carries the two offsets
`x: 0` and `y: 0`. -/
theorem getAnimationStyles_none_inside_window :
    getAnimationStyles "none" (1/2) = .ok (some { x := some 0, y := some 0 }) ∧
    getAnimationStyles "none" 1 = .ok (some {}) ∧
    ({ x := some 0, y := some 0 } : Props) ≠ {} := by
  have hl : lookupAnimation "none" = .entry ANIMATIONS_none := by decide
  refine ⟨?_, ?_, by simp⟩
  · rw [getAnimationStyles_entry _ _ _ hl, if_neg (by norm_num), if_neg (by norm_num)]
    simp [ANIMATIONS_none, interpolatedStyle, interpolateBoth, interpolateFilter, interpolate,
      unlessZero, orZero]
  · rw [getAnimationStyles_entry _ _ _ hl, if_pos (by norm_num)]
    rfl

/-- C16 (evaluation at the failing input). A layer whose animation is
`constructor`, a name that is not in the table, gets no identity style from the
export branch: at its start, inside the entry window and after it, building
its element throws a `TypeError`. -/
theorem export_style_of_constructor_layer :
    ANIMATIONS.lookup "constructor" = none ∧
    renderLayer true 0
        { id := "title", start := 0, stop := 5, animation := some "constructor"
          style := { x := 10, y := 10 } } = .error .typeError ∧
    renderLayer true (1/4)
        { id := "title", start := 0, stop := 5, animation := some "constructor"
          style := { x := 10, y := 10 } } = .error .typeError ∧
    renderLayer true 1
        { id := "title", start := 0, stop := 5, animation := some "constructor"
          style := { x := 10, y := 10 } } = .error .typeError := by
  have hl : lookupAnimation "constructor" = .inherited := by decide
  refine ⟨by decide, ?_, ?_, ?_⟩ <;>
    norm_num [renderLayer, isVisible, animationKey, layerProgress, animationDuration,
      getAnimationStyles, hl]

/-- C17. For every curve whose initial and final sets both carry a blur, of
radii `r0` and `r1`, and every progress strictly between 0 and 1, the blur of
the style built in lines 22-58 is decided by the radius
`r0 + (r1 - r0) * progress`: a positive radius is the radius of the blur in
the style, and otherwise the style has no blur. That style is the result of
`getAnimationStyles` for every name resolving to the curve. For `blurIn` the
radius is `10 * (1 - progress)`. -/
theorem blur_interpolates_radius (anim : Animation) (r0 r1 p : ℚ)
    (hi : anim.initial.filter = some (.blur r0)) (hf : anim.animate.filter = some (.blur r1))
    (h0 : 0 < p) (h1 : p < 1) :
    (0 < r0 + (r1 - r0) * p →
      (interpolatedStyle anim p).filter = some (.blur (r0 + (r1 - r0) * p))) ∧
    (r0 + (r1 - r0) * p ≤ 0 → (interpolatedStyle anim p).filter = none) ∧
    (∀ name, lookupAnimation name = .entry anim →
      getAnimationStyles name p = .ok (some (interpolatedStyle anim p))) ∧
    (∃ style, getAnimationStyles "blurIn" p = .ok (some style) ∧
      style.filter = some (.blur (10 * (1 - p)))) := by
  have hstyle : ∀ (n : String) (a : Animation), lookupAnimation n = .entry a →
      getAnimationStyles n p = .ok (some (interpolatedStyle a p)) := by
    intro n a hn
    rw [getAnimationStyles_entry n a p hn, if_neg (not_le.mpr h1), if_neg (not_le.mpr h0)]
  have hgen : ∀ (a : Animation) (s0 s1 : ℚ), a.initial.filter = some (.blur s0) →
      a.animate.filter = some (.blur s1) → 0 < s0 + (s1 - s0) * p →
      (interpolatedStyle a p).filter = some (.blur (s0 + (s1 - s0) * p)) := by
    intro a s0 s1 ha0 ha1 hpos
    simp [interpolatedStyle, interpolateFilter, blurRadius, interpolate, ha0, ha1, hpos]
  refine ⟨hgen anim r0 r1 hi hf, ?_, fun name hn => hstyle name anim hn, ?_⟩
  · intro hneg
    simp [interpolatedStyle, interpolateFilter, blurRadius, interpolate, hi, hf,
      not_lt.mpr hneg]
  · have hb : lookupAnimation "blurIn" = .entry
        { name := "Blur In"
          initial := { filter := some (.blur 10), opacity := some 0 }
          animate := { filter := some (.blur 0), opacity := some 1 }
          exit := { filter := some (.blur 10), opacity := some 0 } } := by decide
    refine ⟨_, hstyle "blurIn" _ hb, ?_⟩
    have hr : (0 : ℚ) < 10 + (0 - 10) * p := by nlinarith
    have hr' : (10 : ℚ) + (0 - 10) * p = 10 * (1 - p) := by ring
    rw [hgen _ 10 0 rfl rfl hr, hr']

/-- C17 at progress 1/2: the `blurIn` curve, from 10px to 0px, gives a blur of
radius 5; a curve from 4px to 12px gives a blur of radius 8; a curve whose blur
stays at 0px gives no blur. -/
theorem blur_interpolates_radius_witness :
    (∃ style, getAnimationStyles "blurIn" (1/2) = .ok (some style) ∧
      style.filter = some (.blur 5)) ∧
    (interpolatedStyle
        { name := "Blur Out"
          initial := { filter := some (.blur 4) }
          animate := { filter := some (.blur 12) }
          exit := {} } (1/2)).filter = some (.blur 8) ∧
    (interpolatedStyle
        { name := "No Blur"
          initial := { filter := some (.blur 0) }
          animate := { filter := some (.blur 0) }
          exit := {} } (1/2)).filter = none := by
  have hb : lookupAnimation "blurIn" = .entry
      { name := "Blur In"
        initial := { filter := some (.blur 10), opacity := some 0 }
        animate := { filter := some (.blur 0), opacity := some 1 }
        exit := { filter := some (.blur 10), opacity := some 0 } } := by decide
  obtain ⟨hpos, _, hname, _⟩ :=
    blur_interpolates_radius
      { name := "Blur In"
        initial := { filter := some (.blur 10), opacity := some 0 }
        animate := { filter := some (.blur 0), opacity := some 1 }
        exit := { filter := some (.blur 10), opacity := some 0 } }
      10 0 (1/2) rfl rfl (by norm_num) (by norm_num)
  obtain ⟨hpos', _, _, _⟩ :=
    blur_interpolates_radius
      { name := "Blur Out"
        initial := { filter := some (.blur 4) }
        animate := { filter := some (.blur 12) }
        exit := {} }
      4 12 (1/2) rfl rfl (by norm_num) (by norm_num)
  obtain ⟨_, hzero, _, _⟩ :=
    blur_interpolates_radius
      { name := "No Blur"
        initial := { filter := some (.blur 0) }
        animate := { filter := some (.blur 0) }
        exit := {} }
      0 0 (1/2) rfl rfl (by norm_num) (by norm_num)
  have h5 : (10 : ℚ) + (0 - 10) * (1/2) = 5 := by norm_num
  have h8 : (4 : ℚ) + (12 - 4) * (1/2) = 8 := by norm_num
  rw [h5] at hpos
  rw [h8] at hpos'
  exact ⟨⟨_, hname "blurIn" hb, hpos (by norm_num)⟩, hpos' (by norm_num),
    hzero (by norm_num)⟩

/-! ## Layer management -/

theorem lookup_setField (o : Obj) (key key' : String) (v : FieldVal) :
    (setField o key v).lookup key' = if key' = key then some v else o.lookup key' := by
  induction o with
  | nil =>
    by_cases h : key' = key
    · subst h; simp [setField, List.lookup]
    · have hb : (key' == key) = false := by simpa using h
      simp [setField, List.lookup, hb, h]
  | cons kw rest ih =>
    obtain ⟨k, w⟩ := kw
    by_cases hk : k = key
    · subst hk
      by_cases h : key' = k
      · subst h; simp [setField, List.lookup]
      · have hb : (key' == k) = false := by simpa using h
        simp [setField, List.lookup, hb, h]
    · have hkb : (k == key) = false := by simpa using hk
      simp only [setField, hkb, Bool.false_eq_true, if_false, List.lookup]
      by_cases h : key' = k
      · subst h
        have hne : ¬ key' = key := hk
        simp [hne]
      · have hb : (key' == k) = false := by simpa using h
        simp only [hb]
        exact ih

theorem getField_setField (o : Obj) (key key' : String) (v : FieldVal) :
    getField (setField o key v) key' = if key' = key then v else getField o key' := by
  unfold getField
  rw [lookup_setField]
  by_cases h : key' = key <;> simp [h]

/-- Reading a key of `{ ...layer, ...updates }`: the value `updates` gives it
when `updates` names the key, the value of `layer` otherwise. -/
theorem getField_spread (updates : Obj) :
    ∀ (layer : Obj) (key : String), (updates.map Prod.fst).Nodup →
      getField (spread layer updates) key =
        match updates.lookup key with
        | some v => v
        | none => getField layer key := by
  induction updates with
  | nil => intro layer key _; rfl
  | cons kv rest ih =>
    intro layer key hnd
    obtain ⟨k, v⟩ := kv
    simp only [List.map_cons, List.nodup_cons] at hnd
    obtain ⟨hk, hrest⟩ := hnd
    have hstep : spread layer ((k, v) :: rest) = spread (setField layer k v) rest := rfl
    rw [hstep, ih (setField layer k v) key hrest, getField_setField]
    by_cases h : key = k
    · subst h
      have hnone : rest.lookup key = none := by
        rw [List.lookup_eq_none_iff]
        intro p hp
        have hne : key ≠ p.1 := by
          intro hkp
          apply hk
          rw [hkp]
          exact List.mem_map_of_mem _ hp
        simpa using hne
      simp [hnone, List.lookup]
    · have hb : (key == k) = false := by simpa using h
      simp [List.lookup, hb, h]

theorem lookup_spread_of_not_named (updates : Obj) :
    ∀ (layer : Obj) (key : String), updates.lookup key = none →
      (spread layer updates).lookup key = layer.lookup key := by
  induction updates with
  | nil => intro layer key _; rfl
  | cons kv rest ih =>
    intro layer key hnone
    obtain ⟨k, v⟩ := kv
    have hstep : spread layer ((k, v) :: rest) = spread (setField layer k v) rest := rfl
    by_cases h : key = k
    · subst h
      simp [List.lookup] at hnone
    · have hb : (key == k) = false := by simpa using h
      simp only [List.lookup, hb] at hnone
      rw [hstep, ih (setField layer k v) key hnone, lookup_setField, if_neg h]

theorem lookup_spread (updates : Obj) :
    ∀ (layer : Obj) (key : String), (updates.map Prod.fst).Nodup →
      (spread layer updates).lookup key =
        match updates.lookup key with
        | some v => some v
        | none => layer.lookup key := by
  induction updates with
  | nil => intro layer key _; rfl
  | cons kv rest ih =>
    intro layer key hnd
    obtain ⟨k, v⟩ := kv
    simp only [List.map_cons, List.nodup_cons] at hnd
    obtain ⟨hk, hrest⟩ := hnd
    have hstep : spread layer ((k, v) :: rest) = spread (setField layer k v) rest := rfl
    rw [hstep, ih (setField layer k v) key hrest, lookup_setField]
    by_cases h : key = k
    · subst h
      have hnone : rest.lookup key = none := by
        rw [List.lookup_eq_none_iff]
        intro p hp
        have hne : key ≠ p.1 := by
          intro hkp
          apply hk
          rw [hkp]
          exact List.mem_map_of_mem _ hp
        simpa using hne
      simp [hnone, List.lookup]
    · have hb : (key == k) = false := by simpa using h
      simp [List.lookup, hb, h]

/-- Strict equality of two string ids is equality of the strings. -/
theorem strictEq_str (a b : String) :
    strictEq (.prim (.str a)) (.str b) = true ↔ a = b := by
  simp [strictEq]

/-- C18. `handleUpdateLayer(id, updates)` keeps the length and the order of the
layer list and the selection; a layer whose id is not strictly equal to `id`
is unchanged; in a layer whose id is, every key named in `updates` has the
value `updates` gives it and every other key is as before; and when no layer
has that id the state is unchanged. -/
theorem handleUpdateLayer_replaces_fields (id : Prim) (updates : Obj) (s : EditorState)
    (hkeys : (updates.map Prod.fst).Nodup) :
    (handleUpdateLayer id updates s).layers.length = s.layers.length ∧
    (handleUpdateLayer id updates s).selectedLayerId = s.selectedLayerId ∧
    (∀ (i : ℕ) (old : Obj), s.layers[i]? = some old →
      ∃ new, (handleUpdateLayer id updates s).layers[i]? = some new ∧
        (strictEq (getField old "id") id = false → new = old) ∧
        (strictEq (getField old "id") id = true →
          ∀ key, new.lookup key =
            match updates.lookup key with
            | some v => some v
            | none => old.lookup key)) ∧
    ((∀ l ∈ s.layers, strictEq (getField l "id") id = false) →
      handleUpdateLayer id updates s = s) := by
  refine ⟨by simp [handleUpdateLayer], rfl, ?_, ?_⟩
  · intro i old hold
    refine ⟨if strictEq (getField old "id") id then spread old updates else old, ?_, ?_, ?_⟩
    · simp [handleUpdateLayer, List.getElem?_map, hold]
    · intro hne
      simp [hne]
    · intro heq key
      simp only [heq, if_true]
      exact lookup_spread updates old key hkeys
  · intro hnone
    have hmap : s.layers.map (fun layer =>
        if strictEq (getField layer "id") id then spread layer updates else layer) =
        s.layers := by
      conv_rhs => rw [← List.map_id s.layers]
      apply List.map_congr_left
      intro l hl
      simp [hnone l hl]
    simp only [handleUpdateLayer, hmap]

/-- C18 at a two-layer list: renaming the layer `b` gives its `name` the new
value, keeps its `start`, and leaves the layer `a` as it was. -/
theorem handleUpdateLayer_replaces_fields_witness :
    (∃ new, (handleUpdateLayer (.str "b") [("name", .prim (.str "Headline"))]
        { layers :=
            [ [("id", .prim (.str "a")), ("name", .prim (.str "Logo")),
               ("start", .prim (.num 0))],
              [("id", .prim (.str "b")), ("name", .prim (.str "Title")),
               ("start", .prim (.num 2))] ]
          selectedLayerId := .str "b" }).layers[1]? = some new ∧
      new.lookup "name" = some (.prim (.str "Headline")) ∧
      new.lookup "start" = some (.prim (.num 2)) ∧
      new.lookup "id" = some (.prim (.str "b"))) ∧
    (handleUpdateLayer (.str "b") [("name", .prim (.str "Headline"))]
        { layers :=
            [ [("id", .prim (.str "a")), ("name", .prim (.str "Logo")),
               ("start", .prim (.num 0))],
              [("id", .prim (.str "b")), ("name", .prim (.str "Title")),
               ("start", .prim (.num 2))] ]
          selectedLayerId := .str "b" }).layers[0]? =
      some [("id", .prim (.str "a")), ("name", .prim (.str "Logo")),
            ("start", .prim (.num 0))] := by
  obtain ⟨_, _, hlayer, _⟩ :=
    handleUpdateLayer_replaces_fields (.str "b") [("name", .prim (.str "Headline"))]
      { layers :=
          [ [("id", .prim (.str "a")), ("name", .prim (.str "Logo")),
             ("start", .prim (.num 0))],
            [("id", .prim (.str "b")), ("name", .prim (.str "Title")),
             ("start", .prim (.num 2))] ]
        selectedLayerId := .str "b" } (by decide)
  refine ⟨?_, ?_⟩
  · obtain ⟨new, hnew, _, hyes⟩ := hlayer 1 _ rfl
    have hy := hyes (by decide)
    exact ⟨new, hnew, by rw [hy]; rfl, by rw [hy]; rfl, by rw [hy]; rfl⟩
  · obtain ⟨new, hnew, hno, _⟩ := hlayer 0 _ rfl
    rw [hnew, hno (by decide)]
    rfl

/-- C19 as stated fails: an `updates` record that names `id` changes the id of
the layer it is merged into. -/
theorem ids_unchanged_fails :
    ¬ (∀ (id : Prim) (updates : Obj) (s : EditorState),
        (handleUpdateLayer id updates s).layers.map (fun l => getField l "id") =
          s.layers.map (fun l => getField l "id")) := by
  intro hall
  have h := hall (.str "a") [("id", .prim (.str "b"))]
    { layers := [[("id", .prim (.str "a")), ("name", .prim (.str "Logo"))]]
      selectedLayerId := .null }
  revert h
  decide

/-- C19, amended. For every layer list, every target id and every `updates`
record that does not name the field `id`, the sequence of layer ids after
`handleUpdateLayer` equals the sequence before it. -/
theorem ids_unchanged_unless_named (id : Prim) (updates : Obj) (s : EditorState)
    (hid : updates.lookup "id" = none) :
    (handleUpdateLayer id updates s).layers.map (fun l => getField l "id") =
      s.layers.map (fun l => getField l "id") := by
  simp only [handleUpdateLayer, List.map_map]
  apply List.map_congr_left
  intro l _
  simp only [Function.comp_apply]
  by_cases h : strictEq (getField l "id") id = true
  · simp only [h, if_true]
    unfold getField
    rw [lookup_spread_of_not_named updates l "id" hid]
  · simp [h]

/-- C19, amended, at the update the properties panel issues for a new start
time. -/
theorem ids_unchanged_unless_named_witness :
    (handleUpdateLayer (.str "a") [("start", .prim (.num 1))]
        { layers :=
            [ [("id", .prim (.str "a")), ("start", .prim (.num 0))],
              [("id", .prim (.str "b")), ("start", .prim (.num 2))] ]
          selectedLayerId := .str "a" }).layers.map (fun l => getField l "id") =
      [.prim (.str "a"), .prim (.str "b")] :=
  ids_unchanged_unless_named (.str "a") [("start", .prim (.num 1))]
    { layers :=
        [ [("id", .prim (.str "a")), ("start", .prim (.num 0))],
          [("id", .prim (.str "b")), ("start", .prim (.num 2))] ]
      selectedLayerId := .str "a" } rfl

/-- C20. `handleDeleteLayer(id)` removes exactly the layers whose id is
strictly equal to `id`: the new list is the old one without them, so the
layers that remain are unchanged and in their old order; the selection becomes
`null` when the selected id is strictly equal to `id` and is unchanged
otherwise. -/
theorem handleDeleteLayer_removes_id (id : Prim) (s : EditorState) :
    (handleDeleteLayer id s).layers =
      s.layers.filter (fun l => !strictEq (getField l "id") id) ∧
    (∀ l, l ∈ (handleDeleteLayer id s).layers ↔
      l ∈ s.layers ∧ strictEq (getField l "id") id = false) ∧
    (handleDeleteLayer id s).layers.Sublist s.layers ∧
    (strictEq (.prim s.selectedLayerId) id = true →
      (handleDeleteLayer id s).selectedLayerId = .null) ∧
    (strictEq (.prim s.selectedLayerId) id = false →
      (handleDeleteLayer id s).selectedLayerId = s.selectedLayerId) ∧
    ((∀ l ∈ s.layers, strictEq (getField l "id") id = false) →
      (handleDeleteLayer id s).layers = s.layers) := by
  refine ⟨rfl, ?_, ?_, ?_, ?_, ?_⟩
  · intro l
    simp [handleDeleteLayer, List.mem_filter]
  · exact List.filter_sublist _
  · intro h
    simp [handleDeleteLayer, h]
  · intro h
    simp [handleDeleteLayer, h]
  · intro h
    simp only [handleDeleteLayer]
    rw [List.filter_eq_self]
    intro l hl
    simp [h l hl]

/-- C20 at a three-layer list: deleting the selected layer `b` leaves `a` and
`c` in order and clears the selection; deleting `a` instead keeps the
selection of `b`. -/
theorem handleDeleteLayer_removes_id_witness :
    handleDeleteLayer (.str "b")
        { layers :=
            [ [("id", .prim (.str "a"))], [("id", .prim (.str "b"))],
              [("id", .prim (.str "c"))] ]
          selectedLayerId := .str "b" } =
      { layers := [ [("id", .prim (.str "a"))], [("id", .prim (.str "c"))] ]
        selectedLayerId := .null } ∧
    (handleDeleteLayer (.str "a")
        { layers :=
            [ [("id", .prim (.str "a"))], [("id", .prim (.str "b"))],
              [("id", .prim (.str "c"))] ]
          selectedLayerId := .str "b" }).selectedLayerId = .str "b" := by
  refine ⟨by decide, ?_⟩
  exact (handleDeleteLayer_removes_id (.str "a")
    { layers :=
        [ [("id", .prim (.str "a"))], [("id", .prim (.str "b"))],
          [("id", .prim (.str "c"))] ]
      selectedLayerId := .str "b" }).2.2.2.2.1 (by decide)

/-! ## Frame times: exact arithmetic and doubles -/

/-- In exact arithmetic the property holds: for a positive frame rate the times
`i / fps` of the indices below the exact ceiling of `duration * fps` are
strictly increasing and all in `[0, duration)`, so no layer starting at or
after `duration` is visible at any of them. -/
theorem seek_times_exact (duration fps : ℚ) (hfps : 0 < fps) :
    ((List.range ⌈duration * fps⌉.toNat).map (fun i : ℕ => (i : ℚ) / fps)).Pairwise (· < ·) ∧
    (∀ t ∈ (List.range ⌈duration * fps⌉.toNat).map (fun i : ℕ => (i : ℚ) / fps),
      0 ≤ t ∧ t < duration) ∧
    (∀ layer : Layer, duration ≤ layer.start →
      ∀ t ∈ (List.range ⌈duration * fps⌉.toNat).map (fun i : ℕ => (i : ℚ) / fps),
        isVisible layer t = false) := by
  have hbound : ∀ t ∈ (List.range ⌈duration * fps⌉.toNat).map (fun i : ℕ => (i : ℚ) / fps),
      0 ≤ t ∧ t < duration := by
    intro t ht
    rw [List.mem_map] at ht
    obtain ⟨i, hi, rfl⟩ := ht
    rw [List.mem_range] at hi
    have hlt : (i : ℤ) < ⌈duration * fps⌉ := by omega
    have hq : ((i : ℤ) : ℚ) < duration * fps := Int.lt_ceil.mp hlt
    have hq' : (i : ℚ) < duration * fps := by exact_mod_cast hq
    exact ⟨by positivity, (div_lt_iff₀ hfps).mpr hq'⟩
  refine ⟨?_, hbound, ?_⟩
  · rw [List.pairwise_map]
    refine (List.pairwise_lt_range _).imp ?_
    intro a b hab
    have hab' : (a : ℚ) < (b : ℚ) := by exact_mod_cast hab
    exact div_lt_div_of_pos_right hab' hfps
  · intro layer hstart t ht
    have hlt := (hbound t ht).2
    have hnot : ¬ (layer.start ≤ t ∧ t ≤ layer.stop) := by
      intro hv
      linarith [hv.1]
    rw [← isVisible_iff] at hnot
    simpa using hnot

theorem double_8_3 : roundDouble (83/10) = 2336242306698445 / 2 ^ 48 := by
  rw [roundDouble_of_near (83/10) 3 4672484613396890 (by norm_num) (by norm_num)
    (by norm_num) (by norm_num) (by rw [abs_lt]; constructor <;> norm_num)]
  norm_num

theorem double_8_3_times_30 :
    roundDouble (2336242306698445 / 2 ^ 48 * 30) = 8760908650119169 / 2 ^ 45 := by
  rw [roundDouble_of_near _ 7 8760908650119169 (by norm_num) (by norm_num)
    (by norm_num) (by norm_num) (by rw [abs_lt]; constructor <;> norm_num)]
  norm_num

/-- The loop of an export of 8.3 seconds at 30 fps has 250 iterations: the
double nearest to 8.3 is above 8.3 and its product with 30 is above 249. -/
theorem totalFrames_8_3s_30fps (p : ExportParams) (hd : p.duration = 83/10)
    (hf : p.fps = 30) : totalFrames p = 250 := by
  unfold totalFrames totalFramesDouble
  rw [hd, hf, double_8_3, roundDouble_thirty, double_8_3_times_30, Int.ceil_eq_iff]
  constructor <;> norm_num

theorem double_249_div_30 :
    roundDouble ((249 : ℕ) / 30) = 2336242306698445 / 2 ^ 48 := by
  rw [roundDouble_of_near _ 3 4672484613396890 (by norm_num) (by norm_num)
    (by norm_num) (by norm_num) (by rw [abs_lt]; constructor <;> norm_num)]
  norm_num

/-- C22 (evaluation at the failing input). With the arithmetic of doubles, an
export of duration 8.3 at 30 fps has 250 frames, and the time passed to
`seekTo` for the last index, 249 / 30, is the double 8.3 itself: it is not
below the duration, the instant `t = duration` is sampled, and a layer that
starts at 8.3 is visible at it. -/
theorem seek_at_duration_in_doubles :
    roundDouble (83/10) = 2336242306698445 / 2 ^ 48 ∧
    totalFramesDouble (roundDouble (83/10)) 30 = 250 ∧
    seekTimeDouble 249 30 = roundDouble (83/10) ∧
    ¬ (seekTimeDouble 249 30 < roundDouble (83/10)) ∧
    isVisible
        { id := "outro", start := roundDouble (83/10), stop := 10, animation := none
          style := { x := 0, y := 0 } }
        (seekTimeDouble 249 30) = true := by
  have hseek : seekTimeDouble 249 30 = roundDouble (83/10) := by
    unfold seekTimeDouble
    rw [double_249_div_30, double_8_3]
  refine ⟨double_8_3, ?_, hseek, ?_, ?_⟩
  · unfold totalFramesDouble
    rw [double_8_3, double_8_3_times_30, Int.ceil_eq_iff]
    constructor <;> norm_num
  · rw [hseek]
    exact lt_irrefl _
  · rw [isVisible_iff, hseek, double_8_3]
    constructor <;> norm_num

/-! ## Saving and copying scenes -/

theorem jsonPrim_of_clean (p : Prim) (h : (p != .undefined && p != .nan) = true) :
    jsonPrim p = some p := by
  cases p <;> simp [jsonPrim] at h ⊢

theorem jsonRecord_of_clean (fields : List (String × Prim))
    (h : fields.all (fun kv => kv.2 != .undefined && kv.2 != .nan) = true) :
    jsonRecord fields = fields := by
  induction fields with
  | nil => rfl
  | cons kv rest ih =>
    rw [List.all_cons, Bool.and_eq_true] at h
    obtain ⟨hkv, hrest⟩ := h
    have hrest' := ih hrest
    unfold jsonRecord at hrest' ⊢
    rw [List.filterMap_cons, jsonPrim_of_clean kv.2 hkv]
    simp only [Option.map_some', hrest']

theorem jsonField_of_clean (v : FieldVal) (h : jsonClean v = true) : jsonField v = some v := by
  cases v with
  | prim p => simp [jsonField, jsonPrim_of_clean p h]
  | record fields => simp [jsonField, jsonRecord_of_clean fields h]

/-- An object without `undefined` and `NaN` is read back unchanged. -/
theorem jsonObj_of_clean (o : Obj) (h : ∀ kv ∈ o, jsonClean kv.2 = true) : jsonObj o = o := by
  induction o with
  | nil => rfl
  | cons kv rest ih =>
    have hkv := h kv (List.mem_cons_self _ _)
    have hrest := ih (fun kv' hkv' => h kv' (List.mem_cons_of_mem _ hkv'))
    unfold jsonObj at hrest ⊢
    rw [List.filterMap_cons, jsonField_of_clean kv.2 hkv]
    simp only [Option.map_some', hrest]

/-- A scene without `undefined` and `NaN` is read back identical from the
saved text, and the deep copy of such layers equals the layers. -/
theorem saveAndParse_of_clean (scene : Scene)
    (ht : ∀ kv ∈ scene.template, jsonClean kv.2 = true)
    (hl : ∀ l ∈ scene.layers, ∀ kv ∈ l, jsonClean kv.2 = true) :
    saveAndParse scene = scene ∧ deepCopy scene.layers = scene.layers := by
  have hmap : scene.layers.map jsonObj = scene.layers := by
    conv_rhs => rw [← List.map_id scene.layers]
    apply List.map_congr_left
    intro l hmem
    simpa using jsonObj_of_clean l (hl l hmem)
  refine ⟨?_, hmap⟩
  simp only [saveAndParse, hmap, jsonObj_of_clean scene.template ht]

/-- C21 (evaluation at the failing input). After the Start field of the
selected layer has been emptied in the properties panel, the layer's `start`
is `NaN`; the saved text holds `null` for it, so the scene read back differs
from the scene that was saved. -/
theorem save_json_after_cleared_start :
    (handleChange "start" (parseFloatInput none)
        { layers := [[("id", .prim (.str "title")), ("start", .prim (.num 2)),
                      ("end", .prim (.num 5))]]
          selectedLayerId := .str "title" }).layers =
      [[("id", .prim (.str "title")), ("start", .prim .nan), ("end", .prim (.num 5))]] ∧
    saveAndParse
        { template := [("id", .prim (.str "promo")), ("duration", .prim (.num 10))]
          layers := [[("id", .prim (.str "title")), ("start", .prim .nan),
                      ("end", .prim (.num 5))]] } =
      { template := [("id", .prim (.str "promo")), ("duration", .prim (.num 10))]
        layers := [[("id", .prim (.str "title")), ("start", .prim .null),
                    ("end", .prim (.num 5))]] } ∧
    saveAndParse
        { template := [("id", .prim (.str "promo")), ("duration", .prim (.num 10))]
          layers := [[("id", .prim (.str "title")), ("start", .prim .nan),
                      ("end", .prim (.num 5))]] } ≠
      { template := [("id", .prim (.str "promo")), ("duration", .prim (.num 10))]
        layers := [[("id", .prim (.str "title")), ("start", .prim .nan),
                    ("end", .prim (.num 5))]] } := by
  refine ⟨by decide, by decide, by decide⟩

/-! ## Bounds of the interpolated values -/

theorem interpolate_between (start stop q : ℚ) (h0 : 0 ≤ q) (h1 : q ≤ 1) :
    min start stop ≤ interpolate start stop q ∧ interpolate start stop q ≤ max start stop := by
  unfold interpolate
  rcases le_total start stop with h | h
  · rw [min_eq_left h, max_eq_right h]
    constructor <;> nlinarith
  · rw [min_eq_right h, max_eq_left h]
    constructor <;> nlinarith

theorem interpolate_mono (start stop q q' : ℚ) (hq : q ≤ q') :
    (start ≤ stop → interpolate start stop q ≤ interpolate start stop q') ∧
    (stop ≤ start → interpolate start stop q' ≤ interpolate start stop q) := by
  unfold interpolate
  constructor <;> intro h <;> nlinarith

theorem interpolate_zero (a b : ℚ) : interpolate a b 0 = a := by
  unfold interpolate; ring

theorem interpolate_one (a b : ℚ) : interpolate a b 1 = b := by
  unfold interpolate; ring

/-- The three regimes of the evaluator, with the progress clamped to
`[0, 1]`. -/
theorem clamp_cases (p : ℚ) :
    (p ≥ 1 ∧ max 0 (min 1 p) = 1) ∨ (¬ p ≥ 1 ∧ p ≤ 0 ∧ max 0 (min 1 p) = 0) ∨
    (¬ p ≥ 1 ∧ ¬ p ≤ 0 ∧ max 0 (min 1 p) = p) := by
  by_cases h1 : p ≥ 1
  · left
    exact ⟨h1, by rw [min_eq_left h1, max_eq_right (by norm_num)]⟩
  · right
    have h1' : p < 1 := not_le.mp h1
    by_cases h0 : p ≤ 0
    · left
      exact ⟨h1, h0, by rw [min_eq_right h1'.le, max_eq_left h0]⟩
    · right
      have h0' : 0 < p := not_le.mp h0
      exact ⟨h1, h0, by rw [min_eq_right h1'.le, max_eq_right h0'.le]⟩

theorem clamp_bounds (p : ℚ) : 0 ≤ max 0 (min 1 p) ∧ max 0 (min 1 p) ≤ 1 :=
  ⟨le_max_left _ _, max_le (by norm_num) (min_le_left _ _)⟩

theorem clamp_mono (p p' : ℚ) (h : p ≤ p') : max 0 (min 1 p) ≤ max 0 (min 1 p') :=
  max_le_max le_rfl (min_le_min le_rfl h)

/-- Every property the table animates is present at both ends of its curve,
and every animated opacity rises within `[0, 1]`. -/
theorem table_bounds :
    ∀ e ∈ ANIMATIONS,
      opacityRises e.2.initial.opacity e.2.animate.opacity = true ∧
      sameKeys e.2.initial.scale e.2.animate.scale = true ∧
      sameKeys e.2.initial.filter e.2.animate.filter = true := by
  decide

/-- The value of a property that is interpolated only when present at both
ends (opacity, scale), in terms of the clamped progress. -/
theorem both_value (a b : Option ℚ) (p v : ℚ) (hk : sameKeys a b = true)
    (hv : (if p ≥ 1 then b else if p ≤ 0 then a else interpolateBoth a b p) = some v) :
    ∃ x y, a = some x ∧ b = some y ∧ v = interpolate x y (max 0 (min 1 p)) := by
  cases a with
  | none =>
    cases b with
    | none =>
      exfalso
      by_cases h1 : p ≥ 1
      · simp [h1] at hv
      · by_cases h0 : p ≤ 0 <;> simp [h1, h0, interpolateBoth] at hv
    | some y => simp [sameKeys] at hk
  | some x =>
    cases b with
    | none => simp [sameKeys] at hk
    | some y =>
      refine ⟨x, y, rfl, rfl, ?_⟩
      rcases clamp_cases p with ⟨h1, hc⟩ | ⟨h1, h0, hc⟩ | ⟨h1, h0, hc⟩
      · simp only [h1, if_true, Option.some.injEq] at hv
        rw [hc, interpolate_one, hv]
      · simp only [h1, h0, if_true, if_false, Option.some.injEq] at hv
        rw [hc, interpolate_zero, hv]
      · simp only [h1, h0, if_false, interpolateBoth, Option.some.injEq] at hv
        rw [hc, hv]

/-- The value of an offset, which is interpolated with absent ends read
as 0. -/
theorem offset_value (a b : Option ℚ) (p v : ℚ)
    (hv : (if p ≥ 1 then b else if p ≤ 0 then a
           else some (interpolate (orZero a) (orZero b) p)) = some v) :
    v = interpolate (orZero a) (orZero b) (max 0 (min 1 p)) := by
  rcases clamp_cases p with ⟨h1, hc⟩ | ⟨h1, h0, hc⟩ | ⟨h1, h0, hc⟩
  · simp only [h1, if_true] at hv
    rw [hc, interpolate_one, hv]
    rfl
  · simp only [h1, h0, if_true, if_false] at hv
    rw [hc, interpolate_zero, hv]
    rfl
  · simp only [h1, h0, if_false, Option.some.injEq] at hv
    rw [hc, hv]

/-- The value of a rotation, which is interpolated with absent ends read as 0
and written only when non-zero. -/
theorem rotation_value (a b : Option ℚ) (p v : ℚ)
    (hv : (if p ≥ 1 then b else if p ≤ 0 then a
           else unlessZero (interpolate (orZero a) (orZero b) p)) = some v) :
    v = interpolate (orZero a) (orZero b) (max 0 (min 1 p)) := by
  rcases clamp_cases p with ⟨h1, hc⟩ | ⟨h1, h0, hc⟩ | ⟨h1, h0, hc⟩
  · simp only [h1, if_true] at hv
    rw [hc, interpolate_one, hv]
    rfl
  · simp only [h1, h0, if_true, if_false] at hv
    rw [hc, interpolate_zero, hv]
    rfl
  · simp only [h1, h0, if_false, unlessZero] at hv
    by_cases hz : interpolate (orZero a) (orZero b) p ≠ 0
    · rw [if_pos hz, Option.some.injEq] at hv
      rw [hc, hv]
    · rw [if_neg hz] at hv
      cases hv

/-- The radius of the blur of the result, when there is one. -/
theorem blur_value (a b : Option Filter) (p r : ℚ) (hk : sameKeys a b = true)
    (hv : (if p ≥ 1 then b else if p ≤ 0 then a else interpolateFilter a b p) =
      some (.blur r)) :
    ∃ r0 r1, a = some (.blur r0) ∧ b = some (.blur r1) ∧
      r = interpolate r0 r1 (max 0 (min 1 p)) := by
  cases a with
  | none =>
    cases b with
    | none =>
      exfalso
      by_cases h1 : p ≥ 1
      · simp [h1] at hv
      · by_cases h0 : p ≤ 0 <;> simp [h1, h0, interpolateFilter] at hv
    | some y => simp [sameKeys] at hk
  | some x =>
    cases b with
    | none => simp [sameKeys] at hk
    | some y =>
      obtain ⟨r0⟩ := x
      obtain ⟨r1⟩ := y
      refine ⟨r0, r1, rfl, rfl, ?_⟩
      rcases clamp_cases p with ⟨h1, hc⟩ | ⟨h1, h0, hc⟩ | ⟨h1, h0, hc⟩
      · simp only [h1, if_true, Option.some.injEq, Filter.blur.injEq] at hv
        rw [hc, interpolate_one, hv]
      · simp only [h1, h0, if_true, if_false, Option.some.injEq, Filter.blur.injEq] at hv
        rw [hc, interpolate_zero, hv]
      · simp only [h1, h0, if_false, interpolateFilter, blurRadius] at hv
        by_cases hpos : interpolate r0 r1 p > 0
        · rw [if_pos hpos, Option.some.injEq, Filter.blur.injEq] at hv
          rw [hc, hv]
        · rw [if_neg hpos] at hv
          cases hv

/-- The fields of the style returned for a resolved curve, regime by
regime. -/
theorem entry_fields (anim : Animation) (p : ℚ) (s : Props)
    (hs : s = if p ≥ 1 then anim.animate else if p ≤ 0 then anim.initial
              else interpolatedStyle anim p) :
    (s.opacity = if p ≥ 1 then anim.animate.opacity else if p ≤ 0 then anim.initial.opacity
      else interpolateBoth anim.initial.opacity anim.animate.opacity p) ∧
    (s.scale = if p ≥ 1 then anim.animate.scale else if p ≤ 0 then anim.initial.scale
      else interpolateBoth anim.initial.scale anim.animate.scale p) ∧
    (s.x = if p ≥ 1 then anim.animate.x else if p ≤ 0 then anim.initial.x
      else some (interpolate (orZero anim.initial.x) (orZero anim.animate.x) p)) ∧
    (s.y = if p ≥ 1 then anim.animate.y else if p ≤ 0 then anim.initial.y
      else some (interpolate (orZero anim.initial.y) (orZero anim.animate.y) p)) ∧
    (s.rotate = if p ≥ 1 then anim.animate.rotate else if p ≤ 0 then anim.initial.rotate
      else unlessZero (interpolate (orZero anim.initial.rotate) (orZero anim.animate.rotate) p)) ∧
    (s.rotateX = if p ≥ 1 then anim.animate.rotateX else if p ≤ 0 then anim.initial.rotateX
      else unlessZero
        (interpolate (orZero anim.initial.rotateX) (orZero anim.animate.rotateX) p)) ∧
    (s.rotateY = if p ≥ 1 then anim.animate.rotateY else if p ≤ 0 then anim.initial.rotateY
      else unlessZero
        (interpolate (orZero anim.initial.rotateY) (orZero anim.animate.rotateY) p)) ∧
    (s.filter = if p ≥ 1 then anim.animate.filter else if p ≤ 0 then anim.initial.filter
      else interpolateFilter anim.initial.filter anim.animate.filter p) := by
  subst hs
  by_cases h1 : p ≥ 1
  · simp [h1]
  · by_cases h0 : p ≤ 0
    · simp [h1, h0]
    · simp [h1, h0, interpolatedStyle]

/-! ### Interpolation on doubles -/

/-- Interpolation on doubles from a double `A` up to a double `B`, when the
rounded difference `c` takes `A` no further than `B`: the result stays between
`A` and `B` and does not decrease with the progress. -/
theorem interpolateDouble_rising (A B c : ℚ) (hA : roundDouble A = A) (hB : roundDouble B = B)
    (hc : roundDouble (B - A) = c) (hcc : roundDouble c = c) (h0 : 0 ≤ c) (hs : A + c ≤ B) :
    (∀ q : ℚ, 0 ≤ q → q ≤ 1 →
      A ≤ interpolateDouble A B q ∧ interpolateDouble A B q ≤ B) ∧
    (∀ q q' : ℚ, q ≤ q' → interpolateDouble A B q ≤ interpolateDouble A B q') := by
  unfold interpolateDouble
  rw [hc]
  constructor
  · intro q hq0 hq1
    have h1 : 0 ≤ roundDouble (c * q) := roundDouble_nonneg _ (mul_nonneg h0 hq0)
    have h2 : roundDouble (c * q) ≤ c := by
      have := roundDouble_mono (c * q) c (by nlinarith)
      rwa [hcc] at this
    constructor
    · have := roundDouble_mono A (A + roundDouble (c * q)) (by linarith)
      rwa [hA] at this
    · have := roundDouble_mono (A + roundDouble (c * q)) B (by linarith)
      rwa [hB] at this
  · intro q q' hqq
    have h1 : roundDouble (c * q) ≤ roundDouble (c * q') :=
      roundDouble_mono _ _ (mul_le_mul_of_nonneg_left hqq h0)
    exact roundDouble_mono _ _ (by linarith)

/-- Interpolation on doubles from a double `A` down to a double `B`, when the
rounded difference `c` takes `A` no further than `B`: the result stays between
`B` and `A` and does not increase with the progress. -/
theorem interpolateDouble_falling (A B c : ℚ) (hA : roundDouble A = A) (hB : roundDouble B = B)
    (hc : roundDouble (B - A) = c) (hcc : roundDouble c = c) (h0 : c ≤ 0) (hs : B ≤ A + c) :
    (∀ q : ℚ, 0 ≤ q → q ≤ 1 →
      B ≤ interpolateDouble A B q ∧ interpolateDouble A B q ≤ A) ∧
    (∀ q q' : ℚ, q ≤ q' → interpolateDouble A B q' ≤ interpolateDouble A B q) := by
  unfold interpolateDouble
  rw [hc]
  constructor
  · intro q hq0 hq1
    have h1 : roundDouble (c * q) ≤ 0 := by
      have := roundDouble_mono (c * q) 0 (by nlinarith)
      rwa [roundDouble_zero] at this
    have h2 : c ≤ roundDouble (c * q) := by
      have := roundDouble_mono c (c * q) (by nlinarith)
      rwa [hcc] at this
    constructor
    · have := roundDouble_mono B (A + roundDouble (c * q)) (by linarith)
      rwa [hB] at this
    · have := roundDouble_mono (A + roundDouble (c * q)) A (by linarith)
      rwa [hA] at this
  · intro q q' hqq
    have h1 : roundDouble (c * q') ≤ roundDouble (c * q) :=
      roundDouble_mono _ _ (by nlinarith)
    exact roundDouble_mono _ _ (by linarith)

/-- The statement of the bounds for one call `interpolate(a, b, progress)` on
doubles, `a` and `b` standing for the doubles nearest to them. -/
theorem interpolateDouble_between_of_rising (a b c : ℚ)
    (hA : roundDouble (roundDouble a) = roundDouble a)
    (hB : roundDouble (roundDouble b) = roundDouble b)
    (hc : roundDouble (roundDouble b - roundDouble a) = c) (hcc : roundDouble c = c)
    (h0 : 0 < c) (hs : roundDouble a + c ≤ roundDouble b) :
    (∀ q : ℚ, 0 ≤ q → q ≤ 1 →
      min (roundDouble a) (roundDouble b) ≤ interpolateDouble (roundDouble a) (roundDouble b) q ∧
      interpolateDouble (roundDouble a) (roundDouble b) q ≤
        max (roundDouble a) (roundDouble b)) ∧
    (∀ q q' : ℚ, q ≤ q' →
      (roundDouble a ≤ roundDouble b →
        interpolateDouble (roundDouble a) (roundDouble b) q ≤
          interpolateDouble (roundDouble a) (roundDouble b) q') ∧
      (roundDouble b ≤ roundDouble a →
        interpolateDouble (roundDouble a) (roundDouble b) q' ≤
          interpolateDouble (roundDouble a) (roundDouble b) q)) := by
  obtain ⟨hb, hm⟩ := interpolateDouble_rising _ _ c hA hB hc hcc (le_of_lt h0) hs
  have hab : roundDouble a ≤ roundDouble b := by linarith
  rw [min_eq_left hab, max_eq_right hab]
  refine ⟨hb, fun q q' hqq => ⟨fun _ => hm q q' hqq, fun hba => ?_⟩⟩
  exfalso
  linarith

theorem interpolateDouble_between_of_falling (a b c : ℚ)
    (hA : roundDouble (roundDouble a) = roundDouble a)
    (hB : roundDouble (roundDouble b) = roundDouble b)
    (hc : roundDouble (roundDouble b - roundDouble a) = c) (hcc : roundDouble c = c)
    (h0 : c < 0) (hs : roundDouble b ≤ roundDouble a + c) :
    (∀ q : ℚ, 0 ≤ q → q ≤ 1 →
      min (roundDouble a) (roundDouble b) ≤ interpolateDouble (roundDouble a) (roundDouble b) q ∧
      interpolateDouble (roundDouble a) (roundDouble b) q ≤
        max (roundDouble a) (roundDouble b)) ∧
    (∀ q q' : ℚ, q ≤ q' →
      (roundDouble a ≤ roundDouble b →
        interpolateDouble (roundDouble a) (roundDouble b) q ≤
          interpolateDouble (roundDouble a) (roundDouble b) q') ∧
      (roundDouble b ≤ roundDouble a →
        interpolateDouble (roundDouble a) (roundDouble b) q' ≤
          interpolateDouble (roundDouble a) (roundDouble b) q)) := by
  obtain ⟨hb, hm⟩ := interpolateDouble_falling _ _ c hA hB hc hcc (le_of_lt h0) hs
  have hab : roundDouble b ≤ roundDouble a := by linarith
  rw [min_eq_right hab, max_eq_left hab]
  refine ⟨hb, fun q q' hqq => ⟨fun hba => ?_, fun _ => hm q q' hqq⟩⟩
  exfalso
  linarith

/-- The bounds for a call whose two ends and their difference are doubles. -/
theorem interpolateDouble_between_of_exact (a b : ℚ) (ha : roundDouble a = a)
    (hb : roundDouble b = b) (hd : roundDouble (b - a) = b - a) :
    (∀ q : ℚ, 0 ≤ q → q ≤ 1 →
      min (roundDouble a) (roundDouble b) ≤ interpolateDouble (roundDouble a) (roundDouble b) q ∧
      interpolateDouble (roundDouble a) (roundDouble b) q ≤
        max (roundDouble a) (roundDouble b)) ∧
    (∀ q q' : ℚ, q ≤ q' →
      (roundDouble a ≤ roundDouble b →
        interpolateDouble (roundDouble a) (roundDouble b) q ≤
          interpolateDouble (roundDouble a) (roundDouble b) q') ∧
      (roundDouble b ≤ roundDouble a →
        interpolateDouble (roundDouble a) (roundDouble b) q' ≤
          interpolateDouble (roundDouble a) (roundDouble b) q)) := by
  have hA : roundDouble (roundDouble a) = roundDouble a := by rw [ha, ha]
  have hB : roundDouble (roundDouble b) = roundDouble b := by rw [hb, hb]
  have hc : roundDouble (roundDouble b - roundDouble a) = b - a := by rw [ha, hb, hd]
  rcases lt_trichotomy a b with hlt | heq | hgt
  · exact interpolateDouble_between_of_rising a b (b - a) hA hB hc hd (by linarith)
      (by rw [ha, hb]; linarith)
  · subst heq
    have hconst : ∀ q : ℚ, interpolateDouble (roundDouble a) (roundDouble a) q = roundDouble a := by
      intro q
      unfold interpolateDouble
      rw [sub_self, roundDouble_zero, zero_mul, roundDouble_zero, add_zero, hA]
    simp only [hconst, min_self, max_self, le_refl, and_self, implies_true]
  · exact interpolateDouble_between_of_falling a b (b - a) hA hB hc hd (by linarith)
      (by rw [ha, hb]; linarith)

theorem roundDouble_neg_of_exact (q : ℚ) (h : roundDouble q = q) : roundDouble (-q) = -q := by
  rw [roundDouble_neg, h]

theorem roundDouble_half : roundDouble (1/2) = 1/2 :=
  roundDouble_of_exact (1/2) (-1) 4503599627370496 (by norm_num) (by norm_num) (by norm_num)
    (by norm_num) (by norm_num)

theorem roundDouble_three_halves : roundDouble (3/2) = 3/2 :=
  roundDouble_of_exact (3/2) 0 6755399441055744 (by norm_num) (by norm_num) (by norm_num)
    (by norm_num) (by norm_num)

theorem roundDouble_five : roundDouble 5 = 5 :=
  roundDouble_of_exact 5 2 5629499534213120 (by norm_num) (by norm_num) (by norm_num)
    (by norm_num) (by norm_num)

theorem roundDouble_ten : roundDouble 10 = 10 :=
  roundDouble_of_exact 10 3 5629499534213120 (by norm_num) (by norm_num) (by norm_num)
    (by norm_num) (by norm_num)

theorem roundDouble_fifteen : roundDouble 15 = 15 :=
  roundDouble_of_exact 15 3 8444249301319680 (by norm_num) (by norm_num) (by norm_num)
    (by norm_num) (by norm_num)

theorem roundDouble_twenty : roundDouble 20 = 20 :=
  roundDouble_of_exact 20 4 5629499534213120 (by norm_num) (by norm_num) (by norm_num)
    (by norm_num) (by norm_num)

theorem roundDouble_ninety : roundDouble 90 = 90 :=
  roundDouble_of_exact 90 6 6333186975989760 (by norm_num) (by norm_num) (by norm_num)
    (by norm_num) (by norm_num)

theorem roundDouble_hundred : roundDouble 100 = 100 :=
  roundDouble_of_exact 100 6 7036874417766400 (by norm_num) (by norm_num) (by norm_num)
    (by norm_num) (by norm_num)

theorem roundDouble_180 : roundDouble 180 = 180 :=
  roundDouble_of_exact 180 7 6333186975989760 (by norm_num) (by norm_num) (by norm_num)
    (by norm_num) (by norm_num)

/-- The double nearest to 0.3. -/
theorem roundDouble_three_tenths : roundDouble (3/10) = 5404319552844595 / 2 ^ 54 := by
  rw [roundDouble_of_near (3/10) (-2) 5404319552844595 (by norm_num) (by norm_num)
    (by norm_num) (by norm_num) (by rw [abs_lt]; constructor <;> norm_num)]
  norm_num

/-- The double nearest to 0.8. -/
theorem roundDouble_four_fifths : roundDouble (4/5) = 3602879701896397 / 2 ^ 52 := by
  rw [roundDouble_of_near (4/5) (-1) 7205759403792794 (by norm_num) (by norm_num)
    (by norm_num) (by norm_num) (by rw [abs_lt]; constructor <;> norm_num)]
  norm_num

/-- The double nearest to 0.9. -/
theorem roundDouble_nine_tenths : roundDouble (9/10) = 8106479329266893 / 2 ^ 53 := by
  rw [roundDouble_of_near (9/10) (-1) 8106479329266893 (by norm_num) (by norm_num)
    (by norm_num) (by norm_num) (by rw [abs_lt]; constructor <;> norm_num)]
  norm_num

/-- The bounds for `interpolate(0.3, 1, progress)` on doubles: the difference
`1 - 0.3` is a tie and rounds down, to the double 0.7. -/
theorem interpolateDouble_between_three_tenths :
    (∀ q : ℚ, 0 ≤ q → q ≤ 1 →
      min (roundDouble (3/10)) (roundDouble 1) ≤
        interpolateDouble (roundDouble (3/10)) (roundDouble 1) q ∧
      interpolateDouble (roundDouble (3/10)) (roundDouble 1) q ≤
        max (roundDouble (3/10)) (roundDouble 1)) ∧
    (∀ q q' : ℚ, q ≤ q' →
      (roundDouble (3/10) ≤ roundDouble 1 →
        interpolateDouble (roundDouble (3/10)) (roundDouble 1) q ≤
          interpolateDouble (roundDouble (3/10)) (roundDouble 1) q') ∧
      (roundDouble 1 ≤ roundDouble (3/10) →
        interpolateDouble (roundDouble (3/10)) (roundDouble 1) q' ≤
          interpolateDouble (roundDouble (3/10)) (roundDouble 1) q)) := by
  have hA : roundDouble (roundDouble (3/10)) = roundDouble (3/10) := by
    rw [roundDouble_three_tenths]
    exact roundDouble_of_exact _ (-2) 5404319552844595 (by norm_num) (by norm_num)
      (by norm_num) (by norm_num) (by norm_num)
  have hB : roundDouble (roundDouble 1) = roundDouble 1 := by rw [roundDouble_one, roundDouble_one]
  have hc : roundDouble (roundDouble 1 - roundDouble (3/10)) = 6305039478318694 / 2 ^ 53 := by
    rw [roundDouble_one, roundDouble_three_tenths,
      roundDouble_of_tie _ (-1) 6305039478318694 (by norm_num) (by norm_num) (by norm_num)
        (by norm_num) (by norm_num)]
    norm_num
  have hcc : roundDouble (6305039478318694 / 2 ^ 53) = 6305039478318694 / 2 ^ 53 :=
    roundDouble_of_exact _ (-1) 6305039478318694 (by norm_num) (by norm_num)
      (by norm_num) (by norm_num) (by norm_num)
  exact interpolateDouble_between_of_rising (3/10) 1 _ hA hB hc hcc (by norm_num)
    (by rw [roundDouble_one, roundDouble_three_tenths]; norm_num)

/-- The bounds for `interpolate(0.8, 1, progress)` on doubles: the difference
`1 - 0.8` is a double. -/
theorem interpolateDouble_between_four_fifths :
    (∀ q : ℚ, 0 ≤ q → q ≤ 1 →
      min (roundDouble (4/5)) (roundDouble 1) ≤
        interpolateDouble (roundDouble (4/5)) (roundDouble 1) q ∧
      interpolateDouble (roundDouble (4/5)) (roundDouble 1) q ≤
        max (roundDouble (4/5)) (roundDouble 1)) ∧
    (∀ q q' : ℚ, q ≤ q' →
      (roundDouble (4/5) ≤ roundDouble 1 →
        interpolateDouble (roundDouble (4/5)) (roundDouble 1) q ≤
          interpolateDouble (roundDouble (4/5)) (roundDouble 1) q') ∧
      (roundDouble 1 ≤ roundDouble (4/5) →
        interpolateDouble (roundDouble (4/5)) (roundDouble 1) q' ≤
          interpolateDouble (roundDouble (4/5)) (roundDouble 1) q)) := by
  have hA : roundDouble (roundDouble (4/5)) = roundDouble (4/5) := by
    rw [roundDouble_four_fifths]
    exact roundDouble_of_exact _ (-1) 7205759403792794 (by norm_num) (by norm_num)
      (by norm_num) (by norm_num) (by norm_num)
  have hB : roundDouble (roundDouble 1) = roundDouble 1 := by rw [roundDouble_one, roundDouble_one]
  have hcc : roundDouble (900719925474099 / 2 ^ 52) = 900719925474099 / 2 ^ 52 :=
    roundDouble_of_exact _ (-3) 7205759403792792 (by norm_num) (by norm_num)
      (by norm_num) (by norm_num) (by norm_num)
  have hc : roundDouble (roundDouble 1 - roundDouble (4/5)) = 900719925474099 / 2 ^ 52 := by
    rw [roundDouble_one, roundDouble_four_fifths]
    have e : (1 : ℚ) - 3602879701896397 / 2 ^ 52 = 900719925474099 / 2 ^ 52 := by norm_num
    rw [e, hcc]
  exact interpolateDouble_between_of_rising (4/5) 1 _ hA hB hc hcc (by norm_num)
    (by rw [roundDouble_one, roundDouble_four_fifths]; norm_num)

/-- On doubles `interpolate(0.3, 0.9, 1)` is 0.9000000000000001, one unit in
the last place above the double 0.9. -/
theorem interpolateDouble_three_tenths_nine_tenths :
    interpolateDouble (roundDouble (3/10)) (roundDouble (9/10)) 1 =
      8106479329266894 / 2 ^ 53 := by
  unfold interpolateDouble
  have hc : roundDouble (roundDouble (9/10) - roundDouble (3/10)) = 5404319552844596 / 2 ^ 53 := by
    rw [roundDouble_nine_tenths, roundDouble_three_tenths,
      roundDouble_of_tie _ (-1) 5404319552844595 (by norm_num) (by norm_num) (by norm_num)
        (by norm_num) (by norm_num)]
    norm_num
  have hcc : roundDouble (5404319552844596 / 2 ^ 53 * 1) = 5404319552844596 / 2 ^ 53 := by
    rw [mul_one]
    exact roundDouble_of_exact _ (-1) 5404319552844596 (by norm_num) (by norm_num)
      (by norm_num) (by norm_num) (by norm_num)
  rw [hc, hcc, roundDouble_three_tenths,
    roundDouble_of_tie _ (-1) 8106479329266893 (by norm_num) (by norm_num) (by norm_num)
      (by norm_num) (by norm_num)]
  norm_num

/-- The calls of `interpolate` made for the curves of the table. -/
theorem table_interpolateCalls :
    ∀ e ∈ ANIMATIONS, ∀ ab ∈ interpolateCalls e.2,
      ab ∈ [((0 : ℚ), (1 : ℚ)), (-100, 0), (100, 0), (0, 0), (1/2, 1), (3/2, 1), (3/10, 1),
        (-180, 0), (10, 0), (90, 0), (15, 0), (4/5, 1), (-20, 0), (-5, 0)] := by
  intro e he ab hab
  simp only [ANIMATIONS, List.mem_cons, List.mem_singleton, List.not_mem_nil, or_false] at he
  rcases he with rfl | rfl | rfl | rfl | rfl | rfl | rfl | rfl | rfl | rfl | rfl | rfl | rfl |
    rfl | rfl | rfl | rfl | rfl
  all_goals
    simp [interpolateCalls, orZero, blurRadius] at hab
    rcases hab with rfl | rfl | rfl | rfl | rfl | rfl | rfl | rfl <;> norm_num

/-- On doubles, every call of `interpolate` made for a curve of the table stays
between its two ends for a progress in `[0, 1]` and is monotone in the
progress. -/
theorem table_calls_bounded_on_doubles :
    ∀ e ∈ ANIMATIONS, ∀ ab ∈ interpolateCalls e.2,
      (∀ q : ℚ, 0 ≤ q → q ≤ 1 →
        min (roundDouble ab.1) (roundDouble ab.2) ≤
          interpolateDouble (roundDouble ab.1) (roundDouble ab.2) q ∧
        interpolateDouble (roundDouble ab.1) (roundDouble ab.2) q ≤
          max (roundDouble ab.1) (roundDouble ab.2)) ∧
      (∀ q q' : ℚ, q ≤ q' →
        (roundDouble ab.1 ≤ roundDouble ab.2 →
          interpolateDouble (roundDouble ab.1) (roundDouble ab.2) q ≤
            interpolateDouble (roundDouble ab.1) (roundDouble ab.2) q') ∧
        (roundDouble ab.2 ≤ roundDouble ab.1 →
          interpolateDouble (roundDouble ab.1) (roundDouble ab.2) q' ≤
            interpolateDouble (roundDouble ab.1) (roundDouble ab.2) q)) := by
  intro e he ab hab
  have hS := table_interpolateCalls e he ab hab
  simp only [List.mem_cons, List.mem_singleton, List.not_mem_nil, or_false] at hS
  have h0 : roundDouble (0 : ℚ) = 0 := roundDouble_zero
  have hneg : ∀ q : ℚ, roundDouble q = q → roundDouble (0 - q) = 0 - q := by
    intro q hq
    rw [zero_sub]
    exact roundDouble_neg_of_exact q hq
  have hpos : ∀ q : ℚ, roundDouble q = q → roundDouble (0 - -q) = 0 - -q := by
    intro q hq
    rw [zero_sub, neg_neg]
    exact hq
  rcases hS with rfl | rfl | rfl | rfl | rfl | rfl | rfl | rfl | rfl | rfl | rfl | rfl | rfl | rfl
  · exact interpolateDouble_between_of_exact 0 1 h0 roundDouble_one
      (by rw [sub_zero]; exact roundDouble_one)
  · exact interpolateDouble_between_of_exact (-100) 0
      (roundDouble_neg_of_exact _ roundDouble_hundred) h0 (hpos _ roundDouble_hundred)
  · exact interpolateDouble_between_of_exact 100 0 roundDouble_hundred h0
      (hneg _ roundDouble_hundred)
  · exact interpolateDouble_between_of_exact 0 0 h0 h0 (by rw [sub_zero]; exact h0)
  · exact interpolateDouble_between_of_exact (1/2) 1 roundDouble_half roundDouble_one
      (by norm_num [roundDouble_half])
  · exact interpolateDouble_between_of_exact (3/2) 1 roundDouble_three_halves roundDouble_one
      (by
        have e : (1 : ℚ) - 3/2 = -(1/2) := by norm_num
        rw [e]
        exact roundDouble_neg_of_exact _ roundDouble_half)
  · exact interpolateDouble_between_three_tenths
  · exact interpolateDouble_between_of_exact (-180) 0
      (roundDouble_neg_of_exact _ roundDouble_180) h0 (hpos _ roundDouble_180)
  · exact interpolateDouble_between_of_exact 10 0 roundDouble_ten h0 (hneg _ roundDouble_ten)
  · exact interpolateDouble_between_of_exact 90 0 roundDouble_ninety h0
      (hneg _ roundDouble_ninety)
  · exact interpolateDouble_between_of_exact 15 0 roundDouble_fifteen h0
      (hneg _ roundDouble_fifteen)
  · exact interpolateDouble_between_four_fifths
  · exact interpolateDouble_between_of_exact (-20) 0
      (roundDouble_neg_of_exact _ roundDouble_twenty) h0 (hpos _ roundDouble_twenty)
  · exact interpolateDouble_between_of_exact (-5) 0
      (roundDouble_neg_of_exact _ roundDouble_five) h0 (hpos _ roundDouble_five)

/-- Every value of the style built inside the window is the result of one of
the calls listed by `interpolateCalls`. -/
theorem interpolatedStyle_calls (anim : Animation) (p : ℚ) :
    (∀ v, (interpolatedStyle anim p).opacity = some v →
      ∃ ab ∈ interpolateCalls anim, v = interpolate ab.1 ab.2 p) ∧
    (∀ v, (interpolatedStyle anim p).scale = some v →
      ∃ ab ∈ interpolateCalls anim, v = interpolate ab.1 ab.2 p) ∧
    (∀ v, (interpolatedStyle anim p).x = some v →
      ∃ ab ∈ interpolateCalls anim, v = interpolate ab.1 ab.2 p) ∧
    (∀ v, (interpolatedStyle anim p).y = some v →
      ∃ ab ∈ interpolateCalls anim, v = interpolate ab.1 ab.2 p) ∧
    (∀ v, (interpolatedStyle anim p).rotate = some v →
      ∃ ab ∈ interpolateCalls anim, v = interpolate ab.1 ab.2 p) ∧
    (∀ v, (interpolatedStyle anim p).rotateX = some v →
      ∃ ab ∈ interpolateCalls anim, v = interpolate ab.1 ab.2 p) ∧
    (∀ v, (interpolatedStyle anim p).rotateY = some v →
      ∃ ab ∈ interpolateCalls anim, v = interpolate ab.1 ab.2 p) ∧
    (∀ r, (interpolatedStyle anim p).filter = some (.blur r) →
      ∃ ab ∈ interpolateCalls anim, r = interpolate ab.1 ab.2 p) := by
  refine ⟨?_, ?_, ?_, ?_, ?_, ?_, ?_, ?_⟩
  · intro v hv
    cases hi : anim.initial.opacity with
    | none => simp [interpolatedStyle, interpolateBoth, hi] at hv
    | some a =>
      cases ha : anim.animate.opacity with
      | none => simp [interpolatedStyle, interpolateBoth, hi, ha] at hv
      | some b =>
        simp [interpolatedStyle, interpolateBoth, hi, ha] at hv
        exact ⟨(a, b), by simp [interpolateCalls, hi, ha], hv.symm⟩
  · intro v hv
    cases hi : anim.initial.scale with
    | none => simp [interpolatedStyle, interpolateBoth, hi] at hv
    | some a =>
      cases ha : anim.animate.scale with
      | none => simp [interpolatedStyle, interpolateBoth, hi, ha] at hv
      | some b =>
        simp [interpolatedStyle, interpolateBoth, hi, ha] at hv
        exact ⟨(a, b), by simp [interpolateCalls, hi, ha], hv.symm⟩
  · intro v hv
    simp only [interpolatedStyle, Option.some.injEq] at hv
    exact ⟨(orZero anim.initial.x, orZero anim.animate.x), by simp [interpolateCalls], hv.symm⟩
  · intro v hv
    simp only [interpolatedStyle, Option.some.injEq] at hv
    exact ⟨(orZero anim.initial.y, orZero anim.animate.y), by simp [interpolateCalls], hv.symm⟩
  · intro v hv
    simp only [interpolatedStyle, unlessZero] at hv
    split_ifs at hv
    rw [Option.some.injEq] at hv
    exact ⟨(orZero anim.initial.rotate, orZero anim.animate.rotate),
      by simp [interpolateCalls], hv.symm⟩
  · intro v hv
    simp only [interpolatedStyle, unlessZero] at hv
    split_ifs at hv
    rw [Option.some.injEq] at hv
    exact ⟨(orZero anim.initial.rotateX, orZero anim.animate.rotateX),
      by simp [interpolateCalls], hv.symm⟩
  · intro v hv
    simp only [interpolatedStyle, unlessZero] at hv
    split_ifs at hv
    rw [Option.some.injEq] at hv
    exact ⟨(orZero anim.initial.rotateY, orZero anim.animate.rotateY),
      by simp [interpolateCalls], hv.symm⟩
  · intro r hr
    cases hi : anim.initial.filter with
    | none => simp [interpolatedStyle, interpolateFilter, hi] at hr
    | some f0 =>
      cases ha : anim.animate.filter with
      | none => simp [interpolatedStyle, interpolateFilter, hi, ha] at hr
      | some f1 =>
        simp only [interpolatedStyle, interpolateFilter, hi, ha] at hr
        split_ifs at hr
        rw [Option.some.injEq, Filter.blur.injEq] at hr
        exact ⟨(blurRadius f0, blurRadius f1), by simp [interpolateCalls, hi, ha], hr.symm⟩

/-- C23 as stated fails on doubles: `interpolate(0.3, 0.9, 1)` is
0.9000000000000001, above both of its ends, the doubles 0.3 and 0.9, although
the progress 1 is in `[0, 1]`. -/
theorem interpolate_exceeds_end_on_doubles :
    roundDouble (9/10) = 8106479329266893 / 2 ^ 53 ∧
    interpolateDouble (roundDouble (3/10)) (roundDouble (9/10)) 1 =
      8106479329266894 / 2 ^ 53 ∧
    ¬ (interpolateDouble (roundDouble (3/10)) (roundDouble (9/10)) 1 ≤
        max (roundDouble (3/10)) (roundDouble (9/10))) := by
  refine ⟨roundDouble_nine_tenths, interpolateDouble_three_tenths_nine_tenths, ?_⟩
  rw [interpolateDouble_three_tenths_nine_tenths, roundDouble_nine_tenths,
    roundDouble_three_tenths]
  norm_num

/-- C23, amended. In exact arithmetic `interpolate(start, end, p)` lies between
`start` and `end` for every `p` in `[0, 1]` and is monotone in `p`. On doubles
the same holds for every call of `interpolate` made for a curve of the table.
For every curve of the table and every progress, the opacity of the result
lies in `[0, 1]` and does not decrease when the progress grows, and the scale,
the offsets, the rotations and the blur radius of the result lie between their
initial and final values (an absent offset or rotation counting as 0). -/
theorem interpolated_values_bounded (name : String) (anim : Animation) (p : ℚ)
    (hmem : (name, anim) ∈ ANIMATIONS) :
    (∀ start stop q : ℚ, 0 ≤ q → q ≤ 1 →
      min start stop ≤ interpolate start stop q ∧
      interpolate start stop q ≤ max start stop) ∧
    (∀ start stop q q' : ℚ, q ≤ q' →
      (start ≤ stop → interpolate start stop q ≤ interpolate start stop q') ∧
      (stop ≤ start → interpolate start stop q' ≤ interpolate start stop q)) ∧
    (∀ ab ∈ interpolateCalls anim,
      (∀ q : ℚ, 0 ≤ q → q ≤ 1 →
        min (roundDouble ab.1) (roundDouble ab.2) ≤
          interpolateDouble (roundDouble ab.1) (roundDouble ab.2) q ∧
        interpolateDouble (roundDouble ab.1) (roundDouble ab.2) q ≤
          max (roundDouble ab.1) (roundDouble ab.2)) ∧
      (∀ q q' : ℚ, q ≤ q' →
        (roundDouble ab.1 ≤ roundDouble ab.2 →
          interpolateDouble (roundDouble ab.1) (roundDouble ab.2) q ≤
            interpolateDouble (roundDouble ab.1) (roundDouble ab.2) q') ∧
        (roundDouble ab.2 ≤ roundDouble ab.1 →
          interpolateDouble (roundDouble ab.1) (roundDouble ab.2) q' ≤
            interpolateDouble (roundDouble ab.1) (roundDouble ab.2) q))) ∧
    ∃ s, getAnimationStyles name p = .ok (some s) ∧
      (∀ o, s.opacity = some o → 0 ≤ o ∧ o ≤ 1) ∧
      (∀ (p' : ℚ) (s' : Props) (o o' : ℚ), p ≤ p' →
        getAnimationStyles name p' = .ok (some s') →
        s.opacity = some o → s'.opacity = some o' → o ≤ o') ∧
      (∀ v, s.scale = some v → ∃ a b, anim.initial.scale = some a ∧
        anim.animate.scale = some b ∧ min a b ≤ v ∧ v ≤ max a b) ∧
      (∀ v, s.x = some v →
        min (orZero anim.initial.x) (orZero anim.animate.x) ≤ v ∧
        v ≤ max (orZero anim.initial.x) (orZero anim.animate.x)) ∧
      (∀ v, s.y = some v →
        min (orZero anim.initial.y) (orZero anim.animate.y) ≤ v ∧
        v ≤ max (orZero anim.initial.y) (orZero anim.animate.y)) ∧
      (∀ v, s.rotate = some v →
        min (orZero anim.initial.rotate) (orZero anim.animate.rotate) ≤ v ∧
        v ≤ max (orZero anim.initial.rotate) (orZero anim.animate.rotate)) ∧
      (∀ v, s.rotateX = some v →
        min (orZero anim.initial.rotateX) (orZero anim.animate.rotateX) ≤ v ∧
        v ≤ max (orZero anim.initial.rotateX) (orZero anim.animate.rotateX)) ∧
      (∀ v, s.rotateY = some v →
        min (orZero anim.initial.rotateY) (orZero anim.animate.rotateY) ≤ v ∧
        v ≤ max (orZero anim.initial.rotateY) (orZero anim.animate.rotateY)) ∧
      (∀ r, s.filter = some (.blur r) → ∃ r0 r1, anim.initial.filter = some (.blur r0) ∧
        anim.animate.filter = some (.blur r1) ∧ min r0 r1 ≤ r ∧ r ≤ max r0 r1) := by
  have hl := lookup_of_mem name anim hmem
  obtain ⟨hop, hsc, hfi⟩ := table_bounds (name, anim) hmem
  have hc := clamp_bounds p
  refine ⟨interpolate_between, interpolate_mono,
    table_calls_bounded_on_doubles (name, anim) hmem, _,
    getAnimationStyles_entry name anim p hl, ?_⟩
  obtain ⟨fo, fs, fx, fy, fr, frx, fry, ff⟩ := entry_fields anim p _ rfl
  have hopk : sameKeys anim.initial.opacity anim.animate.opacity = true := by
    cases hi : anim.initial.opacity <;> cases ha : anim.animate.opacity <;>
      simp [hi, ha, opacityRises, sameKeys] at hop ⊢
  have hrise : ∀ a b, anim.initial.opacity = some a → anim.animate.opacity = some b →
      0 ≤ a ∧ a ≤ b ∧ b ≤ 1 := by
    intro a b ha hb
    simp only [ha, hb, opacityRises, Bool.and_eq_true, decide_eq_true_eq] at hop
    exact ⟨hop.1.1, hop.1.2, hop.2⟩
  refine ⟨?_, ?_, ?_, ?_, ?_, ?_, ?_, ?_, ?_⟩
  · intro o ho
    rw [fo] at ho
    obtain ⟨a, b, ha, hb, rfl⟩ := both_value _ _ p o hopk ho
    obtain ⟨h0, hab, h1⟩ := hrise a b ha hb
    have hbt := interpolate_between a b _ hc.1 hc.2
    rw [min_eq_left hab, max_eq_right hab] at hbt
    exact ⟨le_trans h0 hbt.1, le_trans hbt.2 h1⟩
  · intro p' s' o o' hpp hs' ho ho'
    rw [getAnimationStyles_entry name anim p' hl] at hs'
    have hs'' : s' = if p' ≥ 1 then anim.animate else if p' ≤ 0 then anim.initial
        else interpolatedStyle anim p' := by
      injection hs' with h1
      injection h1 with h2
      exact h2.symm
    obtain ⟨fo', _⟩ := entry_fields anim p' s' hs''
    rw [fo] at ho
    rw [fo'] at ho'
    obtain ⟨a, b, ha, hb, rfl⟩ := both_value _ _ p o hopk ho
    obtain ⟨a', b', ha', hb', rfl⟩ := both_value _ _ p' o' hopk ho'
    rw [ha] at ha'
    rw [hb] at hb'
    injection ha' with haa
    injection hb' with hbb
    subst haa hbb
    exact (interpolate_mono a b _ _ (clamp_mono p p' hpp)).1 (hrise a b ha hb).2.1
  · intro v hv
    rw [fs] at hv
    obtain ⟨a, b, ha, hb, rfl⟩ := both_value _ _ p v hsc hv
    exact ⟨a, b, ha, hb, interpolate_between a b _ hc.1 hc.2⟩
  · intro v hv
    rw [fx] at hv
    rw [offset_value _ _ p v hv]
    exact interpolate_between _ _ _ hc.1 hc.2
  · intro v hv
    rw [fy] at hv
    rw [offset_value _ _ p v hv]
    exact interpolate_between _ _ _ hc.1 hc.2
  · intro v hv
    rw [fr] at hv
    rw [rotation_value _ _ p v hv]
    exact interpolate_between _ _ _ hc.1 hc.2
  · intro v hv
    rw [frx] at hv
    rw [rotation_value _ _ p v hv]
    exact interpolate_between _ _ _ hc.1 hc.2
  · intro v hv
    rw [fry] at hv
    rw [rotation_value _ _ p v hv]
    exact interpolate_between _ _ _ hc.1 hc.2
  · intro r hr
    rw [ff] at hr
    obtain ⟨r0, r1, h0, h1, rfl⟩ := blur_value _ _ p r hfi hr
    exact ⟨r0, r1, h0, h1, interpolate_between r0 r1 _ hc.1 hc.2⟩

/-- C23, amended, at `zoomOut` and progress 1/2: opacity 1/2 in `[0, 1]`, scale
5/4 between the final 1 and the initial 3/2, and on doubles the scale
`interpolate(1.5, 1, 0.5)` between 1 and 1.5. -/
theorem interpolated_values_bounded_witness :
    (∃ s, getAnimationStyles "zoomOut" (1/2) = .ok (some s) ∧
      (∀ o, s.opacity = some o → 0 ≤ o ∧ o ≤ 1) ∧
      (∀ v, s.scale = some v → ∃ a b,
        (some (3/2) : Option ℚ) = some a ∧ (some 1 : Option ℚ) = some b ∧
        min a b ≤ v ∧ v ≤ max a b) ∧
      s.opacity = some (1/2) ∧ s.scale = some (5/4)) ∧
    1 ≤ interpolateDouble (roundDouble (3/2)) (roundDouble 1) (1/2) ∧
    interpolateDouble (roundDouble (3/2)) (roundDouble 1) (1/2) ≤ 3/2 := by
  have hmem : (("zoomOut",
      { name := "Zoom Out"
        initial := { scale := some (3/2), opacity := some 0 }
        animate := { scale := some 1, opacity := some 1 }
        exit := { scale := some (3/2), opacity := some 0 } }) : String × Animation) ∈
      ANIMATIONS := by
    simp [ANIMATIONS]
  obtain ⟨_, _, hdbl, s, hs, ho, _, hsc, _⟩ :=
    interpolated_values_bounded "zoomOut" _ (1/2) hmem
  have hs' := getAnimationStyles_entry "zoomOut" _ (1/2) (lookup_of_mem _ _ hmem)
  rw [if_neg (by norm_num), if_neg (by norm_num)] at hs'
  have heq : s = interpolatedStyle
      { name := "Zoom Out"
        initial := { scale := some (3/2), opacity := some 0 }
        animate := { scale := some 1, opacity := some 1 }
        exit := { scale := some (3/2), opacity := some 0 } } (1/2) := by
    rw [hs] at hs'
    injection hs' with h1
    injection h1
  have hcall := (hdbl ((3/2 : ℚ), (1 : ℚ)) (by simp [interpolateCalls])).1 (1/2)
    (by norm_num) (by norm_num)
  simp only [roundDouble_three_halves, roundDouble_one] at hcall ⊢
  rw [min_eq_right (by norm_num), max_eq_left (by norm_num)] at hcall
  refine ⟨⟨s, hs, ho, hsc, ?_, ?_⟩, hcall.1, hcall.2⟩
  · rw [heq]
    norm_num [interpolatedStyle, interpolateBoth, interpolate]
  · rw [heq]
    norm_num [interpolatedStyle, interpolateBoth, interpolate]

end AdEditor
